import Mathlib

/-!
# bootloadJOY: the Intel-HEX decoder and the HID upload loop of `main.c`

A shallow embedding of `parseUntilColon`, `parseHex`, `parseIntelHex`,
`getUsbInt`, `setUsbInt` and `uploadData`, followed by theorems about them.

Conventions of the embedding

* A C `int` is a Lean `Int`.  Where a value controlled by the device can leave
  the 32-bit range (`getUsbInt` on four bytes, `deviceSize - 2048`) the result
  is wrapped with `wrapInt32`; the bitwise operators act on the 32-bit two's
  complement pattern.
* An input file is the list of the characters `getc` delivers (`Stream`).
* Memory reached through a `char *` is a function from the offset to the byte
  stored there, a byte being the value `0 .. 255` of its bit pattern.
* Calls into the USB layer are recorded in a trace of `Event`s; the device is
  a deterministic oracle that may depend on everything that happened before.
-/

namespace BootloadJOY

/-! ## Character input -/

/-- The characters still to be read from a `FILE *`. -/
abbrev Stream := List Nat

/-- The value of the C constant `EOF`. -/
def EOF : Int := -1

/-- The character code of `':'`. -/
def colon : Nat := 58

/-- The C library call `getc`: the next character as a non-negative `int`, or
`EOF` at the end of the stream. -/
def getc : Stream → Int × Stream
  | [] => (EOF, [])
  | c :: fp => ((c : Int), fp)

/-- Conversion of an `int` to the bit pattern of a `char`. -/
def toChar (c : Int) : Nat := (c % 256).toNat

/-- The function `parseUntilColon`: `do c = getc(fp); while(c != ':' && c != EOF);`
and the character that ended the loop. -/
def parseUntilColon : Stream → Int × Stream
  | [] => (EOF, [])
  | c :: fp => if c = colon then ((colon : Int), fp) else parseUntilColon fp

/-! ## `strtol(temp, NULL, 16)` -/

/-- The C library predicate `isspace` in the "C" locale. -/
def isSpace (c : Nat) : Bool := c == 32 || (9 ≤ c && c ≤ 13)

/-- The value of a hexadecimal digit character, if it is one. -/
def hexDigitVal (c : Nat) : Option Nat :=
  if 48 ≤ c ∧ c ≤ 57 then some (c - 48)
  else if 65 ≤ c ∧ c ≤ 70 then some (c - 55)
  else if 97 ≤ c ∧ c ≤ 102 then some (c - 87)
  else none

/-- Accumulates hexadecimal digits up to the first character that is none
(the terminating NUL included). -/
def hexDigits : List Nat → Nat → Nat
  | [], acc => acc
  | c :: cs, acc =>
    match hexDigitVal c with
    | some d => hexDigits cs (16 * acc + d)
    | none => acc

/-- Drops the optional `0x` / `0X` prefix that `strtol` accepts in base 16. -/
def dropHexPrefix : List Nat → List Nat
  | 48 :: x :: d :: cs =>
    if (x = 120 ∨ x = 88) ∧ (hexDigitVal d).isSome then d :: cs else 48 :: x :: d :: cs
  | cs => cs

/-- The C library call `strtol(temp, NULL, 16)` on the characters of `temp`:
leading white space, an optional sign, an optional `0x`, then hexadecimal
digits up to the first character that is none. -/
def strtol16 (temp : List Nat) : Int :=
  match temp.dropWhile isSpace with
  | 45 :: cs => - (hexDigits (dropHexPrefix cs) 0 : Int)
  | 43 :: cs => (hexDigits (dropHexPrefix cs) 0 : Int)
  | cs => (hexDigits (dropHexPrefix cs) 0 : Int)

/-- The loop `for(i = 0; i < numDigits; i++) temp[i] = getc(fp);` of `parseHex`. -/
def readChars : Nat → Stream → List Nat × Stream
  | 0, fp => ([], fp)
  | n + 1, fp =>
    let r := getc fp
    let rest := readChars n r.2
    (toChar r.1 :: rest.1, rest.2)

/-- The function `parseHex`: reads `numDigits` characters and converts them with
`strtol(temp, NULL, 16)`. -/
def parseHex (fp : Stream) (numDigits : Nat) : Int × Stream :=
  let r := readChars numDigits fp
  (strtol16 r.1, r.2)

/-! ## The image and `parseIntelHex` -/

/-- The size of `dataBuffer`, `65536 + 256`. -/
def bufferSize : Int := 65536 + 256

/-- The three objects `parseIntelHex` updates through its pointer arguments. -/
structure Image where
  /-- The bytes of `buffer`, by index. -/
  buffer : Int → Int
  /-- The value of `*startAddr`. -/
  startAddr : Int
  /-- The value of `*endAddr`. -/
  endAddr : Int

/-- One `Warning: Checksum error between address 0x%x and 0x%x` line. -/
structure Warning where
  /-- The first printed address, `base`. -/
  base : Int
  /-- The second printed address, `address` after the data loop. -/
  address : Int
deriving DecidableEq, Repr

/-- How a run can fail to produce a result. -/
inductive Fault where
  /-- A store through `buffer[address++]` outside the array: undefined behaviour. -/
  | outOfBounds
  /-- The loop budget of the embedding was used up. -/
  | outOfFuel
deriving DecidableEq, Repr

/-- The store `buffer[address] = d`. -/
def store (buffer : Int → Int) (address d : Int) : Int → Int :=
  fun j => if j = address then d % 256 else buffer j

/-- The state after the data loop: stream, buffer, `address`, `sum`. -/
structure DataState where
  /-- The rest of the stream. -/
  fp : Stream
  /-- The buffer. -/
  buffer : Int → Int
  /-- The running cursor `address`. -/
  address : Int
  /-- The running checksum `sum`. -/
  sum : Int

/-- The loop `for(i = 0; i < lineLen; i++){ d = parseHex(input, 2);
buffer[address++] = d; sum += d; }`, with `n` iterations left. -/
def readData : Nat → DataState → Except Fault DataState
  | 0, s => .ok s
  | n + 1, s =>
    let r := parseHex s.fp 2
    if 0 ≤ s.address ∧ s.address < bufferSize then
      readData n ⟨r.2, store s.buffer s.address r.1, s.address + 1, s.sum + r.1⟩
    else .error .outOfBounds

/-- The `while(parseUntilColon(input) == ':')` loop of `parseIntelHex`; `fuel`
bounds the number of iterations. -/
def parseLoop : Nat → Stream → Image → List Warning → Except Fault (Image × List Warning)
  | 0, _, _, _ => .error .outOfFuel
  | fuel + 1, fp, img, ws =>
    let c := parseUntilColon fp
    if c.1 = (colon : Int) then
      let lineLen := parseHex c.2 2
      let address := parseHex lineLen.2 4
      let base := address.1
      let sum := lineLen.1 + address.1 / 256 + address.1
      let segment := parseHex address.2 2
      let sum := sum + segment.1
      if segment.1 ≠ 0 then parseLoop fuel segment.2 img ws
      else
        match readData lineLen.1.toNat ⟨segment.2, img.buffer, address.1, sum⟩ with
        | .error e => .error e
        | .ok s =>
          let ck := parseHex s.fp 2
          let sum := s.sum + ck.1
          let ws := if sum % 256 ≠ 0 then ws ++ [⟨base, s.address⟩] else ws
          let startAddr := if img.startAddr > base then base else img.startAddr
          let endAddr := if img.endAddr < s.address then s.address else img.endAddr
          parseLoop fuel ck.2 ⟨s.buffer, startAddr, endAddr⟩ ws
    else .ok (img, ws)

/-- The function `parseIntelHex`.  `hexfile` is `none` when `fopen` fails.  The
result is the returned status, the image and the warnings printed.  Every
iteration consumes the `':'` it found, so one unit of fuel per character and
one for the last test is enough (`parseLoop_enough`). -/
def parseIntelHex (hexfile : Option Stream) (img : Image) :
    Except Fault (Int × Image × List Warning) :=
  match hexfile with
  | none => .ok (1, img, [])
  | some fp =>
    match parseLoop (fp.length + 1) fp img [] with
    | .error e => .error e
    | .ok r => .ok (0, r.1, r.2)

/-- The image `main` hands to `parseIntelHex`: every byte `0xFF` (`memset` with
`-1`), `startAddress = sizeof(dataBuffer)` and `endAddress = 0`. -/
def freshImage : Image := ⟨fun _ => 255, bufferSize, 0⟩

/-! ## Well-formed record text -/

/-- A field of exactly `n` hexadecimal digits. -/
def isHexField (n : Nat) (cs : List Nat) : Bool :=
  cs.length == n && cs.all (fun c => (hexDigitVal c).isSome)

/-- The number a field of hexadecimal digits denotes. -/
def hexValue (cs : List Nat) : Nat := hexDigits cs 0

/-- The text of one record `:LLAAAATTDD..DDCC`, field by field, and the
characters that follow it up to the next record (the line end). -/
structure RecordText where
  /-- The two digits `LL`. -/
  count : List Nat
  /-- The four digits `AAAA`. -/
  addr : List Nat
  /-- The two digits `TT`. -/
  rtype : List Nat
  /-- The digit pairs `DD`. -/
  data : List (List Nat)
  /-- The two digits `CC`. -/
  cksum : List Nat
  /-- What follows the record before the next `':'`. -/
  trail : List Nat

namespace RecordText

/-- The byte count `LL`. -/
def byteCount (r : RecordText) : Nat := hexValue r.count

/-- The 16-bit address `AAAA`. -/
def address (r : RecordText) : Nat := hexValue r.addr

/-- The record type `TT`. -/
def recordType (r : RecordText) : Nat := hexValue r.rtype

/-- The data bytes. -/
def bytes (r : RecordText) : List Nat := r.data.map hexValue

/-- The trailing checksum byte `CC`. -/
def checksum (r : RecordText) : Nat := hexValue r.cksum

/-- The characters of the record as they stand in the file. -/
def text (r : RecordText) : Stream :=
  colon :: (r.count ++ r.addr ++ r.rtype ++ r.data.flatten ++ r.cksum ++ r.trail)

/-- Every field has its fixed width and holds hexadecimal digits only, there
are `LL` data bytes, and no `':'` stands between this record and the next. -/
def wellFormed (r : RecordText) : Bool :=
  isHexField 2 r.count && isHexField 4 r.addr && isHexField 2 r.rtype &&
  r.data.all (isHexField 2) && isHexField 2 r.cksum &&
  r.data.length == r.byteCount && r.trail.all (fun c => c != colon)

/-- The checksum rule of the format: byte count, both address bytes, record
type, all data bytes and the trailing checksum byte, summed. -/
def fieldSum (r : RecordText) : Nat :=
  r.byteCount + r.address / 256 + r.address % 256 + r.recordType + r.bytes.sum + r.checksum

end RecordText

/-! ## The effect of a record, as the specification states it

The functions below are not part of `main.c`: they say what a well-formed
record is specified to do (copy the data to `buffer` from `address` on, widen
the bounds, warn on a bad checksum).  The theorems compare the record loop of
`parseIntelHex` with them. -/

/-- The buffer after `ds` has been stored from `address` on. -/
def writeBytes (buffer : Int → Int) (address : Int) : List Nat → Int → Int
  | [] => buffer
  | d :: ds => writeBytes (store buffer address d) (address + 1) ds

/-- The image a well-formed record is specified to leave: unchanged when the
record type is not 0, else the data copied in and the bounds widened. -/
def applyRecord (r : RecordText) (img : Image) : Image :=
  if r.recordType ≠ 0 then img
  else
    ⟨writeBytes img.buffer r.address r.bytes,
     if img.startAddr > r.address then r.address else img.startAddr,
     if img.endAddr < r.address + r.bytes.length then r.address + r.bytes.length
     else img.endAddr⟩

/-- The warning a well-formed record is specified to cause: one for a type-0
record whose fields do not sum to 0 modulo 256, with its base and end address. -/
def recordWarnings (r : RecordText) : List Warning :=
  if r.recordType = 0 ∧ r.fieldSum % 256 ≠ 0 then
    [⟨r.address, r.address + r.bytes.length⟩]
  else []

/-- The text of a file: the records one after the other. -/
def fileText (recs : List RecordText) : Stream := (recs.map RecordText.text).flatten

/-- The image after all records of a file. -/
def applyRecords (recs : List RecordText) (img : Image) : Image :=
  recs.foldl (fun im r => applyRecord r im) img

/-- The warnings of all records of a file, in order. -/
def fileWarnings (recs : List RecordText) : List Warning :=
  (recs.map recordWarnings).flatten

/-- The result of a run whose warnings are preceded by the warnings `w`
printed before it. -/
def withWarnings (w : List Warning) :
    Except Fault (Int × Image × List Warning) → Except Fault (Int × Image × List Warning)
  | .ok r => .ok (r.1, r.2.1, w ++ r.2.2)
  | .error e => .error e

/-- The record `:02000000FEFF01` followed by a line feed. -/
def sampleRecord : RecordText :=
  ⟨[48, 50], [48, 48, 48, 48], [48, 48], [[70, 69], [70, 70]], [48, 49], [10]⟩

/-- The end-of-file record `:00000001FF` followed by a line feed. -/
def sampleEofRecord : RecordText :=
  ⟨[48, 48], [48, 48, 48, 48], [48, 49], [], [70, 70], [10]⟩

/-! ## Encoding type-0 records

The encoder of the round-trip property, written from the words of the
specification: a record is `':' LL AAAA '00' DD..DD CC` in upper-case ASCII
hexadecimal, `CC` being `(0x100 - (sum of all preceding field bytes mod 0x100))
mod 0x100`. -/

/-- The upper-case hexadecimal digit of `d < 16`. -/
def hexChar (d : Nat) : Nat := if d < 10 then 48 + d else 55 + d

/-- Two hexadecimal digits for a byte. -/
def hex2 (b : Nat) : List Nat := [hexChar (b / 16), hexChar (b % 16)]

/-- Four hexadecimal digits for a 16-bit address, high byte first. -/
def hex4 (a : Nat) : List Nat := hex2 (a / 256) ++ hex2 (a % 256)

/-- The checksum byte of the type-0 record that carries `chunk` at address `a`. -/
def encodeChecksum (a : Nat) (chunk : List Nat) : Nat :=
  (0x100 - (chunk.length + a / 256 + a % 256 + 0 + chunk.sum) % 0x100) % 0x100

/-- The type-0 record that carries `chunk` at address `a`, ended by `eol`. -/
def encodeRecord (eol : List Nat) (a : Nat) (chunk : List Nat) : RecordText :=
  ⟨hex2 chunk.length, hex4 a, hex2 0, chunk.map hex2, hex2 (encodeChecksum a chunk), eol⟩

/-- One record per chunk, at consecutive addresses from `a` on. -/
def encodeChunks (eol : List Nat) : Nat → List (List Nat) → List RecordText
  | _, [] => []
  | a, c :: cs => encodeRecord eol a c :: encodeChunks eol (a + c.length) cs

/-! ## 32-bit integers -/

/-- The 32-bit pattern of an `int`, as an unsigned number. -/
def toU32 (x : Int) : Nat := (x % 4294967296).toNat

/-- The `int` whose 32-bit two's complement pattern is that of `x`. -/
def wrapInt32 (x : Int) : Int :=
  if x % 4294967296 < 2147483648 then x % 4294967296 else x % 4294967296 - 4294967296

/-- The C operator `&` on `int`. -/
def bitAnd (a b : Int) : Int := wrapInt32 ((toU32 a &&& toU32 b : Nat) : Int)

/-- The C operator `|` on `int`. -/
def bitOr (a b : Int) : Int := wrapInt32 ((toU32 a ||| toU32 b : Nat) : Int)

/-- The C operator `~` on `int`. -/
def bitNot (a : Int) : Int := wrapInt32 (-a - 1)

/-- The C operator `<<` on `int`, keeping the low 32 bits. -/
def shiftLeft (a : Int) (n : Nat) : Int := wrapInt32 (a * 2 ^ n)

/-! ## `getUsbInt` and `setUsbInt` -/

/-- The loop of `getUsbInt`: `value |= ((int)*buffer & 0xff) << shift;
shift += 8; buffer++;`, with `n` iterations left. -/
def getUsbIntLoop : Nat → (Nat → Int) → Nat → Int → Int
  | 0, _, _, value => value
  | n + 1, buffer, shift, value =>
    getUsbIntLoop n (fun i => buffer (i + 1)) (shift + 8)
      (bitOr value (shiftLeft (bitAnd (buffer 0) 0xff) shift))

/-- The function `getUsbInt`; `buffer i` is the byte `i` places after the pointer. -/
def getUsbInt (buffer : Nat → Int) (numBytes : Nat) : Int :=
  getUsbIntLoop numBytes buffer 0 0

/-- The function `setUsbInt`: the bytes it stores, `*buffer++ = value;
value >>= 8;`. -/
def setUsbInt : Int → Nat → List Int
  | _, 0 => []
  | value, n + 1 => value % 256 :: setUsbInt (value / 256) n

/-! ## The USB layer and `uploadData` -/

/-- A call into the USB layer, or the line printed before the transfer. -/
inductive Event where
  /-- The call `usbOpenDevice(&dev, vid, ..., pid, ..., 1)`. -/
  | openDevice (vid pid : Int)
  /-- The call `usbGetReport(dev, FEATURE, reportId, buffer.bytes, &len)`. -/
  | getReport (reportId len : Int)
  /-- The call `usbSetReport(dev, FEATURE, buffer.bytes, n)` with the `n` bytes sent. -/
  | setReport (bytes : List Int)
  /-- The call `usbCloseDevice(dev)`. -/
  | closeDevice
  /-- The line `Uploading %d (0x%x) bytes starting at %d (0x%x)`. -/
  | printUploading (count start : Int)
deriving DecidableEq, Repr

/-- The device behind `usbcalls.h`: what each call returns, given the calls
made so far. -/
structure UsbDevice where
  /-- The result of `usbOpenDevice`; 0 means `dev` now holds a handle. -/
  openDevice : Int → Int → Int
  /-- The result of `usbGetReport` and the bytes received. -/
  getReport : List Event → Int → Int → Int × List Int
  /-- The result of `usbSetReport`. -/
  setReport : List Event → List Int → Int

/-- The size of the union `buffer`, which is that of `deviceData_t`. -/
def sizeofBuffer : Nat := 132

/-- The size of `deviceInfo_t`. -/
def sizeofInfo : Nat := 7

/-- The size of `buffer.data.data`. -/
def blockSize : Nat := 128

/-- The `n` bytes `usbSetReport` sends from `buffer.bytes`. -/
def reportBytes (buffer : Nat → Int) (n : Nat) : List Int := (List.range n).map buffer

/-- The union after `buffer.data.reportId = 2; memcpy(buffer.data.data,
dataBuffer + startAddr, 128); setUsbInt(buffer.data.address, startAddr, 3);`. -/
def dataBlock (dataBuffer : Int → Int) (startAddr : Int) : Nat → Int :=
  fun i =>
    if i = 0 then 2
    else if i < 4 then (setUsbInt startAddr 3).getD (i - 1) 0
    else dataBuffer (startAddr + ((i - 4 : Nat) : Int))

/-- The loop `while(startAddr < endAddr)` of `uploadData`.  The result is `err`,
the union and the trace; `none` when `fuel` iterations were not enough. -/
def uploadLoop (dev : UsbDevice) (dataBuffer : Int → Int) :
    Nat → Int → Int → (Nat → Int) → List Event → Option (Int × (Nat → Int) × List Event)
  | 0, startAddr, endAddr, buffer, tr =>
    if startAddr < endAddr then none else some (0, buffer, tr)
  | fuel + 1, startAddr, endAddr, buffer, tr =>
    if startAddr < endAddr then
      let block := dataBlock dataBuffer startAddr
      let report := reportBytes block sizeofBuffer
      let err := dev.setReport tr report
      if err ≠ 0 then some (err, block, tr ++ [Event.setReport report])
      else uploadLoop dev dataBuffer fuel (startAddr + blockSize) endAddr block
        (tr ++ [Event.setReport report])
    else some (0, buffer, tr)

/-- The end of `uploadData`: the mode-switch report when `leaveBootLoader` is
set, its result ignored, then `usbCloseDevice`. -/
def leaveAndClose (leaveBootLoader : Bool) (buffer : Nat → Int) (tr : List Event) :
    List Event :=
  if leaveBootLoader then
    tr ++ [Event.setReport (reportBytes (fun i => if i = 0 then 1 else buffer i) sizeofInfo),
      Event.closeDevice]
  else tr ++ [Event.closeDevice]

/-- The identifiers the device is opened with: `IDENT_VENDOR_NUM` and
`IDENT_PRODUCT_NUM` when `vid` or `pid` is 0. -/
def usbIds (vid pid : Int) : Int × Int :=
  if vid = 0 ∨ pid = 0 then (0x16c0, 0x05df) else (vid, pid)

/-- The trace of a run up to the `usbOpenDevice` call. -/
def openTrace (vid pid : Int) : List Event :=
  [Event.openDevice (usbIds vid pid).1 (usbIds vid pid).2]

/-- The result of `usbOpenDevice` in a run of `uploadData`. -/
def openResult (dev : UsbDevice) (vid pid : Int) : Int :=
  dev.openDevice (usbIds vid pid).1 (usbIds vid pid).2

/-- The result of the `usbGetReport` call of `uploadData`, made with report id 1
and `len = sizeof(buffer)`. -/
def infoResult (dev : UsbDevice) (vid pid : Int) : Int :=
  (dev.getReport (openTrace vid pid) 1 sizeofBuffer).1

/-- The bytes that call leaves in `buffer`, at most `sizeof(buffer)` of them;
their number is the new value of `len`. -/
def infoBytes (dev : UsbDevice) (vid pid : Int) : List Int :=
  (dev.getReport (openTrace vid pid) 1 sizeofBuffer).2.take sizeofBuffer

/-- The trace of a run up to the `usbGetReport` call. -/
def infoTrace (vid pid : Int) : List Event :=
  openTrace vid pid ++ [Event.getReport 1 sizeofBuffer]

/-- The union `buffer` after the `usbGetReport` call. -/
def infoBuffer (dev : UsbDevice) (stack : Nat → Int) (vid pid : Int) : Nat → Int :=
  fun i => if i < (infoBytes dev vid pid).length then (infoBytes dev vid pid).getD i 0
    else stack i

/-- The value of `pageSize = getUsbInt(buffer.info.pageSize, 2)`. -/
def pageSizeOf (dev : UsbDevice) (stack : Nat → Int) (vid pid : Int) : Int :=
  getUsbInt (fun i => infoBuffer dev stack vid pid (i + 1)) 2

/-- The value of `deviceSize = getUsbInt(buffer.info.flashSize, 4)`. -/
def deviceSizeOf (dev : UsbDevice) (stack : Nat → Int) (vid pid : Int) : Int :=
  getUsbInt (fun i => infoBuffer dev stack vid pid (i + 3)) 4

/-- The mask `if(pageSize < 128) mask = 127; else mask = pageSize - 1;`. -/
def alignMask (pageSize : Int) : Int := if pageSize < 128 then 127 else pageSize - 1

/-- The assignment `startAddr &= ~mask`. -/
def alignedStart (pageSize startAddr : Int) : Int :=
  bitAnd startAddr (bitNot (alignMask pageSize))

/-- The assignment `endAddr = (endAddr + mask) & ~mask`. -/
def alignedEnd (pageSize endAddr : Int) : Int :=
  bitAnd (endAddr + alignMask pageSize) (bitNot (alignMask pageSize))

/-- The trace of a run up to the line printed before the transfer. -/
def planTrace (pageSize startAddr endAddr vid pid : Int) : List Event :=
  infoTrace vid pid ++
    [Event.printUploading (alignedEnd pageSize endAddr - alignedStart pageSize startAddr)
      (alignedStart pageSize startAddr)]

/-- What follows the transfer loop: `goto errorOccurred` after a failed write,
else the mode switch; `usbCloseDevice` in both cases. -/
def finishUpload (leaveBootLoader : Bool) :
    Option (Int × (Nat → Int) × List Event) → Option (Int × List Event)
  | none => none
  | some (err, buffer, tr) =>
    if err ≠ 0 then some (err, tr ++ [Event.closeDevice])
    else some (0, leaveAndClose leaveBootLoader buffer tr)

/-- The function `uploadData`.  `leaveBootLoader` is the global flag, `stack`
the indeterminate initial contents of the union `buffer`, `dataBuffer` the
memory behind the pointer argument.  The result is the returned `err` and the
trace.  When `usbOpenDevice` fails `dev` stays `NULL` and nothing is closed.
The transfer loop gets one unit of fuel per byte of the range, which it never
uses up (`uploadData_returns`). -/
def uploadData (dev : UsbDevice) (leaveBootLoader : Bool) (stack : Nat → Int)
    (dataBuffer : Int → Int) (startAddr endAddr vid pid : Int) : Option (Int × List Event) :=
  if openResult dev vid pid ≠ 0 then some (openResult dev vid pid, openTrace vid pid)
  else if endAddr > startAddr then
    if infoResult dev vid pid ≠ 0 then
      some (infoResult dev vid pid, infoTrace vid pid ++ [Event.closeDevice])
    else if (infoBytes dev vid pid).length < sizeofInfo then
      some (-1, infoTrace vid pid ++ [Event.closeDevice])
    else if endAddr > wrapInt32 (deviceSizeOf dev stack vid pid - 2048) then
      some (-1, infoTrace vid pid ++ [Event.closeDevice])
    else
      finishUpload leaveBootLoader
        (uploadLoop dev dataBuffer
          (alignedEnd (pageSizeOf dev stack vid pid) endAddr -
            alignedStart (pageSizeOf dev stack vid pid) startAddr).toNat
          (alignedStart (pageSizeOf dev stack vid pid) startAddr)
          (alignedEnd (pageSizeOf dev stack vid pid) endAddr)
          (infoBuffer dev stack vid pid)
          (planTrace (pageSizeOf dev stack vid pid) startAddr endAddr vid pid))
  else some (0, leaveAndClose leaveBootLoader stack (openTrace vid pid))

/-! ## Vocabulary for the statements about `uploadData` -/

/-- The page size in a device-info report: bytes 1 and 2, little-endian. -/
def reportPageSize (resp : List Int) : Int :=
  resp.getD 1 0 % 256 + 256 * (resp.getD 2 0 % 256)

/-- The flash size in a device-info report: bytes 3 to 6, little-endian, as the
unsigned 32-bit number on the wire. -/
def reportFlashSize (resp : List Int) : Int :=
  resp.getD 3 0 % 256 + 256 * (resp.getD 4 0 % 256) + 65536 * (resp.getD 5 0 % 256) +
    16777216 * (resp.getD 6 0 % 256)

/-- The value `uploadData` compares `endAddr` with: `deviceSize - 2048` as a
32-bit `int`, `deviceSize` being the flash size of the report read as `int`. -/
def usableSize (resp : List Int) : Int := wrapInt32 (wrapInt32 (reportFlashSize resp) - 2048)

/-- The `usbSetReport` call that sends the data block for address `a`. -/
def blockEvent (dataBuffer : Int → Int) (a : Int) : Event :=
  Event.setReport (reportBytes (dataBlock dataBuffer a) sizeofBuffer)

/-- The 132 bytes of the data-block report for address `a`: report id 2, the
address as three little-endian bytes, then 128 bytes of the image. -/
def blockReport (dataBuffer : Int → Int) (a : Int) : List Int :=
  [2, a % 256, a / 256 % 256, a / 65536 % 256] ++
    (List.range 128).map (fun i : Nat => dataBuffer (a + (i : Int)))

/-- The data blocks for `a, a + 128, ...`, `n` of them. -/
def blockEvents (dataBuffer : Int → Int) (a : Int) (n : Nat) : List Event :=
  (List.range n).map (fun k : Nat => blockEvent dataBuffer (a + 128 * (k : Int)))

/-- Every data-block write recorded in the trace returned 0. -/
def DataWritesOk (dev : UsbDevice) (tr : List Event) : Prop :=
  ∀ pre b post, tr = pre ++ Event.setReport b :: post → b.length = sizeofBuffer →
    dev.setReport pre b = 0

/-- The run ended in an error without any data block having been sent. -/
def Rejected (res : Option (Int × List Event)) : Prop :=
  ∃ err tr, res = some (err, tr) ∧ err ≠ 0 ∧
    ∀ b, b.length = sizeofBuffer → Event.setReport b ∉ tr

/-! ## Sample devices -/

/-- A device that reports page size 128 and flash size 0xFFFFFFFF. -/
def deviceAllOnes : UsbDevice :=
  ⟨fun _ _ => 0, fun _ _ _ => (0, [1, 128, 0, 255, 255, 255, 255]), fun _ _ => 0⟩

/-- A device that reports page size 128 and flash size 0x80000000. -/
def deviceTopBit : UsbDevice :=
  ⟨fun _ _ => 0, fun _ _ _ => (0, [1, 128, 0, 0, 0, 0, 128]), fun _ _ => 0⟩

/-- A device that reports page size 200 and flash size 4096. -/
def devicePage200 : UsbDevice :=
  ⟨fun _ _ => 0, fun _ _ _ => (0, [1, 200, 0, 0, 16, 0, 0]), fun _ _ => 0⟩

/-- A device that reports page size 128 and flash size 2148. -/
def deviceFlash2148 : UsbDevice :=
  ⟨fun _ _ => 0, fun _ _ _ => (0, [1, 128, 0, 100, 8, 0, 0]), fun _ _ => 0⟩

/-- A device that reports page size 128 and flash size 4096. -/
def deviceFlash4096 : UsbDevice :=
  ⟨fun _ _ => 0, fun _ _ _ => (0, [1, 128, 0, 0, 16, 0, 0]), fun _ _ => 0⟩

/-- The device of `deviceFlash4096`, except that every write fails with 5. -/
def deviceWriteFails : UsbDevice :=
  ⟨fun _ _ => 0, fun _ _ _ => (0, [1, 128, 0, 0, 16, 0, 0]), fun _ _ => 5⟩

/-! ## Vocabulary for the statements about `getUsbInt` and `setUsbInt` -/

/-- The value of a `char` whose bit pattern is `b`, on a platform where `char`
is signed. -/
def signedChar (b : Int) : Int := if b < 128 then b else b - 256

/-- The memory `setUsbInt(buffer, value, numBytes)` leaves behind the pointer. -/
def storedBytes (value : Int) (numBytes : Nat) : Nat → Int :=
  fun i => (setUsbInt value numBytes).getD i 0

/-- A device that reports page size 4096 and flash size 2049. -/
def devicePage4096 : UsbDevice :=
  ⟨fun _ _ => 0, fun _ _ _ => (0, [1, 0, 16, 1, 8, 0, 0]), fun _ _ => 0⟩

/-- A device that reports page size 128 and flash size 4096, accepts every
132-byte report and answers 7 to every other `usbSetReport`. -/
def deviceLeaveFails : UsbDevice :=
  ⟨fun _ _ => 0, fun _ _ _ => (0, [1, 128, 0, 0, 16, 0, 0]),
    fun _ b => if b.length = 132 then 0 else 7⟩

/-- The record `:02FFFF00AABB00` followed by a line feed: two bytes stored at
the highest 16-bit address and the one after it. -/
def sampleHighRecord : RecordText :=
  ⟨[48, 50], [70, 70, 70, 70], [48, 48], [[65, 65], [66, 66]], [48, 48], [10]⟩

/-- The text of the two-record file `:02000000FEFF01`, `:00000001FF`, each line
ended by a line feed. -/
def scenarioText : Stream := ":02000000FEFF01\n:00000001FF\n".toList.map Char.toNat

/-- A device that reports page size 4096 and flash size 0x7FFFFFFF. -/
def deviceFlashMax : UsbDevice :=
  ⟨fun _ _ => 0, fun _ _ _ => (0, [1, 0, 16, 255, 255, 255, 127]), fun _ _ => 0⟩

/-- A device that reports page size 384 and flash size 4096. -/
def devicePage384 : UsbDevice :=
  ⟨fun _ _ => 0, fun _ _ _ => (0, [1, 128, 1, 0, 16, 0, 0]), fun _ _ => 0⟩

/-- A device that reports page size 4096 and flash size 32768. -/
def devicePage4096Flash32768 : UsbDevice :=
  ⟨fun _ _ => 0, fun _ _ _ => (0, [1, 0, 16, 0, 128, 0, 0]), fun _ _ => 0⟩

/-- The record `:02000000FEFF02` followed by a line feed: the data of
`sampleRecord` with a checksum byte that is one too high. -/
def sampleBadRecord : RecordText :=
  ⟨[48, 50], [48, 48, 48, 48], [48, 48], [[70, 69], [70, 70]], [48, 50], [10]⟩

/-! ## Hexadecimal fields -/

theorem hexDigitVal_isSome {c : Nat} (h : (hexDigitVal c).isSome = true) :
    (48 ≤ c ∧ c ≤ 57) ∨ (65 ≤ c ∧ c ≤ 70) ∨ (97 ≤ c ∧ c ≤ 102) := by
  unfold hexDigitVal at h
  split at h
  · omega
  · split at h
    · omega
    · split at h
      · omega
      · simp at h

theorem hexDigitVal_lt {c d : Nat} (h : hexDigitVal c = some d) : d < 16 := by
  unfold hexDigitVal at h
  split at h
  · simp at h; omega
  · split at h
    · simp at h; omega
    · split at h
      · simp at h; omega
      · simp at h

theorem toChar_hex {c : Nat} (h : (hexDigitVal c).isSome = true) : toChar (c : Int) = c := by
  have := hexDigitVal_isSome h
  unfold toChar
  omega

theorem readChars_hex (cs rest : List Nat) (h : ∀ c ∈ cs, (hexDigitVal c).isSome = true) :
    readChars cs.length (cs ++ rest) = (cs, rest) := by
  induction cs with
  | nil => rfl
  | cons c cs ih =>
    have hc := toChar_hex (h c (List.mem_cons_self _ _))
    have ih := ih (fun x hx => h x (List.mem_cons_of_mem _ hx))
    simp only [List.length_cons, List.cons_append, readChars, getc, ih, hc]

theorem dropHexPrefix_hex (cs : List Nat) (h : ∀ c ∈ cs, (hexDigitVal c).isSome = true) :
    dropHexPrefix cs = cs := by
  unfold dropHexPrefix
  split
  · rename_i x d cs
    have hx := hexDigitVal_isSome (h x (by simp))
    rw [if_neg]
    omega
  · rfl

theorem strtol16_hex (cs : List Nat) (h : ∀ c ∈ cs, (hexDigitVal c).isSome = true) :
    strtol16 cs = (hexDigits cs 0 : Int) := by
  cases cs with
  | nil => rfl
  | cons c cs =>
    have hc := hexDigitVal_isSome (h c (List.mem_cons_self _ _))
    have hsp : isSpace c = false := by
      unfold isSpace
      simp only [Bool.or_eq_false_iff, beq_eq_false_iff_ne, Bool.and_eq_false_iff,
        decide_eq_false_iff_not]
      omega
    have hdrop : (c :: cs).dropWhile isSpace = c :: cs := by
      simp [List.dropWhile, hsp]
    unfold strtol16
    rw [hdrop]
    split
    · rename_i heq
      simp only [List.cons.injEq] at heq
      omega
    · rename_i heq
      simp only [List.cons.injEq] at heq
      omega
    · rw [dropHexPrefix_hex _ h]

theorem isHexField_iff {n : Nat} {cs : List Nat} :
    isHexField n cs = true ↔ cs.length = n ∧ ∀ c ∈ cs, (hexDigitVal c).isSome = true := by
  simp [isHexField]

theorem parseHex_field {n : Nat} {cs : List Nat} (h : isHexField n cs = true)
    (rest : List Nat) : parseHex (cs ++ rest) n = ((hexValue cs : Int), rest) := by
  obtain ⟨hlen, hall⟩ := isHexField_iff.mp h
  subst hlen
  simp only [parseHex, readChars_hex cs rest hall, strtol16_hex cs hall, hexValue]

theorem hexDigits_lt (cs : List Nat) (h : ∀ c ∈ cs, (hexDigitVal c).isSome = true) :
    ∀ acc, hexDigits cs acc < (acc + 1) * 16 ^ cs.length := by
  induction cs with
  | nil => intro acc; simp [hexDigits]
  | cons c cs ih =>
    intro acc
    have hc := h c (List.mem_cons_self _ _)
    obtain ⟨d, hd⟩ := Option.isSome_iff_exists.mp hc
    have hlt := hexDigitVal_lt hd
    have ih := ih (fun x hx => h x (List.mem_cons_of_mem _ hx)) (16 * acc + d)
    simp only [hexDigits, hd, List.length_cons]
    calc hexDigits cs (16 * acc + d) < (16 * acc + d + 1) * 16 ^ cs.length := ih
      _ ≤ (16 * (acc + 1)) * 16 ^ cs.length := Nat.mul_le_mul_right _ (by omega)
      _ = (acc + 1) * 16 ^ (cs.length + 1) := by ring

theorem hexValue_lt {n : Nat} {cs : List Nat} (h : isHexField n cs = true) :
    hexValue cs < 16 ^ n := by
  obtain ⟨hlen, hall⟩ := isHexField_iff.mp h
  have := hexDigits_lt cs hall 0
  simpa [hexValue, hlen] using this

theorem hex_ne_colon {cs : List Nat} (h : ∀ c ∈ cs, (hexDigitVal c).isSome = true) :
    ∀ c ∈ cs, c ≠ colon := by
  intro c hc
  have := hexDigitVal_isSome (h c hc)
  unfold colon
  omega

/-! ## The data loop and the record loop on well-formed text -/

theorem readData_pairs (pairs : List (List Nat)) (rest : List Nat)
    (h : ∀ p ∈ pairs, isHexField 2 p = true) :
    ∀ (buffer : Int → Int) (a s : Int), 0 ≤ a → a + pairs.length ≤ bufferSize →
      readData pairs.length ⟨pairs.flatten ++ rest, buffer, a, s⟩ =
        .ok ⟨rest, writeBytes buffer a (pairs.map hexValue), a + pairs.length,
          s + ((pairs.map hexValue).sum : Nat)⟩ := by
  induction pairs with
  | nil => intro buffer a s _ _; simp [readData, writeBytes]
  | cons p pairs ih =>
    intro buffer a s ha hb
    have hp := h p (List.mem_cons_self _ _)
    have ih := ih (fun x hx => h x (List.mem_cons_of_mem _ hx))
    simp only [List.length_cons, Nat.cast_add, Nat.cast_one] at hb
    have hin : 0 ≤ a ∧ a < bufferSize := ⟨ha, by omega⟩
    simp only [List.length_cons, List.flatten_cons, List.append_assoc, readData,
      parseHex_field hp, hin, and_self, if_true, List.map_cons, List.sum_cons, writeBytes]
    rw [ih _ _ _ (by omega) (by omega)]
    simp only [Nat.cast_add, Nat.cast_one]
    congr 2 <;> ring

theorem parseUntilColon_skip (junk rest : List Nat) (h : ∀ c ∈ junk, c ≠ colon) :
    parseUntilColon (junk ++ rest) = parseUntilColon rest := by
  induction junk with
  | nil => rfl
  | cons c junk ih =>
    have hc := h c (List.mem_cons_self _ _)
    simp only [List.cons_append, parseUntilColon, hc, if_false]
    exact ih (fun x hx => h x (List.mem_cons_of_mem _ hx))

theorem parseLoop_skip (junk rest : List Nat) (h : ∀ c ∈ junk, c ≠ colon) (fuel : Nat)
    (img : Image) (ws : List Warning) :
    parseLoop fuel (junk ++ rest) img ws = parseLoop fuel rest img ws := by
  cases fuel with
  | zero => rfl
  | succ fuel => simp only [parseLoop, parseUntilColon_skip junk rest h]

theorem parseLoop_noColon (fp : List Nat) (h : ∀ c ∈ fp, c ≠ colon) (fuel : Nat)
    (img : Image) (ws : List Warning) :
    parseLoop (fuel + 1) fp img ws = .ok (img, ws) := by
  have h1 := parseUntilColon_skip fp [] h
  rw [List.append_nil] at h1
  simp only [parseLoop, h1, parseUntilColon, EOF, colon]
  rfl

/-- The facts `RecordText.wellFormed` packs together. -/
theorem wellFormed_iff (r : RecordText) :
    r.wellFormed = true ↔
      isHexField 2 r.count = true ∧ isHexField 4 r.addr = true ∧
      isHexField 2 r.rtype = true ∧ (∀ p ∈ r.data, isHexField 2 p = true) ∧
      isHexField 2 r.cksum = true ∧ r.data.length = r.byteCount ∧
      ∀ c ∈ r.trail, c ≠ colon := by
  simp [RecordText.wellFormed, and_assoc]

theorem flatten_hex (pairs : List (List Nat)) (h : ∀ p ∈ pairs, isHexField 2 p = true) :
    ∀ c ∈ pairs.flatten, (hexDigitVal c).isSome = true := by
  intro c hc
  obtain ⟨p, hp, hcp⟩ := List.mem_flatten.mp hc
  exact (isHexField_iff.mp (h p hp)).2 c hcp

/-- One iteration of the record loop on the text of a well-formed record. -/
theorem parseLoop_record (r : RecordText) (hr : r.wellFormed = true) (rest : List Nat)
    (fuel : Nat) (img : Image) (ws : List Warning) :
    parseLoop (fuel + 1) (r.text ++ rest) img ws =
      parseLoop fuel rest (applyRecord r img) (ws ++ recordWarnings r) := by
  obtain ⟨hcount, haddr, htype, hdata, hck, hlen, htrail⟩ := (wellFormed_iff r).mp hr
  have hc1 : parseUntilColon (r.text ++ rest) =
      ((colon : Int), r.count ++ (r.addr ++ (r.rtype ++ (r.data.flatten ++
        (r.cksum ++ (r.trail ++ rest)))))) := by
    simp [RecordText.text, parseUntilColon]
  have hn := hexValue_lt hcount
  have ha := hexValue_lt haddr
  simp only [parseLoop, hc1, if_true, parseHex_field hcount, parseHex_field haddr,
    parseHex_field htype]
  by_cases ht : r.recordType = 0
  · have ht0 : ((hexValue r.rtype : Nat) : Int) = 0 := by
      simpa [RecordText.recordType] using ht
    have hbytes : r.bytes.length = r.data.length := by simp [RecordText.bytes]
    have hlen2 : ((hexValue r.count : Nat) : Int).toNat = r.data.length := by
      simp [hlen, RecordText.byteCount]
    have hlenN : r.data.length < 256 := by
      rw [hlen]; simpa [RecordText.byteCount] using hn
    have haN : hexValue r.addr < 65536 := by simpa using ha
    rw [if_neg (by simp [ht0]), hlen2,
      readData_pairs r.data _ hdata _ _ _ (by omega) (by unfold bufferSize; omega)]
    simp only [parseHex_field hck]
    rw [parseLoop_skip _ _ htrail]
    have himg : applyRecord r img =
        ⟨writeBytes img.buffer (hexValue r.addr) (r.data.map hexValue),
          if img.startAddr > (hexValue r.addr : Int) then (hexValue r.addr : Int)
          else img.startAddr,
          if img.endAddr < (hexValue r.addr : Int) + (r.data.length : Int) then
            (hexValue r.addr : Int) + (r.data.length : Int)
          else img.endAddr⟩ := by
      simp [applyRecord, ht, RecordText.address, RecordText.bytes]
    have hsum : ((((hexValue r.count : Nat) : Int) + ((hexValue r.addr : Nat) : Int) / 256 +
        ((hexValue r.addr : Nat) : Int) + ((hexValue r.rtype : Nat) : Int) +
        (((r.data.map hexValue).sum : Nat) : Int) + ((hexValue r.cksum : Nat) : Int)) % 256 ≠ 0)
        ↔ r.fieldSum % 256 ≠ 0 := by
      simp only [RecordText.fieldSum, RecordText.byteCount, RecordText.address,
        RecordText.recordType, RecordText.bytes, RecordText.checksum]
      omega
    have hws : (if (((hexValue r.count : Nat) : Int) + ((hexValue r.addr : Nat) : Int) / 256 +
        ((hexValue r.addr : Nat) : Int) + ((hexValue r.rtype : Nat) : Int) +
        (((r.data.map hexValue).sum : Nat) : Int) + ((hexValue r.cksum : Nat) : Int)) % 256 ≠ 0
        then ws ++ [(⟨(hexValue r.addr : Int), (hexValue r.addr : Int) + (r.data.length : Int)⟩ :
          Warning)] else ws) = ws ++ recordWarnings r := by
      by_cases hs : r.fieldSum % 256 ≠ 0
      · rw [if_pos (hsum.mpr hs)]
        simp [recordWarnings, ht, hs, RecordText.address, RecordText.bytes]
      · rw [if_neg (fun hh => hs (hsum.mp hh))]
        simp [recordWarnings, hs]
    rw [himg, ← hws]
  · have ht0 : ((hexValue r.rtype : Nat) : Int) ≠ 0 := by
      simpa [RecordText.recordType] using ht
    have hjunk : ∀ c ∈ r.data.flatten ++ (r.cksum ++ r.trail), c ≠ colon := by
      intro c hc
      rcases List.mem_append.mp hc with h1 | h2
      · exact hex_ne_colon (flatten_hex _ hdata) c h1
      · rcases List.mem_append.mp h2 with h3 | h4
        · exact hex_ne_colon (isHexField_iff.mp hck).2 c h3
        · exact htrail c h4
    rw [if_pos ht0]
    have happ : r.data.flatten ++ (r.cksum ++ (r.trail ++ rest)) =
        (r.data.flatten ++ (r.cksum ++ r.trail)) ++ rest := by simp
    rw [happ, parseLoop_skip _ _ hjunk]
    simp [applyRecord, recordWarnings, ht]

/-! ## Fuel -/

theorem parseLoop_succ : ∀ (fuel : Nat) (fp : Stream) (img : Image) (ws : List Warning),
    parseLoop fuel fp img ws ≠ .error .outOfFuel →
    parseLoop (fuel + 1) fp img ws = parseLoop fuel fp img ws := by
  intro fuel
  induction fuel with
  | zero => intro fp img ws h; exact absurd rfl h
  | succ f ih =>
    intro fp img ws h
    rw [parseLoop] at h
    rw [parseLoop, parseLoop.eq_2 _ _ _ f]
    dsimp only at h ⊢
    split
    · rw [if_pos (by assumption)] at h
      split
      · rw [if_pos (by assumption)] at h
        exact ih _ _ _ h
      · rw [if_neg (by assumption)] at h
        split
        · rfl
        · rename_i s hs
          rw [hs] at h
          exact ih _ _ _ h
    · rfl

theorem parseLoop_add (k fuel : Nat) (fp : Stream) (img : Image) (ws : List Warning)
    (h : parseLoop fuel fp img ws ≠ .error .outOfFuel) :
    parseLoop (fuel + k) fp img ws = parseLoop fuel fp img ws := by
  induction k with
  | zero => rfl
  | succ k ih =>
    rw [← Nat.add_assoc, parseLoop_succ _ _ _ _ (by rw [ih]; exact h), ih]

theorem parseLoop_of_le {f g : Nat} (hfg : f ≤ g) (fp : Stream) (img : Image)
    (ws : List Warning) (h : parseLoop f fp img ws ≠ .error .outOfFuel) :
    parseLoop g fp img ws = parseLoop f fp img ws := by
  obtain ⟨k, rfl⟩ := Nat.exists_eq_add_of_le hfg
  exact parseLoop_add k f fp img ws h

theorem parseUntilColon_length (fp : Stream) :
    (parseUntilColon fp).1 = (colon : Int) → (parseUntilColon fp).2.length < fp.length := by
  induction fp with
  | nil => intro h; simp [parseUntilColon, EOF, colon] at h
  | cons c fp ih =>
    intro h
    simp only [parseUntilColon] at h ⊢
    split
    · simp
    · rename_i hc
      rw [if_neg hc] at h
      have := ih h
      simp only [List.length_cons]
      omega

theorem readChars_length (n : Nat) : ∀ fp : Stream, (readChars n fp).2.length ≤ fp.length := by
  induction n with
  | zero => intro fp; simp [readChars]
  | succ n ih =>
    intro fp
    cases fp with
    | nil => simpa [readChars, getc] using ih []
    | cons c fp =>
      have := ih fp
      simp only [readChars, getc, List.length_cons]
      omega

theorem parseHex_length (fp : Stream) (n : Nat) : (parseHex fp n).2.length ≤ fp.length :=
  readChars_length n fp

theorem readData_length (n : Nat) : ∀ s t : DataState, readData n s = .ok t →
    t.fp.length ≤ s.fp.length := by
  induction n with
  | zero => intro s t h; simp only [readData, Except.ok.injEq] at h; rw [← h]
  | succ n ih =>
    intro s t h
    rw [readData] at h
    split at h
    · have h1 := ih _ _ h
      have h2 := parseHex_length s.fp 2
      simp only at h1
      omega
    · simp at h

theorem readData_ne_fuel (n : Nat) : ∀ s : DataState,
    readData n s ≠ .error .outOfFuel := by
  induction n with
  | zero => intro s; simp [readData]
  | succ n ih =>
    intro s
    rw [readData]
    split
    · exact ih _
    · simp

/-- The record loop never runs out of fuel when it has more fuel than the
stream has characters. -/
theorem parseLoop_enough : ∀ (fuel : Nat) (fp : Stream) (img : Image) (ws : List Warning),
    fp.length < fuel → parseLoop fuel fp img ws ≠ .error .outOfFuel := by
  intro fuel
  induction fuel with
  | zero => intro fp img ws h; omega
  | succ f ih =>
    intro fp img ws hlen
    rw [parseLoop]
    dsimp only
    split
    · rename_i hc
      have h0 := parseUntilColon_length fp hc
      have h1 := parseHex_length (parseUntilColon fp).2 2
      have h2 := parseHex_length (parseHex (parseUntilColon fp).2 2).2 4
      have h3 := parseHex_length (parseHex (parseHex (parseUntilColon fp).2 2).2 4).2 2
      split
      · exact ih _ _ _ (by omega)
      · split
        · rename_i e he
          intro hcontra
          simp only [Except.error.injEq] at hcontra
          subst hcontra
          exact readData_ne_fuel _ _ he
        · rename_i s hs
          have h4 := readData_length _ _ _ hs
          have h5 := parseHex_length s.fp 2
          simp only at h4
          exact ih _ _ _ (by omega)
    · simp

/-! ## Files of well-formed records -/

theorem parseLoop_warnings (w : List Warning) : ∀ (fuel : Nat) (fp : Stream) (img : Image)
    (ws : List Warning),
    parseLoop fuel fp img (w ++ ws) =
      match parseLoop fuel fp img ws with
      | .ok r => .ok (r.1, w ++ r.2)
      | .error e => .error e := by
  intro fuel
  induction fuel with
  | zero => intro fp img ws; rfl
  | succ f ih =>
    intro fp img ws
    rw [parseLoop, parseLoop.eq_2 _ _ ws f]
    dsimp only
    split
    · split
      · exact ih _ _ _
      · split
        · rfl
        · rw [show ∀ (c : Prop) [Decidable c] (x : Warning),
            (if c then w ++ ws ++ [x] else w ++ ws) = w ++ (if c then ws ++ [x] else ws) from
            fun c _ x => by split <;> simp]
          exact ih _ _ _
    · rfl

theorem parseLoop_records (recs : List RecordText) (rest : List Nat) (fuel : Nat)
    (h : ∀ r ∈ recs, r.wellFormed = true) : ∀ (img : Image) (ws : List Warning),
    parseLoop (fuel + recs.length) (fileText recs ++ rest) img ws =
      parseLoop fuel rest (applyRecords recs img) (ws ++ fileWarnings recs) := by
  induction recs with
  | nil => intro img ws; simp [fileText, applyRecords, fileWarnings]
  | cons r recs ih =>
    intro img ws
    have hr := h r (List.mem_cons_self _ _)
    have ih := ih (fun x hx => h x (List.mem_cons_of_mem _ hx))
    have htext : fileText (r :: recs) ++ rest = r.text ++ (fileText recs ++ rest) := by
      simp [fileText]
    rw [htext, List.length_cons, ← Nat.add_assoc, parseLoop_record r hr, ih]
    simp [applyRecords, fileWarnings]

theorem parseIntelHex_eq_loop (fuel : Nat) (fp : Stream) (img : Image)
    (h : fp.length < fuel) :
    parseIntelHex (some fp) img =
      match parseLoop fuel fp img [] with
      | .ok r => .ok (0, r.1, r.2)
      | .error e => .error e := by
  have h1 := parseLoop_of_le (Nat.succ_le_of_lt h) fp img []
    (parseLoop_enough _ _ _ _ (Nat.lt_succ_self _))
  simp only [parseIntelHex]
  rw [h1]
  cases parseLoop (fp.length + 1) fp img [] <;> rfl

/-- Decoding a file that starts with well-formed records is decoding what
follows them from the image those records leave. -/
theorem parseIntelHex_records (lead : List Nat) (recs : List RecordText) (rest : List Nat)
    (img : Image) (hlead : ∀ c ∈ lead, c ≠ colon) (h : ∀ r ∈ recs, r.wellFormed = true) :
    parseIntelHex (some (lead ++ (fileText recs ++ rest))) img =
      withWarnings (fileWarnings recs) (parseIntelHex (some rest) (applyRecords recs img)) := by
  have hfuel : (lead ++ (fileText recs ++ rest)).length < rest.length + 1 + recs.length +
      (lead ++ (fileText recs ++ rest)).length := by omega
  rw [parseIntelHex_eq_loop _ _ _ hfuel, parseLoop_skip lead _ hlead]
  have hnf : parseLoop (rest.length + 1 + recs.length) (fileText recs ++ rest) img [] ≠
      .error .outOfFuel := by
    rw [parseLoop_records recs rest _ h]
    exact parseLoop_enough _ _ _ _ (Nat.lt_succ_self _)
  rw [parseLoop_add _ _ _ _ _ hnf, parseLoop_records recs rest _ h]
  have hw := parseLoop_warnings (fileWarnings recs) (rest.length + 1) rest
    (applyRecords recs img) []
  simp only [List.append_nil, List.nil_append] at hw ⊢
  rw [hw]
  simp only [parseIntelHex]
  cases parseLoop (rest.length + 1) rest (applyRecords recs img) [] <;> rfl

/-- The function `parseIntelHex` returns on every input: the fuel of the
record loop is never used up. -/
theorem parseIntelHex_returns (hexfile : Option Stream) (img : Image) :
    parseIntelHex hexfile img ≠ .error .outOfFuel := by
  cases hexfile with
  | none => simp [parseIntelHex]
  | some fp =>
    have h := parseLoop_enough (fp.length + 1) fp img [] (Nat.lt_succ_self _)
    simp only [parseIntelHex]
    cases hp : parseLoop (fp.length + 1) fp img [] with
    | ok r => simp
    | error e =>
      rw [hp] at h
      simpa using h

theorem parseIntelHex_noColon (fp : List Nat) (img : Image) (h : ∀ c ∈ fp, c ≠ colon) :
    parseIntelHex (some fp) img = .ok (0, img, []) := by
  simp only [parseIntelHex, parseLoop_noColon fp h]

theorem parseIntelHex_record (r : RecordText) (rest : List Nat) (img : Image)
    (hr : r.wellFormed = true) :
    parseIntelHex (some (r.text ++ rest)) img =
      withWarnings (recordWarnings r) (parseIntelHex (some rest) (applyRecord r img)) := by
  have h := parseIntelHex_records [] [r] rest img (by simp) (by simpa using hr)
  simpa [fileText, fileWarnings, applyRecords] using h

theorem writeBytes_outside (ds : List Nat) : ∀ (buffer : Int → Int) (a j : Int),
    ¬ (a ≤ j ∧ j < a + ds.length) → writeBytes buffer a ds j = buffer j := by
  induction ds with
  | nil => intro buffer a j _; rfl
  | cons d ds ih =>
    intro buffer a j hj
    simp only [List.length_cons, Nat.cast_add, Nat.cast_one] at hj
    rw [writeBytes, ih _ _ _ (by omega)]
    simp only [store]
    rw [if_neg (by omega)]

theorem writeBytes_inside (ds : List Nat) (hds : ∀ d ∈ ds, d < 256) :
    ∀ (buffer : Int → Int) (a : Int) (i : Nat) (hi : i < ds.length),
      writeBytes buffer a ds (a + i) = (ds[i] : Int) := by
  induction ds with
  | nil => intro buffer a i hi; simp at hi
  | cons d ds ih =>
    intro buffer a i hi
    have ih := ih (fun x hx => hds x (List.mem_cons_of_mem _ hx))
    have hd := hds d (List.mem_cons_self _ _)
    cases i with
    | zero =>
      rw [writeBytes, writeBytes_outside _ _ _ _ (by simp)]
      simp only [store, Nat.cast_zero, add_zero, if_true, List.getElem_cons_zero]
      omega
    | succ i =>
      have hi2 : i < ds.length := by simpa using hi
      have := ih (store buffer a d) (a + 1) i hi2
      rw [writeBytes]
      simp only [List.getElem_cons_succ, Nat.cast_add, Nat.cast_one]
      rw [← this]
      congr 1
      ring

theorem bytes_lt (r : RecordText) (hr : r.wellFormed = true) : ∀ d ∈ r.bytes, d < 256 := by
  obtain ⟨_, _, _, hdata, _, _, _⟩ := (wellFormed_iff r).mp hr
  intro d hd
  obtain ⟨p, hp, rfl⟩ := List.mem_map.mp hd
  simpa using hexValue_lt (hdata p hp)

theorem bytes_length (r : RecordText) (hr : r.wellFormed = true) :
    r.bytes.length = r.byteCount := by
  obtain ⟨_, _, _, _, _, hlen, _⟩ := (wellFormed_iff r).mp hr
  simpa [RecordText.bytes] using hlen

theorem parseIntelHex_nil (img : Image) : parseIntelHex (some []) img = .ok (0, img, []) :=
  parseIntelHex_noColon [] img (by simp)

theorem parseIntelHex_file (lead : List Nat) (recs : List RecordText) (img : Image)
    (hlead : ∀ c ∈ lead, c ≠ colon) (h : ∀ r ∈ recs, r.wellFormed = true) :
    parseIntelHex (some (lead ++ fileText recs)) img =
      .ok (0, applyRecords recs img, fileWarnings recs) := by
  have := parseIntelHex_records lead recs [] img hlead h
  rw [List.append_nil, parseIntelHex_nil] at this
  rw [this]
  simp [withWarnings]

theorem applyRecords_append (xs ys : List RecordText) (img : Image) :
    applyRecords (xs ++ ys) img = applyRecords ys (applyRecords xs img) := by
  simp [applyRecords, List.foldl_append]

theorem fileWarnings_append (xs ys : List RecordText) :
    fileWarnings (xs ++ ys) = fileWarnings xs ++ fileWarnings ys := by
  simp [fileWarnings]

theorem fileText_append (xs ys : List RecordText) :
    fileText (xs ++ ys) = fileText xs ++ fileText ys := by
  simp [fileText]

/-! ## The claims about `parseIntelHex` -/

/-- C1: for every image state and every well-formed type-0 record with address
`A` and data bytes `d[0..n-1]`, processing the record in `parseIntelHex` continues
with the rest of the file from an image in which `buffer[A+i] = d[i]` for every
`i < n`, every other byte is unchanged, `startAddr` is `min startAddr A` and
`endAddr` is `max endAddr (A+n)`; a file that holds this record alone returns 0
with that image. -/
theorem C1_data_record_applied (img : Image) (r : RecordText) (hr : r.wellFormed = true)
    (ht : r.recordType = 0) :
    (∀ rest, parseIntelHex (some (r.text ++ rest)) img =
      withWarnings (recordWarnings r) (parseIntelHex (some rest) (applyRecord r img))) ∧
    parseIntelHex (some r.text) img = .ok (0, applyRecord r img, recordWarnings r) ∧
    r.bytes.length = r.byteCount ∧
    (∀ (i : Nat) (hi : i < r.bytes.length),
      (applyRecord r img).buffer ((r.address : Int) + i) = (r.bytes[i] : Int)) ∧
    (∀ j : Int, ¬ ((r.address : Int) ≤ j ∧ j < (r.address : Int) + r.byteCount) →
      (applyRecord r img).buffer j = img.buffer j) ∧
    (applyRecord r img).startAddr = min img.startAddr (r.address : Int) ∧
    (applyRecord r img).endAddr = max img.endAddr ((r.address : Int) + r.byteCount) := by
  have hlen := bytes_length r hr
  have himg : applyRecord r img =
      ⟨writeBytes img.buffer r.address r.bytes,
        if img.startAddr > r.address then r.address else img.startAddr,
        if img.endAddr < r.address + r.bytes.length then r.address + r.bytes.length
        else img.endAddr⟩ := by
    simp [applyRecord, ht]
  refine ⟨fun rest => parseIntelHex_record r rest img hr, ?_, hlen, ?_, ?_, ?_, ?_⟩
  · have h := parseIntelHex_record r [] img hr
    rw [List.append_nil, parseIntelHex_nil] at h
    rw [h]
    simp [withWarnings]
  · intro i hi
    rw [himg]
    exact writeBytes_inside r.bytes (bytes_lt r hr) _ _ i hi
  · intro j hj
    rw [himg]
    exact writeBytes_outside r.bytes _ _ j (by rw [hlen]; exact hj)
  · rw [himg]
    simp only [gt_iff_lt]
    split <;> omega
  · rw [himg, hlen]
    simp only
    split <;> omega

/-- Witness of C1: the record `:02000000FEFF01` applied to the freshly
initialised image. -/
theorem C1_data_record_applied_witness :
    (sampleRecord.wellFormed = true ∧ sampleRecord.recordType = 0) ∧
    parseIntelHex (some sampleRecord.text) freshImage =
      .ok (0, applyRecord sampleRecord freshImage, recordWarnings sampleRecord) :=
  ⟨⟨by decide, by decide⟩,
    (C1_data_record_applied freshImage sampleRecord (by decide) (by decide)).2.1⟩

/-- C2: for every well-formed type-0 record, `parseIntelHex` prints a checksum
warning for it exactly when byte count + high address byte + low address byte +
record type + all data bytes + trailing checksum byte is not 0 modulo 256: in
that case the warning (with the base and end address of the record) precedes
whatever the rest of the file produces, and otherwise the record adds nothing
to the warnings. -/
theorem C2_checksum_warning_iff (img : Image) (r : RecordText) (hr : r.wellFormed = true)
    (ht : r.recordType = 0) :
    parseIntelHex (some r.text) img =
      .ok (0, applyRecord r img,
        if (r.byteCount + r.address / 256 + r.address % 256 + r.recordType + r.bytes.sum +
            r.checksum) % 256 ≠ 0
        then [⟨r.address, (r.address : Int) + r.byteCount⟩] else []) ∧
    ((r.byteCount + r.address / 256 + r.address % 256 + r.recordType + r.bytes.sum +
        r.checksum) % 256 ≠ 0 →
      ∀ rest, parseIntelHex (some (r.text ++ rest)) img =
        withWarnings [⟨r.address, (r.address : Int) + r.byteCount⟩]
          (parseIntelHex (some rest) (applyRecord r img))) ∧
    ((r.byteCount + r.address / 256 + r.address % 256 + r.recordType + r.bytes.sum +
        r.checksum) % 256 = 0 →
      ∀ rest, parseIntelHex (some (r.text ++ rest)) img =
        parseIntelHex (some rest) (applyRecord r img)) := by
  have hlen := bytes_length r hr
  have hw : recordWarnings r =
      if (r.byteCount + r.address / 256 + r.address % 256 + r.recordType + r.bytes.sum +
            r.checksum) % 256 ≠ 0
      then [⟨r.address, (r.address : Int) + r.byteCount⟩] else [] := by
    simp [recordWarnings, ht, RecordText.fieldSum, hlen]
  refine ⟨?_, ?_, ?_⟩
  · have h := parseIntelHex_record r [] img hr
    rw [List.append_nil, parseIntelHex_nil, hw] at h
    rw [h]
    simp [withWarnings]
  · intro hs rest
    rw [parseIntelHex_record r rest img hr, hw, if_pos hs]
  · intro hs rest
    rw [parseIntelHex_record r rest img hr, hw, if_neg (by simp [hs])]
    cases parseIntelHex (some rest) (applyRecord r img) <;> simp [withWarnings]

/-- Witness of C2: the record `:02000000FEFF01`, whose fields sum to 0x200. -/
theorem C2_checksum_warning_iff_witness :
    (sampleRecord.wellFormed = true ∧ sampleRecord.recordType = 0) ∧
    parseIntelHex (some sampleRecord.text) freshImage =
      .ok (0, applyRecord sampleRecord freshImage,
        if (sampleRecord.byteCount + sampleRecord.address / 256 + sampleRecord.address % 256 +
            sampleRecord.recordType + sampleRecord.bytes.sum + sampleRecord.checksum) % 256 ≠ 0
        then [⟨sampleRecord.address, (sampleRecord.address : Int) + sampleRecord.byteCount⟩]
        else []) :=
  ⟨⟨by decide, by decide⟩,
    (C2_checksum_warning_iff freshImage sampleRecord (by decide) (by decide)).1⟩

theorem applyRecord_cksum (r : RecordText) (cc : List Nat) (img : Image) :
    applyRecord { r with cksum := cc } img = applyRecord r img := rfl

theorem wellFormed_cksum (r : RecordText) (cc : List Nat) (hr : r.wellFormed = true)
    (hcc : isHexField 2 cc = true) : ({ r with cksum := cc } : RecordText).wellFormed = true := by
  obtain ⟨h1, h2, h3, h4, _, h6, h7⟩ := (wellFormed_iff r).mp hr
  exact (wellFormed_iff _).mpr ⟨h1, h2, h3, h4, hcc, h6, h7⟩

/-- C8 fails as stated: in the file `:02000000FEFF02`, `:00000001FF` the first
record is well formed with type 0 and `parseIntelHex` warns about it (its
fields sum to 0x201); replacing its checksum byte 02 by the different value 01
gives a file for which no warning is printed. -/
theorem C8_repaired_checksum_counterexample :
    sampleBadRecord.wellFormed = true ∧ sampleBadRecord.recordType = 0 ∧
    sampleEofRecord.wellFormed = true ∧
    isHexField 2 [48, 49] = true ∧ hexValue [48, 49] ≠ sampleBadRecord.checksum ∧
    (∃ img, parseIntelHex (some (fileText [sampleBadRecord, sampleEofRecord])) freshImage =
      .ok (0, img, [⟨0, 2⟩])) ∧
    ∃ img, parseIntelHex (some (fileText
      [{ sampleBadRecord with cksum := [48, 49] }, sampleEofRecord])) freshImage =
      .ok (0, img, []) := by
  have h1 := parseIntelHex_file [] [sampleBadRecord, sampleEofRecord] freshImage (by simp)
    (by decide)
  have h2 := parseIntelHex_file []
    [{ sampleBadRecord with cksum := [48, 49] }, sampleEofRecord] freshImage (by simp)
    (by decide)
  have w1 : fileWarnings [sampleBadRecord, sampleEofRecord] = [⟨0, 2⟩] := by decide
  have w2 : fileWarnings [{ sampleBadRecord with cksum := [48, 49] }, sampleEofRecord] = [] := by
    decide
  rw [List.nil_append, w1] at h1
  rw [List.nil_append, w2] at h2
  exact ⟨by decide, by decide, by decide, by decide, by decide, ⟨_, h1⟩, ⟨_, h2⟩⟩

/-- C8, amended: in a file of well-formed records, replacing the trailing
checksum byte of one type-0 record by a byte with which the record's fields
do not sum to 0 modulo 256 (any byte of a different value, when the checksum
of the record was right) makes `parseIntelHex` print a checksum warning for
that record, between the unchanged warnings of the records before and after
it; the status 0 and the final image are what they are for the original
file, namely the image all records produce. -/
theorem C8_corrupt_checksum_warns (lead : List Nat) (pre post : List RecordText)
    (r : RecordText) (cc : List Nat) (img : Image)
    (hlead : ∀ c ∈ lead, c ≠ colon)
    (hpre : ∀ x ∈ pre, x.wellFormed = true) (hpost : ∀ x ∈ post, x.wellFormed = true)
    (hr : r.wellFormed = true) (ht : r.recordType = 0)
    (hcc : isHexField 2 cc = true)
    (hbad : (r.fieldSum % 256 = 0 ∧ hexValue cc ≠ r.checksum) ∨
      ({ r with cksum := cc } : RecordText).fieldSum % 256 ≠ 0) :
    parseIntelHex (some (lead ++ fileText (pre ++ r :: post))) img =
      .ok (0, applyRecords (pre ++ r :: post) img,
        fileWarnings pre ++ recordWarnings r ++ fileWarnings post) ∧
    parseIntelHex (some (lead ++ fileText (pre ++ { r with cksum := cc } :: post))) img =
      .ok (0, applyRecords (pre ++ r :: post) img,
        fileWarnings pre ++
          ⟨r.address, (r.address : Int) + r.byteCount⟩ :: fileWarnings post) ∧
    (r.fieldSum % 256 = 0 → recordWarnings r = []) := by
  have hlen := bytes_length r hr
  have hr2 := wellFormed_cksum r cc hr hcc
  have hc1 : hexValue cc < 256 := by simpa using hexValue_lt hcc
  have hc0 : r.checksum < 256 := by
    obtain ⟨_, _, _, _, h5, _, _⟩ := (wellFormed_iff r).mp hr
    simpa [RecordText.checksum] using hexValue_lt h5
  have hwf1 : ∀ x ∈ pre ++ r :: post, x.wellFormed = true := by
    intro x hx
    rcases List.mem_append.mp hx with h | h
    · exact hpre x h
    · rcases List.mem_cons.mp h with h | h
      · exact h ▸ hr
      · exact hpost x h
  have hwf2 : ∀ x ∈ pre ++ { r with cksum := cc } :: post, x.wellFormed = true := by
    intro x hx
    rcases List.mem_append.mp hx with h | h
    · exact hpre x h
    · rcases List.mem_cons.mp h with h | h
      · exact h ▸ hr2
      · exact hpost x h
  have ha : applyRecords (pre ++ { r with cksum := cc } :: post) img =
      applyRecords (pre ++ r :: post) img := by
    simp [applyRecords, List.foldl_append, applyRecord_cksum]
  have hs : ({ r with cksum := cc } : RecordText).fieldSum % 256 ≠ 0 := by
    rcases hbad with ⟨hvalid, hne⟩ | h
    · simp only [RecordText.fieldSum, RecordText.byteCount, RecordText.address,
        RecordText.recordType, RecordText.bytes, RecordText.checksum] at hvalid hne hc0 ⊢
      omega
    · exact h
  have hw2 : recordWarnings { r with cksum := cc } =
      [⟨r.address, (r.address : Int) + r.byteCount⟩] := by
    have ht2 : ({ r with cksum := cc } : RecordText).recordType = 0 := ht
    rw [recordWarnings, if_pos ⟨ht2, hs⟩, ← hlen]
    rfl
  refine ⟨?_, ?_, fun hvalid => by simp [recordWarnings, hvalid]⟩
  · rw [parseIntelHex_file lead _ img hlead hwf1, fileWarnings_append]
    simp [fileWarnings]
  · rw [parseIntelHex_file lead _ img hlead hwf2, ha, fileWarnings_append]
    simp [fileWarnings, hw2]

/-- Witness of C8: `:02000000FEFF01`, whose checksum is right, with the
checksum replaced by `02`, followed by the end-of-file record. -/
theorem C8_corrupt_checksum_warns_witness :
    ((∀ c ∈ ([] : List Nat), c ≠ colon) ∧ (∀ x ∈ ([] : List RecordText), x.wellFormed = true) ∧
      (∀ x ∈ [sampleEofRecord], x.wellFormed = true) ∧ sampleRecord.wellFormed = true ∧
      sampleRecord.recordType = 0 ∧ isHexField 2 [48, 50] = true ∧
      sampleRecord.fieldSum % 256 = 0 ∧ hexValue [48, 50] ≠ sampleRecord.checksum) ∧
    parseIntelHex (some ([] ++ fileText ([] ++
        { sampleRecord with cksum := [48, 50] } :: [sampleEofRecord]))) freshImage =
      .ok (0, applyRecords ([] ++ sampleRecord :: [sampleEofRecord]) freshImage,
        fileWarnings [] ++
          ⟨sampleRecord.address, (sampleRecord.address : Int) + sampleRecord.byteCount⟩ ::
            fileWarnings [sampleEofRecord]) :=
  ⟨⟨by simp, by simp, by decide, by decide, by decide, by decide, by decide, by decide⟩,
    (C8_corrupt_checksum_warns [] [] [sampleEofRecord] sampleRecord [48, 50] freshImage
      (by simp) (by simp) (by decide) (by decide) (by decide) (by decide)
      (Or.inl ⟨by decide, by decide⟩)).2.1⟩

/-- C9: a well-formed record whose record-type field is non-zero leaves the
image as it was, and what follows it in the file is decoded exactly as if the
record were absent, also after any number of well-formed records. -/
theorem C9_nonzero_type_ignored (lead : List Nat) (pre : List RecordText) (r : RecordText)
    (rest : List Nat) (img : Image) (hlead : ∀ c ∈ lead, c ≠ colon)
    (hpre : ∀ x ∈ pre, x.wellFormed = true) (hr : r.wellFormed = true)
    (ht : r.recordType ≠ 0) :
    parseIntelHex (some r.text) img = .ok (0, img, []) ∧
    parseIntelHex (some (r.text ++ rest)) img = parseIntelHex (some rest) img ∧
    parseIntelHex (some (lead ++ (fileText (pre ++ [r]) ++ rest))) img =
      parseIntelHex (some (lead ++ (fileText pre ++ rest))) img := by
  have ha : ∀ im, applyRecord r im = im := fun im => by simp [applyRecord, ht]
  have hw : recordWarnings r = [] := by simp [recordWarnings, ht]
  have hid : ∀ x : Except Fault (Int × Image × List Warning), withWarnings [] x = x := by
    intro x; cases x <;> simp [withWarnings]
  have hstep : ∀ (tail : List Nat) (im : Image),
      parseIntelHex (some (r.text ++ tail)) im = parseIntelHex (some tail) im := by
    intro tail im
    rw [parseIntelHex_record r tail im hr, ha, hw, hid]
  refine ⟨?_, hstep rest img, ?_⟩
  · have := hstep [] img
    rwa [List.append_nil, parseIntelHex_nil] at this
  · rw [parseIntelHex_records lead (pre ++ [r]) rest img hlead, parseIntelHex_records lead pre rest
      img hlead hpre]
    · have h1 : applyRecords (pre ++ [r]) img = applyRecords pre img := by
        rw [applyRecords_append]
        simp [applyRecords, ha]
      have h2 : fileWarnings (pre ++ [r]) = fileWarnings pre := by
        rw [fileWarnings_append]
        simp [fileWarnings, hw]
      rw [h1, h2]
    · intro x hx
      rcases List.mem_append.mp hx with h | h
      · exact hpre x h
      · rw [List.mem_singleton.mp h]; exact hr

/-- Witness of C9: the end-of-file record `:00000001FF` between the record
`:02000000FEFF01` and a second copy of it. -/
theorem C9_nonzero_type_ignored_witness :
    ((∀ c ∈ ([] : List Nat), c ≠ colon) ∧ (∀ x ∈ [sampleRecord], x.wellFormed = true) ∧
      sampleEofRecord.wellFormed = true ∧ sampleEofRecord.recordType ≠ 0) ∧
    parseIntelHex (some ([] ++ (fileText ([sampleRecord] ++ [sampleEofRecord]) ++
        sampleRecord.text))) freshImage =
      parseIntelHex (some ([] ++ (fileText [sampleRecord] ++ sampleRecord.text))) freshImage :=
  ⟨⟨by simp, by decide, by decide, by decide⟩,
    (C9_nonzero_type_ignored [] [sampleRecord] sampleEofRecord sampleRecord.text freshImage
      (by simp) (by decide) (by decide) (by decide)).2.2⟩

/-! ## Round trip -/

theorem hexDigitVal_hexChar {d : Nat} (h : d < 16) : hexDigitVal (hexChar d) = some d := by
  interval_cases d <;> rfl

theorem isHexField_hex2 {b : Nat} (h : b < 256) : isHexField 2 (hex2 b) = true := by
  have h1 := hexDigitVal_hexChar (show b / 16 < 16 by omega)
  have h2 := hexDigitVal_hexChar (show b % 16 < 16 by omega)
  simp [isHexField, hex2, h1, h2]

theorem hexValue_hex2 {b : Nat} (h : b < 256) : hexValue (hex2 b) = b := by
  have h1 := hexDigitVal_hexChar (show b / 16 < 16 by omega)
  have h2 := hexDigitVal_hexChar (show b % 16 < 16 by omega)
  simp only [hexValue, hex2, hexDigits, h1, h2]
  omega

theorem isHexField_hex4 {a : Nat} (h : a < 65536) : isHexField 4 (hex4 a) = true := by
  have h1 := isHexField_iff.mp (isHexField_hex2 (show a / 256 < 256 by omega))
  have h2 := isHexField_iff.mp (isHexField_hex2 (show a % 256 < 256 by omega))
  refine isHexField_iff.mpr ⟨by simp [hex4, hex2], ?_⟩
  intro c hc
  rcases List.mem_append.mp hc with h | h
  · exact h1.2 c h
  · exact h2.2 c h

theorem hexValue_hex4 {a : Nat} (h : a < 65536) : hexValue (hex4 a) = a := by
  have h1 := hexDigitVal_hexChar (show a / 256 / 16 < 16 by omega)
  have h2 := hexDigitVal_hexChar (show a / 256 % 16 < 16 by omega)
  have h3 := hexDigitVal_hexChar (show a % 256 / 16 < 16 by omega)
  have h4 := hexDigitVal_hexChar (show a % 256 % 16 < 16 by omega)
  simp only [hexValue, hex4, hex2, List.cons_append, List.nil_append, hexDigits, h1, h2, h3, h4]
  omega

theorem map_hexValue_hex2 (chunk : List Nat) (h : ∀ b ∈ chunk, b < 256) :
    (chunk.map hex2).map hexValue = chunk := by
  induction chunk with
  | nil => rfl
  | cons b bs ih =>
    simp only [List.map_cons, hexValue_hex2 (h b (List.mem_cons_self _ _)),
      ih (fun x hx => h x (List.mem_cons_of_mem _ hx))]

/-- What the decoder reads back from an encoded record. -/
theorem encodeRecord_fields (eol : List Nat) (a : Nat) (chunk : List Nat)
    (heol : ∀ c ∈ eol, c ≠ colon) (ha : a < 65536) (hlen : chunk.length ≤ 255)
    (hb : ∀ b ∈ chunk, b < 256) :
    (encodeRecord eol a chunk).wellFormed = true ∧
    (encodeRecord eol a chunk).recordType = 0 ∧
    (encodeRecord eol a chunk).address = a ∧
    (encodeRecord eol a chunk).bytes = chunk ∧
    (encodeRecord eol a chunk).fieldSum % 256 = 0 := by
  have hcount : hexValue (hex2 chunk.length) = chunk.length := hexValue_hex2 (by omega)
  have hck : encodeChecksum a chunk < 256 := by unfold encodeChecksum; omega
  have hbytes := map_hexValue_hex2 chunk hb
  refine ⟨?_, ?_, ?_, ?_, ?_⟩
  · refine (wellFormed_iff _).mpr ⟨isHexField_hex2 (by omega), isHexField_hex4 ha,
      isHexField_hex2 (by omega), ?_, isHexField_hex2 hck, ?_, heol⟩
    · intro p hp
      obtain ⟨b, hbm, rfl⟩ := List.mem_map.mp hp
      exact isHexField_hex2 (hb b hbm)
    · simp [encodeRecord, RecordText.byteCount, hcount]
  · simp only [encodeRecord, RecordText.recordType]
    exact hexValue_hex2 (by omega)
  · simp only [encodeRecord, RecordText.address]
    exact hexValue_hex4 ha
  · simpa only [encodeRecord, RecordText.bytes] using hbytes
  · have h0 : hexValue (hex2 0) = 0 := hexValue_hex2 (by omega)
    simp only [RecordText.fieldSum, RecordText.byteCount, RecordText.address,
      RecordText.recordType, RecordText.bytes, RecordText.checksum, encodeRecord, hcount,
      hexValue_hex4 ha, h0, hbytes, hexValue_hex2 hck]
    unfold encodeChecksum
    omega

theorem writeBytes_append (xs ys : List Nat) : ∀ (buffer : Int → Int) (a : Int),
    writeBytes buffer a (xs ++ ys) = writeBytes (writeBytes buffer a xs) (a + xs.length) ys := by
  induction xs with
  | nil => intro buffer a; simp [writeBytes]
  | cons x xs ih =>
    intro buffer a
    have h := ih (store buffer a x) (a + 1)
    rw [show a + 1 + (xs.length : Int) = a + ((xs.length : Int) + 1) by ring] at h
    simpa only [List.cons_append, writeBytes, List.length_cons, Nat.cast_add, Nat.cast_one]
      using h

/-- The image a sequence of encoded chunks leaves, and the warnings it causes. -/
theorem applyRecords_encodeChunks (eol : List Nat) (heol : ∀ c ∈ eol, c ≠ colon)
    (chunks : List (List Nat)) :
    ∀ (a : Nat) (img : Image),
      (∀ c ∈ chunks, c.length ≤ 255 ∧ ∀ b ∈ c, b < 256) →
      a + chunks.flatten.length ≤ 65536 →
      (a + chunks.flatten.length < 65536 ∨ ∀ c ∈ chunks, c ≠ []) →
      (∀ r ∈ encodeChunks eol a chunks, r.wellFormed = true) ∧
      fileWarnings (encodeChunks eol a chunks) = [] ∧
      (applyRecords (encodeChunks eol a chunks) img).buffer =
        writeBytes img.buffer a chunks.flatten ∧
      (applyRecords (encodeChunks eol a chunks) img).startAddr =
        (if chunks = [] then img.startAddr else min img.startAddr a) ∧
      (applyRecords (encodeChunks eol a chunks) img).endAddr =
        (if chunks = [] then img.endAddr
         else max img.endAddr ((a : Int) + chunks.flatten.length)) := by
  induction chunks with
  | nil =>
    intro a img _ _ _
    simp [encodeChunks, fileWarnings, applyRecords, writeBytes]
  | cons c cs ih =>
    intro a img hc hA hsplit
    obtain ⟨hlen, hb⟩ := hc c (List.mem_cons_self _ _)
    simp only [List.flatten_cons, List.length_append] at hA hsplit
    have ha : a < 65536 := by
      rcases hsplit with h | h
      · omega
      · have hpos : 0 < c.length := List.length_pos.mpr (h c (List.mem_cons_self _ _))
        omega
    obtain ⟨hwf, htype, haddr, hbytes, hsum⟩ :=
      encodeRecord_fields eol a c heol ha hlen hb
    have himg : applyRecord (encodeRecord eol a c) img =
        ⟨writeBytes img.buffer a c,
          if img.startAddr > a then a else img.startAddr,
          if img.endAddr < a + c.length then a + c.length else img.endAddr⟩ := by
      simp [applyRecord, htype, haddr, hbytes]
    obtain ⟨ih1, ih2, ih3, ih4, ih5⟩ := ih (a + c.length)
      (applyRecord (encodeRecord eol a c) img)
      (fun x hx => hc x (List.mem_cons_of_mem _ hx)) (by omega)
      (by
        rcases hsplit with h | h
        · left; omega
        · right; exact fun x hx => h x (List.mem_cons_of_mem _ hx))
    have hw : recordWarnings (encodeRecord eol a c) = [] := by
      simp [recordWarnings, hsum]
    refine ⟨?_, ?_, ?_, ?_, ?_⟩
    · intro r hr
      rcases List.mem_cons.mp hr with h | h
      · rw [h]; exact hwf
      · exact ih1 r h
    · have : fileWarnings (encodeChunks eol a (c :: cs)) =
          recordWarnings (encodeRecord eol a c) ++
            fileWarnings (encodeChunks eol (a + c.length) cs) := by
        simp [fileWarnings, encodeChunks]
      rw [this, hw, ih2]
      rfl
    · have : applyRecords (encodeChunks eol a (c :: cs)) img =
          applyRecords (encodeChunks eol (a + c.length) cs)
            (applyRecord (encodeRecord eol a c) img) := by
        simp [applyRecords, encodeChunks]
      rw [this, ih3, himg, List.flatten_cons, writeBytes_append]
      simp only [Nat.cast_add]
    · have : applyRecords (encodeChunks eol a (c :: cs)) img =
          applyRecords (encodeChunks eol (a + c.length) cs)
            (applyRecord (encodeRecord eol a c) img) := by
        simp [applyRecords, encodeChunks]
      rw [this, ih4, himg]
      simp only [Nat.cast_add, gt_iff_lt, reduceCtorEq, if_false]
      split <;> split <;> omega
    · have : applyRecords (encodeChunks eol a (c :: cs)) img =
          applyRecords (encodeChunks eol (a + c.length) cs)
            (applyRecord (encodeRecord eol a c) img) := by
        simp [applyRecords, encodeChunks]
      rw [this, ih5, himg]
      simp only [Nat.cast_add, List.flatten_cons, List.length_append, reduceCtorEq, if_false]
      by_cases hcs : cs = []
      · subst hcs
        simp only [if_true, List.flatten_nil, List.length_nil, Nat.cast_zero, add_zero]
        split <;> omega
      · rw [if_neg hcs]
        split <;> omega

/-- C10, round trip: a byte sequence split into chunks of at most 255 bytes
that ends at or below 65536 (every record address fitting the four-digit field:
the sequence ends below 65536 or no chunk is empty), encoded chunk by chunk as
`':' LL AAAA '00' DD..DD CC` with the checksum of the specification, and
decoded by `parseIntelHex` into the freshly initialised image, gives status 0
and no warning, the bytes of the sequence at `A ..`, the fill byte everywhere
else, and for a non-empty sequence `startAddr = A` and `endAddr = A + length`. -/
theorem C10_encode_decode_roundtrip (eol : List Nat) (A : Nat) (chunks : List (List Nat))
    (heol : ∀ c ∈ eol, c ≠ colon)
    (hchunks : ∀ c ∈ chunks, c.length ≤ 255 ∧ ∀ b ∈ c, b < 256)
    (hA : A + chunks.flatten.length ≤ 65536)
    (hsplit : A + chunks.flatten.length < 65536 ∨ ∀ c ∈ chunks, c ≠ []) :
    ∃ im : Image,
      parseIntelHex (some (fileText (encodeChunks eol A chunks))) freshImage = .ok (0, im, []) ∧
      (∀ (i : Nat) (hi : i < chunks.flatten.length),
        im.buffer ((A : Int) + i) = (chunks.flatten[i] : Int)) ∧
      (∀ j : Int, ¬ ((A : Int) ≤ j ∧ j < (A : Int) + chunks.flatten.length) →
        im.buffer j = 255) ∧
      (chunks.flatten ≠ [] →
        im.startAddr = A ∧ im.endAddr = (A : Int) + chunks.flatten.length) := by
  obtain ⟨hwf, hws, hbuf, hstart, hend⟩ :=
    applyRecords_encodeChunks eol heol chunks A freshImage hchunks hA hsplit
  refine ⟨applyRecords (encodeChunks eol A chunks) freshImage, ?_, ?_, ?_, ?_⟩
  · have := parseIntelHex_file [] (encodeChunks eol A chunks) freshImage (by simp) hwf
    rw [List.nil_append, hws] at this
    exact this
  · intro i hi
    rw [hbuf]
    refine writeBytes_inside _ ?_ _ _ i hi
    intro d hd
    obtain ⟨c, hc, hdc⟩ := List.mem_flatten.mp hd
    exact (hchunks c hc).2 d hdc
  · intro j hj
    rw [hbuf, writeBytes_outside _ _ _ _ hj]
    rfl
  · intro hne
    have hcs : chunks ≠ [] := by
      intro h; rw [h] at hne; exact hne rfl
    rw [hstart, hend, if_neg hcs, if_neg hcs]
    exact ⟨min_eq_right (by simp only [freshImage, bufferSize]; omega),
      max_eq_right (by simp only [freshImage]; omega)⟩

/-- Witness of C10: the three bytes `FE FF 00` at address 0xFFFD, in chunks of
two and one. -/
theorem C10_encode_decode_roundtrip_witness :
    ((∀ c ∈ [10], c ≠ colon) ∧
      (∀ c ∈ [[254, 255], [0]], c.length ≤ 255 ∧ ∀ b ∈ c, b < 256) ∧
      65533 + [[254, 255], [0]].flatten.length ≤ 65536 ∧
      (65533 + [[254, 255], [0]].flatten.length < 65536 ∨
        ∀ c ∈ [[254, 255], [0]], c ≠ [])) ∧
    ∃ im : Image,
      parseIntelHex (some (fileText (encodeChunks [10] 65533 [[254, 255], [0]]))) freshImage =
        .ok (0, im, []) ∧
      (∀ (i : Nat) (hi : i < [[254, 255], [0]].flatten.length),
        im.buffer (((65533 : Nat) : Int) + i) = (([[254, 255], [0]].flatten[i] : Nat) : Int)) ∧
      (∀ j : Int, ¬ (((65533 : Nat) : Int) ≤ j ∧
          j < ((65533 : Nat) : Int) + [[254, 255], [0]].flatten.length) → im.buffer j = 255) ∧
      ([[254, 255], [0]].flatten ≠ [] →
        im.startAddr = (65533 : Nat) ∧
        im.endAddr = ((65533 : Nat) : Int) + [[254, 255], [0]].flatten.length) :=
  ⟨⟨by decide, by decide, by decide, Or.inr (by decide)⟩,
    C10_encode_decode_roundtrip [10] 65533 [[254, 255], [0]] (by decide) (by decide)
      (by decide) (Or.inr (by decide))⟩

/-! ## 32-bit arithmetic -/

theorem wrapInt32_of_range {x : Int} (h0 : -2147483648 ≤ x) (h1 : x < 2147483648) :
    wrapInt32 x = x := by
  unfold wrapInt32
  split <;> omega

theorem toU32_wrapInt32 (x : Int) : toU32 (wrapInt32 x) = toU32 x := by
  unfold toU32 wrapInt32
  split <;> omega

theorem toU32_of_nonneg {x : Int} (h0 : 0 ≤ x) (h1 : x < 4294967296) : toU32 x = x.toNat := by
  unfold toU32
  omega

theorem bitAnd_byte (x : Int) : bitAnd x 0xff = x % 256 := by
  have h := Nat.and_pow_two_sub_one_eq_mod (toU32 x) 8
  have h2 : toU32 0xff = 2 ^ 8 - 1 := by decide
  unfold bitAnd
  rw [h2, h]
  have h3 : ((toU32 x % 2 ^ 8 : Nat) : Int) = x % 256 := by
    unfold toU32
    omega
  rw [h3]
  exact wrapInt32_of_range (by omega) (by omega)

/-- Clearing the low `k` bits of a 32-bit number. -/
theorem and_high_mask (n k : Nat) (hk : k ≤ 32) (hn : n < 2 ^ 32) :
    n &&& (2 ^ 32 - 2 ^ k) = n - n % 2 ^ k := by
  have e1 : 2 ^ 32 - 2 ^ k = 2 ^ k * (2 ^ (32 - k) - 1) := by
    have : 2 ^ 32 = 2 ^ k * 2 ^ (32 - k) := by
      rw [← Nat.pow_add]
      congr 1
      omega
    rw [Nat.mul_sub, Nat.mul_one, ← this]
  have e2 : n - n % 2 ^ k = 2 ^ k * (n / 2 ^ k) := by
    have := Nat.div_add_mod n (2 ^ k)
    omega
  apply Nat.eq_of_testBit_eq
  intro j
  rw [e1, e2]
  simp only [Nat.testBit_and, Nat.testBit_mul_pow_two, Nat.testBit_two_pow_sub_one,
    ← Nat.shiftRight_eq_div_pow, Nat.testBit_shiftRight]
  by_cases hj : k ≤ j
  · have hkj : k + (j - k) = j := by omega
    rw [hkj]
    by_cases h32 : j < 32
    · have : j - k < 32 - k := by omega
      simp [hj, this]
    · have hlt : n < 2 ^ j :=
        lt_of_lt_of_le hn (Nat.pow_le_pow_right (by decide) (by omega))
      simp [Nat.testBit_lt_two_pow hlt, hj]
  · simp [hj]

/-- Rounding down with `& ~mask` when `mask + 1` is the power of two `2 ^ k`. -/
theorem bitAnd_bitNot_pow (x : Int) (k : Nat) (hk : k ≤ 16) (h0 : 0 ≤ x)
    (h1 : x < 2147483648) : bitAnd x (bitNot (2 ^ k - 1)) = x - x % 2 ^ k := by
  have hn : x.toNat < 2 ^ 32 := by omega
  have hand := and_high_mask x.toNat k (by omega) hn
  have hxu : toU32 x = x.toNat := toU32_of_nonneg h0 (by omega)
  have hle : x.toNat % 2 ^ k ≤ x.toNat := Nat.mod_le _ _
  have hcast : ((x.toNat % 2 ^ k : Nat) : Int) = x % 2 ^ k := by
    rw [Int.natCast_mod, Int.toNat_of_nonneg h0]
    norm_cast
  unfold bitAnd
  rw [hxu]
  have hnot : toU32 (bitNot (2 ^ k - 1)) = 2 ^ 32 - 2 ^ k := by
    unfold bitNot
    rw [toU32_wrapInt32]
    unfold toU32
    interval_cases k <;> norm_num <;> rfl
  rw [hnot, hand]
  have hval : ((x.toNat - x.toNat % 2 ^ k : Nat) : Int) = x - x % 2 ^ k := by
    rw [Nat.cast_sub hle, hcast, Int.toNat_of_nonneg h0]
  rw [hval]
  have hm0 : 0 ≤ x % 2 ^ k := Int.emod_nonneg _ (by positivity)
  have hm1 : x % 2 ^ k ≤ x := by
    rw [← hcast]
    have : ((x.toNat % 2 ^ k : Nat) : Int) ≤ (x.toNat : Int) := by exact_mod_cast hle
    rw [Int.toNat_of_nonneg h0] at this
    exact this
  exact wrapInt32_of_range (by omega) (by omega)

/-- The bit pattern `|` builds from a value below `2 ^ s` and a byte shifted
left by `s` is their sum. -/
theorem bitOr_shiftLeft (v y : Int) (s : Nat) (hs : s = 0 ∨ s = 8 ∨ s = 16 ∨ s = 24)
    (hv0 : 0 ≤ v) (hv1 : v < 2 ^ s) (hy0 : 0 ≤ y) (hy1 : y < 256) :
    bitOr v (shiftLeft y s) = wrapInt32 (v + y * 2 ^ s) := by
  have hor := Nat.mul_add_lt_is_or (i := s) (b := v.toNat)
    (by
      have : ((v.toNat : Nat) : Int) < ((2 ^ s : Nat) : Int) := by
        rw [Int.toNat_of_nonneg hv0]; exact_mod_cast hv1
      exact_mod_cast this) y.toNat
  unfold bitOr shiftLeft
  rw [toU32_wrapInt32]
  have hu1 : toU32 v = v.toNat := by
    rcases hs with h | h | h | h <;> subst h <;> norm_num at hv1 <;>
      exact toU32_of_nonneg hv0 (by omega)
  have hu2 : toU32 (y * 2 ^ s) = 2 ^ s * y.toNat := by
    unfold toU32
    rcases hs with h | h | h | h <;> subst h <;> norm_num <;> omega
  rw [hu1, hu2, Nat.or_comm, ← hor]
  congr 1
  push_cast
  rw [Int.toNat_of_nonneg hv0, Int.toNat_of_nonneg hy0]
  ring

/-! ## `getUsbInt` -/

theorem getUsbInt_two (buffer : Nat → Int) :
    getUsbInt buffer 2 = buffer 0 % 256 + 256 * (buffer 1 % 256) := by
  have h0 := Int.emod_nonneg (buffer 0) (show (256 : Int) ≠ 0 by decide)
  have h0lt := Int.emod_lt_of_pos (buffer 0) (show (0 : Int) < 256 by decide)
  have h1 := Int.emod_nonneg (buffer 1) (show (256 : Int) ≠ 0 by decide)
  have h1lt := Int.emod_lt_of_pos (buffer 1) (show (0 : Int) < 256 by decide)
  have hdef : getUsbInt buffer 2 =
      bitOr (bitOr 0 (shiftLeft (bitAnd (buffer 0) 0xff) 0))
        (shiftLeft (bitAnd (buffer 1) 0xff) 8) := rfl
  rw [hdef, bitAnd_byte, bitAnd_byte]
  rw [bitOr_shiftLeft 0 _ 0 (by simp) (by omega) (by norm_num) h0 h0lt,
    wrapInt32_of_range (by omega) (by omega)]
  rw [bitOr_shiftLeft _ _ 8 (by simp) (by omega) (by norm_num; omega) h1 h1lt,
    wrapInt32_of_range (by omega) (by omega)]
  norm_num
  ring

theorem getUsbInt_four (buffer : Nat → Int) :
    getUsbInt buffer 4 =
      wrapInt32 (buffer 0 % 256 + 256 * (buffer 1 % 256) + 65536 * (buffer 2 % 256) +
        16777216 * (buffer 3 % 256)) := by
  have h0 := Int.emod_nonneg (buffer 0) (show (256 : Int) ≠ 0 by decide)
  have h0lt := Int.emod_lt_of_pos (buffer 0) (show (0 : Int) < 256 by decide)
  have h1 := Int.emod_nonneg (buffer 1) (show (256 : Int) ≠ 0 by decide)
  have h1lt := Int.emod_lt_of_pos (buffer 1) (show (0 : Int) < 256 by decide)
  have h2 := Int.emod_nonneg (buffer 2) (show (256 : Int) ≠ 0 by decide)
  have h2lt := Int.emod_lt_of_pos (buffer 2) (show (0 : Int) < 256 by decide)
  have h3 := Int.emod_nonneg (buffer 3) (show (256 : Int) ≠ 0 by decide)
  have h3lt := Int.emod_lt_of_pos (buffer 3) (show (0 : Int) < 256 by decide)
  have hdef : getUsbInt buffer 4 =
      bitOr (bitOr (bitOr (bitOr 0 (shiftLeft (bitAnd (buffer 0) 0xff) 0))
        (shiftLeft (bitAnd (buffer 1) 0xff) 8)) (shiftLeft (bitAnd (buffer 2) 0xff) 16))
        (shiftLeft (bitAnd (buffer 3) 0xff) 24) := rfl
  rw [hdef, bitAnd_byte, bitAnd_byte, bitAnd_byte, bitAnd_byte]
  rw [bitOr_shiftLeft 0 _ 0 (by simp) (by omega) (by norm_num) h0 h0lt,
    wrapInt32_of_range (by omega) (by omega)]
  rw [bitOr_shiftLeft _ _ 8 (by simp) (by omega) (by norm_num; omega) h1 h1lt,
    wrapInt32_of_range (by omega) (by omega)]
  rw [bitOr_shiftLeft _ _ 16 (by simp) (by omega) (by norm_num; omega) h2 h2lt,
    wrapInt32_of_range (by omega) (by omega)]
  rw [bitOr_shiftLeft _ _ 24 (by simp) (by omega) (by norm_num; omega) h3 h3lt]
  refine congrArg wrapInt32 ?_
  ring

theorem reportPageSize_range (resp : List Int) :
    0 ≤ reportPageSize resp ∧ reportPageSize resp < 65536 := by
  unfold reportPageSize
  omega

theorem reportFlashSize_range (resp : List Int) :
    0 ≤ reportFlashSize resp ∧ reportFlashSize resp < 4294967296 := by
  unfold reportFlashSize
  omega

/-! ## Traces -/

theorem snoc_eq_append_cons {α : Type} {tr pre post : List α} {e x : α}
    (h : tr ++ [e] = pre ++ x :: post) :
    (post = [] ∧ pre = tr ∧ x = e) ∨ ∃ post2, post = post2 ++ [e] ∧ tr = pre ++ x :: post2 := by
  rcases List.append_eq_append_iff.mp h with ⟨a, h1, h2⟩ | ⟨c, h1, h2⟩
  · cases a with
    | nil =>
      simp only [List.nil_append, List.cons.injEq] at h2
      left
      exact ⟨h2.2.symm, by simpa using h1, h2.1.symm⟩
    | cons y a =>
      have := congrArg List.length h2
      simp at this
  · cases c with
    | nil =>
      simp only [List.nil_append, List.cons.injEq] at h2
      left
      exact ⟨h2.2, by simpa using h1.symm, h2.1⟩
    | cons y c =>
      simp only [List.cons_append, List.cons.injEq] at h2
      right
      exact ⟨c, h2.2, by rw [h1, h2.1]⟩

theorem dataWritesOk_snoc {dev : UsbDevice} {tr : List Event} {e : Event}
    (h : DataWritesOk dev tr)
    (he : ∀ b, e = Event.setReport b → b.length = sizeofBuffer → dev.setReport tr b = 0) :
    DataWritesOk dev (tr ++ [e]) := by
  intro pre b post hdec hlen
  rcases snoc_eq_append_cons hdec with ⟨_, hpre, hx⟩ | ⟨post2, _, htr⟩
  · rw [hpre]
    exact he b hx.symm hlen
  · exact h pre b post2 htr hlen

theorem reportBytes_length (buffer : Nat → Int) (n : Nat) : (reportBytes buffer n).length = n := by
  simp [reportBytes]

theorem blockEvents_zero (dataBuffer : Int → Int) (a : Int) :
    blockEvents dataBuffer a 0 = [] := rfl

theorem blockEvents_succ (dataBuffer : Int → Int) (a : Int) (n : Nat) :
    blockEvents dataBuffer a (n + 1) =
      blockEvent dataBuffer a :: blockEvents dataBuffer (a + 128) n := by
  simp only [blockEvents, List.range_succ_eq_map, List.map_cons, List.map_map, Nat.cast_zero,
    mul_zero, add_zero, List.cons.injEq, true_and]
  apply List.map_congr_left
  intro k _
  simp only [Function.comp, Nat.succ_eq_add_one, Nat.cast_add, Nat.cast_one]
  congr 1
  ring

/-! ## The transfer loop -/

theorem uploadLoop_returns (dev : UsbDevice) (dataBuffer : Int → Int) :
    ∀ (fuel : Nat) (s e : Int) (buffer : Nat → Int) (tr : List Event),
      (e - s).toNat ≤ fuel → ∃ r, uploadLoop dev dataBuffer fuel s e buffer tr = some r := by
  intro fuel
  induction fuel with
  | zero =>
    intro s e buffer tr h
    rw [uploadLoop, if_neg (by omega)]
    exact ⟨_, rfl⟩
  | succ f ih =>
    intro s e buffer tr h
    rw [uploadLoop]
    dsimp only
    split
    · split
      · exact ⟨_, rfl⟩
      · exact ih _ _ _ _ (by simp only [blockSize]; omega)
    · exact ⟨_, rfl⟩

/-- What the transfer loop adds to the trace: data blocks for consecutive
addresses below `endAddr`, all of them when it ends without error; a failed
write is the last one, and all before it succeeded. -/
theorem uploadLoop_spec (dev : UsbDevice) (dataBuffer : Int → Int) :
    ∀ (fuel : Nat) (s e : Int) (buffer : Nat → Int) (tr : List Event) (err : Int)
      (buffer2 : Nat → Int) (tr2 : List Event),
      uploadLoop dev dataBuffer fuel s e buffer tr = some (err, buffer2, tr2) →
      DataWritesOk dev tr →
      ∃ m : Nat, tr2 = tr ++ blockEvents dataBuffer s m ∧
        (∀ k : Nat, k < m → s + 128 * (k : Int) < e) ∧
        (err = 0 → e ≤ s + 128 * (m : Int) ∧ DataWritesOk dev tr2) ∧
        (err ≠ 0 → ∃ tr1, tr2 = tr1 ++ [blockEvent dataBuffer (s + 128 * ((m : Int) - 1))] ∧
          DataWritesOk dev tr1 ∧
          dev.setReport tr1 (reportBytes (dataBlock dataBuffer (s + 128 * ((m : Int) - 1)))
            sizeofBuffer) = err) := by
  intro fuel
  induction fuel with
  | zero =>
    intro s e buffer tr err buffer2 tr2 h hok
    rw [uploadLoop] at h
    split at h
    · simp at h
    · simp only [Option.some.injEq, Prod.mk.injEq] at h
      obtain ⟨rfl, _, rfl⟩ := h
      exact ⟨0, by simp [blockEvents], by intro k hk; omega, fun _ => ⟨by omega, hok⟩,
        fun h => absurd rfl h⟩
  | succ f ih =>
    intro s e buffer tr err buffer2 tr2 h hok
    rw [uploadLoop] at h
    dsimp only at h
    split at h
    · rename_i hlt
      split at h
      · rename_i herr
        simp only [Option.some.injEq, Prod.mk.injEq] at h
        obtain ⟨rfl, _, rfl⟩ := h
        refine ⟨1, by simp [blockEvents_succ, blockEvents_zero, blockEvent], ?_,
          fun h0 => absurd h0 herr, fun _ => ?_⟩
        · intro k hk
          have : k = 0 := by omega
          subst this
          simpa using hlt
        · exact ⟨tr, by simp [blockEvent], hok, by simp⟩
      · rename_i herr
        have herr0 : dev.setReport tr (reportBytes (dataBlock dataBuffer s) sizeofBuffer) = 0 := by
          simpa using herr
        have hok2 : DataWritesOk dev
            (tr ++ [Event.setReport (reportBytes (dataBlock dataBuffer s) sizeofBuffer)]) := by
          apply dataWritesOk_snoc hok
          intro b hb _
          simp only [Event.setReport.injEq] at hb
          rw [← hb]
          exact herr0
        obtain ⟨m, h1, h2, h3, h4⟩ := ih _ _ _ _ _ _ _ h hok2
        refine ⟨m + 1, ?_, ?_, ?_, ?_⟩
        · rw [h1, blockEvents_succ]
          simp [blockEvent, blockSize]
        · intro k hk
          cases k with
          | zero => simpa using hlt
          | succ k =>
            have := h2 k (by omega)
            simp only [blockSize] at this
            push_cast at this ⊢
            omega
        · intro h0
          obtain ⟨h5, h6⟩ := h3 h0
          simp only [blockSize] at h5
          push_cast at h5 ⊢
          exact ⟨by omega, h6⟩
        · intro h0
          obtain ⟨tr1, h5, h6, h7⟩ := h4 h0
          have hidx : s + (blockSize : Int) + 128 * ((m : Int) - 1) =
              s + 128 * (((m + 1 : Nat) : Int) - 1) := by
            simp only [blockSize]
            push_cast
            ring
          rw [hidx] at h5 h7
          exact ⟨tr1, h5, h6, h7⟩
    · simp only [Option.some.injEq, Prod.mk.injEq] at h
      obtain ⟨rfl, _, rfl⟩ := h
      exact ⟨0, by simp [blockEvents], by intro k hk; omega, fun _ => ⟨by omega, hok⟩,
        fun h => absurd rfl h⟩

/-! ## The branches of `uploadData` -/

theorem pageSizeOf_eq (dev : UsbDevice) (stack : Nat → Int) (vid pid : Int)
    (hlen : sizeofInfo ≤ (infoBytes dev vid pid).length) :
    pageSizeOf dev stack vid pid = reportPageSize (infoBytes dev vid pid) := by
  simp only [sizeofInfo] at hlen
  rw [pageSizeOf, getUsbInt_two]
  simp only [infoBuffer, reportPageSize]
  rw [if_pos (by omega), if_pos (by omega)]

theorem deviceSizeOf_eq (dev : UsbDevice) (stack : Nat → Int) (vid pid : Int)
    (hlen : sizeofInfo ≤ (infoBytes dev vid pid).length) :
    deviceSizeOf dev stack vid pid = wrapInt32 (reportFlashSize (infoBytes dev vid pid)) := by
  simp only [sizeofInfo] at hlen
  rw [deviceSizeOf, getUsbInt_four]
  simp only [infoBuffer, reportFlashSize]
  rw [if_pos (by omega), if_pos (by omega), if_pos (by omega), if_pos (by omega)]

theorem uploadData_open_fail (dev : UsbDevice) (leave : Bool) (stack : Nat → Int)
    (dataBuffer : Int → Int) (startAddr endAddr vid pid : Int)
    (hopen : openResult dev vid pid ≠ 0) :
    uploadData dev leave stack dataBuffer startAddr endAddr vid pid =
      some (openResult dev vid pid, openTrace vid pid) := by
  rw [uploadData, if_pos hopen]

theorem uploadData_empty (dev : UsbDevice) (leave : Bool) (stack : Nat → Int)
    (dataBuffer : Int → Int) (startAddr endAddr vid pid : Int)
    (hopen : openResult dev vid pid = 0) (hle : ¬ startAddr < endAddr) :
    uploadData dev leave stack dataBuffer startAddr endAddr vid pid =
      some (0, leaveAndClose leave stack (openTrace vid pid)) := by
  rw [uploadData, if_neg (not_not.mpr hopen), if_neg hle]

theorem uploadData_info_fail (dev : UsbDevice) (leave : Bool) (stack : Nat → Int)
    (dataBuffer : Int → Int) (startAddr endAddr vid pid : Int)
    (hopen : openResult dev vid pid = 0) (hlt : startAddr < endAddr)
    (hinfo : infoResult dev vid pid ≠ 0) :
    uploadData dev leave stack dataBuffer startAddr endAddr vid pid =
      some (infoResult dev vid pid, infoTrace vid pid ++ [Event.closeDevice]) := by
  rw [uploadData, if_neg (not_not.mpr hopen), if_pos hlt, if_pos hinfo]

theorem uploadData_short (dev : UsbDevice) (leave : Bool) (stack : Nat → Int)
    (dataBuffer : Int → Int) (startAddr endAddr vid pid : Int)
    (hopen : openResult dev vid pid = 0) (hlt : startAddr < endAddr)
    (hinfo : infoResult dev vid pid = 0)
    (hlen : (infoBytes dev vid pid).length < sizeofInfo) :
    uploadData dev leave stack dataBuffer startAddr endAddr vid pid =
      some (-1, infoTrace vid pid ++ [Event.closeDevice]) := by
  rw [uploadData, if_neg (not_not.mpr hopen), if_pos hlt, if_neg (not_not.mpr hinfo),
    if_pos hlen]

theorem uploadData_capacity (dev : UsbDevice) (leave : Bool) (stack : Nat → Int)
    (dataBuffer : Int → Int) (startAddr endAddr vid pid : Int)
    (hopen : openResult dev vid pid = 0) (hlt : startAddr < endAddr)
    (hinfo : infoResult dev vid pid = 0)
    (hlen : sizeofInfo ≤ (infoBytes dev vid pid).length)
    (hcap : endAddr > usableSize (infoBytes dev vid pid)) :
    uploadData dev leave stack dataBuffer startAddr endAddr vid pid =
      some (-1, infoTrace vid pid ++ [Event.closeDevice]) := by
  rw [usableSize, ← deviceSizeOf_eq dev stack vid pid hlen] at hcap
  rw [uploadData, if_neg (not_not.mpr hopen), if_pos hlt, if_neg (not_not.mpr hinfo),
    if_neg (Nat.not_lt.mpr hlen), if_pos hcap]

theorem uploadData_upload (dev : UsbDevice) (leave : Bool) (stack : Nat → Int)
    (dataBuffer : Int → Int) (startAddr endAddr vid pid : Int)
    (hopen : openResult dev vid pid = 0) (hlt : startAddr < endAddr)
    (hinfo : infoResult dev vid pid = 0)
    (hlen : sizeofInfo ≤ (infoBytes dev vid pid).length)
    (hcap : ¬ endAddr > usableSize (infoBytes dev vid pid)) :
    uploadData dev leave stack dataBuffer startAddr endAddr vid pid =
      finishUpload leave
        (uploadLoop dev dataBuffer
          (alignedEnd (reportPageSize (infoBytes dev vid pid)) endAddr -
            alignedStart (reportPageSize (infoBytes dev vid pid)) startAddr).toNat
          (alignedStart (reportPageSize (infoBytes dev vid pid)) startAddr)
          (alignedEnd (reportPageSize (infoBytes dev vid pid)) endAddr)
          (infoBuffer dev stack vid pid)
          (planTrace (reportPageSize (infoBytes dev vid pid)) startAddr endAddr vid pid)) := by
  rw [usableSize, ← deviceSizeOf_eq dev stack vid pid hlen] at hcap
  rw [uploadData, if_neg (not_not.mpr hopen), if_pos hlt, if_neg (not_not.mpr hinfo),
    if_neg (Nat.not_lt.mpr hlen), if_neg hcap, pageSizeOf_eq dev stack vid pid hlen]

/-- The function `uploadData` returns on every input: the fuel of the transfer
loop is never used up. -/
theorem uploadData_returns (dev : UsbDevice) (leave : Bool) (stack : Nat → Int)
    (dataBuffer : Int → Int) (startAddr endAddr vid pid : Int) :
    ∃ r, uploadData dev leave stack dataBuffer startAddr endAddr vid pid = some r := by
  by_cases hopen : openResult dev vid pid = 0
  · by_cases hlt : startAddr < endAddr
    · by_cases hinfo : infoResult dev vid pid = 0
      · by_cases hlen : sizeofInfo ≤ (infoBytes dev vid pid).length
        · by_cases hcap : endAddr > usableSize (infoBytes dev vid pid)
          · exact ⟨_, uploadData_capacity dev leave stack dataBuffer _ _ _ _ hopen hlt hinfo
              hlen hcap⟩
          · rw [uploadData_upload dev leave stack dataBuffer _ _ _ _ hopen hlt hinfo hlen hcap]
            obtain ⟨⟨err, buffer, tr⟩, hr⟩ := uploadLoop_returns dev dataBuffer _ _ _
              (infoBuffer dev stack vid pid)
              (planTrace (reportPageSize (infoBytes dev vid pid)) startAddr endAddr vid pid)
              (le_refl _)
            rw [hr, finishUpload]
            split <;> exact ⟨_, rfl⟩
        · exact ⟨_, uploadData_short dev leave stack dataBuffer _ _ _ _ hopen hlt hinfo
            (Nat.lt_of_not_le hlen)⟩
      · exact ⟨_, uploadData_info_fail dev leave stack dataBuffer _ _ _ _ hopen hlt hinfo⟩
    · exact ⟨_, uploadData_empty dev leave stack dataBuffer _ _ _ _ hopen hlt⟩
  · exact ⟨_, uploadData_open_fail dev leave stack dataBuffer _ _ _ _ hopen⟩

theorem dataWritesOk_nil (dev : UsbDevice) : DataWritesOk dev [] := by
  intro pre b post h _
  simp at h

theorem dataWritesOk_planTrace (dev : UsbDevice) (pageSize startAddr endAddr vid pid : Int) :
    DataWritesOk dev (planTrace pageSize startAddr endAddr vid pid) := by
  have h0 : DataWritesOk dev (openTrace vid pid) := by
    have := dataWritesOk_snoc (e := Event.openDevice (usbIds vid pid).1 (usbIds vid pid).2)
      (dataWritesOk_nil dev) (by intro b hb; simp at hb)
    simpa [openTrace] using this
  have h1 : DataWritesOk dev (infoTrace vid pid) :=
    dataWritesOk_snoc h0 (by intro b hb; simp at hb)
  exact dataWritesOk_snoc h1 (by intro b hb; simp at hb)

theorem planTrace_no_write (pageSize startAddr endAddr vid pid : Int) (b : List Int) :
    Event.setReport b ∉ planTrace pageSize startAddr endAddr vid pid := by
  simp [planTrace, infoTrace, openTrace]

theorem blockEvent_mem {dataBuffer : Int → Int} {s : Int} {m : Nat} {ev : Event}
    (h : ev ∈ blockEvents dataBuffer s m) :
    ∃ k : Nat, k < m ∧ ev = blockEvent dataBuffer (s + 128 * (k : Int)) := by
  simp only [blockEvents, List.mem_map, List.mem_range] at h
  obtain ⟨k, hk, rfl⟩ := h
  exact ⟨k, hk, rfl⟩

/-- The shape of a run that reached the transfer loop. -/
theorem uploadData_upload_trace (dev : UsbDevice) (leave : Bool) (stack : Nat → Int)
    (dataBuffer : Int → Int) (startAddr endAddr vid pid : Int)
    (hopen : openResult dev vid pid = 0) (hlt : startAddr < endAddr)
    (hinfo : infoResult dev vid pid = 0)
    (hlen : sizeofInfo ≤ (infoBytes dev vid pid).length)
    (hcap : ¬ endAddr > usableSize (infoBytes dev vid pid)) :
    ∃ (err : Int) (m : Nat) (tail : List Event),
      uploadData dev leave stack dataBuffer startAddr endAddr vid pid =
        some (err, planTrace (reportPageSize (infoBytes dev vid pid)) startAddr endAddr vid pid ++
          blockEvents dataBuffer
            (alignedStart (reportPageSize (infoBytes dev vid pid)) startAddr) m ++ tail) ∧
      (∀ k : Nat, k < m →
        alignedStart (reportPageSize (infoBytes dev vid pid)) startAddr + 128 * (k : Int) <
          alignedEnd (reportPageSize (infoBytes dev vid pid)) endAddr) ∧
      (∀ b, Event.setReport b ∈ tail → b.length = sizeofInfo) ∧
      (err = 0 →
        alignedEnd (reportPageSize (infoBytes dev vid pid)) endAddr ≤
          alignedStart (reportPageSize (infoBytes dev vid pid)) startAddr + 128 * (m : Int)) ∧
      (err ≠ 0 → 0 < m ∧ ∃ tr b, dev.setReport tr b = err) := by
  rw [uploadData_upload dev leave stack dataBuffer _ _ _ _ hopen hlt hinfo hlen hcap]
  obtain ⟨⟨err, buffer, tr⟩, hr⟩ := uploadLoop_returns dev dataBuffer _
    (alignedStart (reportPageSize (infoBytes dev vid pid)) startAddr)
    (alignedEnd (reportPageSize (infoBytes dev vid pid)) endAddr)
    (infoBuffer dev stack vid pid)
    (planTrace (reportPageSize (infoBytes dev vid pid)) startAddr endAddr vid pid) (le_refl _)
  obtain ⟨m, h1, h2, h3, h4⟩ := uploadLoop_spec dev dataBuffer _ _ _ _ _ _ _ _ hr
    (dataWritesOk_planTrace dev _ _ _ _ _)
  rw [hr, finishUpload]
  by_cases herr : err = 0
  · subst herr
    rw [if_neg (by simp)]
    cases leave with
    | false =>
      refine ⟨0, m, [Event.closeDevice], ?_, h2, ?_, fun _ => (h3 rfl).1, fun h => absurd rfl h⟩
      · simp [leaveAndClose, h1]
      · intro b hb; simp at hb
    | true =>
      refine ⟨0, m, [Event.setReport (reportBytes (fun i => if i = 0 then 1 else buffer i)
        sizeofInfo), Event.closeDevice], ?_, h2, ?_, fun _ => (h3 rfl).1, fun h => absurd rfl h⟩
      · simp [leaveAndClose, h1]
      · intro b hb
        simp only [List.mem_cons, Event.setReport.injEq, reduceCtorEq, List.mem_nil_iff,
          or_false] at hb
        rw [hb, reportBytes_length]
  · rw [if_pos herr]
    obtain ⟨tr1, h5, h6, h7⟩ := h4 herr
    refine ⟨err, m, [Event.closeDevice], by rw [h1], h2, ?_, fun h => absurd h herr,
      fun _ => ⟨?_, tr1, _, h7⟩⟩
    · intro b hb; simp at hb
    · rcases Nat.eq_zero_or_pos m with hm | hm
      · subst hm
        rw [blockEvents_zero, List.append_nil] at h1
        rw [h1] at h5
        have hmem : blockEvent dataBuffer
            (alignedStart (reportPageSize (infoBytes dev vid pid)) startAddr +
              128 * (((0 : Nat) : Int) - 1)) ∈
            planTrace (reportPageSize (infoBytes dev vid pid)) startAddr endAddr vid pid := by
          rw [h5]; simp
        exact absurd hmem (planTrace_no_write _ _ _ _ _ _)
      · exact hm

/-! ## Arithmetic of the capacity check and of the alignment -/

theorem usableSize_of_lt (resp : List Int) (h : reportFlashSize resp < 2147483648) :
    usableSize resp = reportFlashSize resp - 2048 := by
  have hr := reportFlashSize_range resp
  unfold usableSize
  rw [wrapInt32_of_range (by omega) h, wrapInt32_of_range (by omega) (by omega)]

theorem le_of_not_gt_usableSize (resp : List Int) (endAddr : Int) (h0 : 0 < endAddr)
    (h : ¬ endAddr > usableSize resp) : endAddr ≤ reportFlashSize resp - 2048 := by
  have hr := reportFlashSize_range resp
  unfold usableSize wrapInt32 at h
  split at h <;> split at h <;> omega

theorem alignMask_pow (pageSize : Int) (h0 : 0 ≤ pageSize) (h1 : pageSize < 65536)
    (hpow : pageSize < 128 ∨ ∃ k : Nat, pageSize = 2 ^ k) :
    ∃ k : Nat, 7 ≤ k ∧ k ≤ 15 ∧ alignMask pageSize = 2 ^ k - 1 := by
  by_cases hs : pageSize < 128
  · exact ⟨7, by omega, by omega, by simp [alignMask, hs]⟩
  · rcases hpow with h | ⟨k, hk⟩
    · exact absurd h hs
    · refine ⟨k, ?_, ?_, by rw [alignMask, if_neg hs, hk]⟩
      · by_contra hlt
        have hk6 : k ≤ 6 := by omega
        have : (2 : Int) ^ k ≤ 2 ^ 6 := pow_le_pow_right₀ (by norm_num) hk6
        rw [← hk] at this
        norm_num at this
        omega
      · by_contra hgt
        have hk16 : 16 ≤ k := by omega
        have : (2 : Int) ^ 16 ≤ 2 ^ k := pow_le_pow_right₀ (by norm_num) hk16
        rw [← hk] at this
        norm_num at this
        omega

/-- Rounding with a mask `2 ^ k - 1`: the aligned addresses are the multiples
of `2 ^ k` below the start and above the end. -/
theorem aligned_pow (pageSize : Int) (k : Nat) (hk : k ≤ 15)
    (hmask : alignMask pageSize = 2 ^ k - 1) (x y : Int) (hx0 : 0 ≤ x) (hx1 : x < 2147483648)
    (hy0 : 0 ≤ y) (hy1 : y + alignMask pageSize < 2147483648) :
    alignedStart pageSize x = x - x % 2 ^ k ∧
    alignedEnd pageSize y = y + (2 ^ k - 1) - (y + (2 ^ k - 1)) % 2 ^ k := by
  have hp : (0 : Int) < 2 ^ k := by positivity
  unfold alignedStart alignedEnd
  rw [hmask] at hy1 ⊢
  exact ⟨bitAnd_bitNot_pow x k (by omega) hx0 hx1,
    bitAnd_bitNot_pow _ k (by omega) (by omega) hy1⟩

theorem dvd_sub_emod (x m : Int) : m ∣ x - x % m :=
  ⟨x / m, by have := Int.ediv_add_emod x m; omega⟩

/-- The bits of `n` inside `m` and the bits of `n` outside `m` add up to `n`. -/
theorem and_add_and_compl : ∀ (w n m : Nat), n < 2 ^ w → m < 2 ^ w →
    (n &&& m) + (n &&& (2 ^ w - 1 - m)) = n := by
  intro w
  induction w with
  | zero =>
    intro n m hn hm
    have hn0 : n = 0 := by simpa using hn
    subst hn0
    simp
  | succ w ih =>
    intro n m hn hm
    have hpow : 2 ^ (w + 1) = 2 * 2 ^ w := by rw [Nat.pow_succ]; omega
    rw [hpow] at hn hm ⊢
    have ih2 := ih (n / 2) (m / 2) (by omega) (by omega)
    have hc : (2 * 2 ^ w - 1 - m) / 2 = 2 ^ w - 1 - m / 2 := by omega
    have d1 : (n &&& m) / 2 = n / 2 &&& m / 2 := Nat.and_div_two
    have d2 : (n &&& (2 * 2 ^ w - 1 - m)) / 2 = n / 2 &&& (2 ^ w - 1 - m / 2) := by
      rw [Nat.and_div_two, hc]
    have m1 : (n &&& m) % 2 = 1 ↔ n % 2 = 1 ∧ m % 2 = 1 := Nat.and_mod_two_eq_one
    have m2 : (n &&& (2 * 2 ^ w - 1 - m)) % 2 = 1 ↔
        n % 2 = 1 ∧ (2 * 2 ^ w - 1 - m) % 2 = 1 := Nat.and_mod_two_eq_one
    have hcm : (2 * 2 ^ w - 1 - m) % 2 = 1 ↔ m % 2 = 0 := by omega
    rw [hcm] at m2
    omega

theorem toU32_lt (x : Int) : toU32 x < 2 ^ 32 := by
  unfold toU32
  omega

theorem toU32_bitNot (m : Int) (hm0 : 0 ≤ m) (hm1 : m < 2147483648) :
    toU32 (bitNot m) = 2 ^ 32 - 1 - m.toNat := by
  unfold bitNot
  rw [toU32_wrapInt32]
  unfold toU32
  omega

/-- Clearing the bits of a mask whose low `j` bits are all set leaves a
multiple of `2 ^ j`. -/
theorem and_compl_low (X mN j : Nat) (hX : X < 2 ^ 32) (hm : mN < 2 ^ 32)
    (hlow : mN % 2 ^ j = 2 ^ j - 1) : (X &&& (2 ^ 32 - 1 - mN)) % 2 ^ j = 0 := by
  have hsum := and_add_and_compl 32 X mN hX hm
  have hmod : (X &&& mN) % 2 ^ j = X % 2 ^ j := by
    rw [← Nat.and_pow_two_sub_one_eq_mod, Nat.and_assoc, Nat.and_pow_two_sub_one_eq_mod mN,
      hlow, Nat.and_pow_two_sub_one_eq_mod]
  have heq : X &&& (2 ^ 32 - 1 - mN) = X - (X &&& mN) := by omega
  rw [heq]
  exact Nat.sub_mod_eq_zero_of_mod_eq hmod.symm

/-- Clearing the bits of a mask below `2 ^ 31` keeps bit 31. -/
theorem and_compl_high (X mN : Nat) (hX : X < 2 ^ 32) (hm : mN < 2 ^ 31) (hhigh : 2 ^ 31 ≤ X) :
    2 ^ 31 ≤ X &&& (2 ^ 32 - 1 - mN) := by
  have hsum := and_add_and_compl 32 X mN hX (by omega)
  have hm2 : mN &&& (2 ^ 31 - 1) = mN := by
    rw [Nat.and_pow_two_sub_one_eq_mod]
    exact Nat.mod_eq_of_lt hm
  have heq : X &&& mN = X % 2 ^ 31 &&& mN := by
    conv_lhs => rw [← hm2]
    rw [Nat.and_comm mN, ← Nat.and_assoc, Nat.and_pow_two_sub_one_eq_mod]
  have hle : X % 2 ^ 31 &&& mN ≤ X % 2 ^ 31 := Nat.and_le_left
  rw [← heq] at hle
  omega

/-- The operation `& ~mask` leaves a multiple of `2 ^ j` when the low `j` bits
of the mask are set, whatever the `int` it is applied to. -/
theorem bitAnd_bitNot_dvd (x m : Int) (j : Nat) (hj : j ≤ 32) (hm0 : 0 ≤ m)
    (hm1 : m < 2147483648) (hlow : m % 2 ^ j = 2 ^ j - 1) :
    (2 ^ j : Int) ∣ bitAnd x (bitNot m) := by
  have hp : 1 ≤ 2 ^ j := Nat.one_le_two_pow
  have hlowN : m.toNat % 2 ^ j = 2 ^ j - 1 := by
    apply Int.ofNat_inj.mp
    rw [Int.natCast_mod, Int.toNat_of_nonneg hm0, Nat.cast_sub hp]
    exact_mod_cast hlow
  have h0 := and_compl_low (toU32 x) m.toNat j (toU32_lt x) (by omega) hlowN
  unfold bitAnd
  rw [toU32_bitNot m hm0 hm1]
  generalize toU32 x &&& (2 ^ 32 - 1 - m.toNat) = n at h0
  have hd : (2 ^ j : Int) ∣ (n : Int) := by
    exact_mod_cast Nat.dvd_of_mod_eq_zero h0
  have h32 : (2 ^ j : Int) ∣ 4294967296 := ⟨2 ^ (32 - j), by
    rw [← pow_add, Nat.add_sub_cancel' hj]
    norm_num⟩
  have hmod : (2 ^ j : Int) ∣ (n : Int) % 4294967296 := by
    rw [Int.emod_def]
    exact dvd_sub hd (dvd_mul_of_dvd_left h32 _)
  unfold wrapInt32
  split
  · exact hmod
  · exact dvd_sub hmod h32

/-- Clearing the bits of a non-negative mask lowers any 32-bit `int` by at most
the mask. -/
theorem bitAnd_bitNot_int_bounds (x m : Int) (hx0 : -2147483648 ≤ x) (hx1 : x < 2147483648)
    (hm0 : 0 ≤ m) (hm1 : m < 2147483648) :
    bitAnd x (bitNot m) ≤ x ∧ x - m ≤ bitAnd x (bitNot m) := by
  have hX := toU32_lt x
  have hsum := and_add_and_compl 32 (toU32 x) m.toNat hX (by omega)
  have hle : toU32 x &&& m.toNat ≤ m.toNat := Nat.and_le_right
  have hhigh : 2 ^ 31 ≤ toU32 x → 2 ^ 31 ≤ toU32 x &&& (2 ^ 32 - 1 - m.toNat) :=
    and_compl_high (toU32 x) m.toNat hX (by omega)
  have hxu : (toU32 x : Int) = if x < 0 then x + 4294967296 else x := by
    unfold toU32
    split <;> omega
  unfold bitAnd
  rw [toU32_bitNot m hm0 hm1]
  generalize toU32 x &&& (2 ^ 32 - 1 - m.toNat) = c at hsum hhigh ⊢
  generalize toU32 x &&& m.toNat = a at hsum hle
  generalize toU32 x = X at hX hsum hhigh hxu
  unfold wrapInt32
  split at hxu <;> split <;> omega

/-- When the sum `x` exceeds the largest `int`, what `& ~mask` leaves of its
32-bit pattern is negative. -/
theorem bitAnd_bitNot_neg (x m : Int) (hx0 : 2147483648 ≤ x) (hx1 : x < 4294967296)
    (hm0 : 0 ≤ m) (hm1 : m < 2147483648) : bitAnd x (bitNot m) < 0 := by
  have hX := toU32_lt x
  have hsum := and_add_and_compl 32 (toU32 x) m.toNat hX (by omega)
  have hhigh : 2 ^ 31 ≤ toU32 x → 2 ^ 31 ≤ toU32 x &&& (2 ^ 32 - 1 - m.toNat) :=
    and_compl_high (toU32 x) m.toNat hX (by omega)
  have hxu : (toU32 x : Int) = x := by
    unfold toU32
    omega
  unfold bitAnd
  rw [toU32_bitNot m hm0 hm1]
  generalize toU32 x &&& (2 ^ 32 - 1 - m.toNat) = c at hsum hhigh ⊢
  generalize toU32 x &&& m.toNat = a at hsum
  generalize toU32 x = X at hX hsum hhigh hxu
  unfold wrapInt32
  split <;> omega

/-- With a page size below 128 or a power of two, `& ~mask` leaves a multiple
of `mask + 1`, whatever the `int` it is applied to. -/
theorem aligned_dvd_pow (pageSize x : Int) (hp0 : 0 ≤ pageSize) (hp1 : pageSize < 65536)
    (hpow : pageSize < 128 ∨ ∃ k : Nat, pageSize = 2 ^ k) :
    (alignMask pageSize + 1) ∣ bitAnd x (bitNot (alignMask pageSize)) := by
  obtain ⟨k, _, hk15, hmask⟩ := alignMask_pow pageSize hp0 hp1 hpow
  have hpos : (0 : Int) < 2 ^ k := by positivity
  have hlt : (2 : Int) ^ k ≤ 2 ^ 15 := pow_le_pow_right₀ (by norm_num) hk15
  have h := bitAnd_bitNot_dvd x (alignMask pageSize) k (by omega) (by rw [hmask]; omega)
    (by rw [hmask]; norm_num at hlt; omega)
    (by rw [hmask]; exact Int.emod_eq_of_lt (by omega) (by omega))
  rw [hmask, sub_add_cancel]
  rw [hmask] at h
  exact h

/-- The run of a non-empty range that passes the checks prints the aligned
range and goes on with the transfer. -/
theorem uploadData_prints (dev : UsbDevice) (leave : Bool) (stack : Nat → Int)
    (dataBuffer : Int → Int) (rawStart rawEnd vid pid : Int)
    (hopen : openResult dev vid pid = 0) (hlt : rawStart < rawEnd)
    (hinfo : infoResult dev vid pid = 0)
    (hlen : sizeofInfo ≤ (infoBytes dev vid pid).length)
    (hcap : ¬ rawEnd > usableSize (infoBytes dev vid pid)) :
    ∃ err rest, uploadData dev leave stack dataBuffer rawStart rawEnd vid pid =
      some (err, infoTrace vid pid ++
        Event.printUploading
          (alignedEnd (reportPageSize (infoBytes dev vid pid)) rawEnd -
            alignedStart (reportPageSize (infoBytes dev vid pid)) rawStart)
          (alignedStart (reportPageSize (infoBytes dev vid pid)) rawStart) :: rest) := by
  obtain ⟨err, m, tail, hrun, _⟩ :=
    uploadData_upload_trace dev leave stack dataBuffer _ _ _ _ hopen hlt hinfo hlen hcap
  refine ⟨err, blockEvents dataBuffer
    (alignedStart (reportPageSize (infoBytes dev vid pid)) rawStart) m ++ tail, ?_⟩
  rw [hrun]
  simp [planTrace]

/-- A positive number that shares no bit with its predecessor is a power of
two. -/
theorem pow_of_and_pred : ∀ n : Nat, 0 < n → n &&& (n - 1) = 0 → ∃ k : Nat, n = 2 ^ k := by
  intro n
  induction n using Nat.strong_induction_on with
  | _ n ih =>
    intro hn h
    by_cases h1 : n = 1
    · exact ⟨0, by simp [h1]⟩
    · have hdiv : (n &&& (n - 1)) / 2 = n / 2 &&& (n - 1) / 2 := Nat.and_div_two
      rw [h] at hdiv
      rcases Nat.mod_two_eq_zero_or_one n with he | ho
      · have hq : (n - 1) / 2 = n / 2 - 1 := by omega
        rw [hq] at hdiv
        obtain ⟨k, hk⟩ := ih (n / 2) (by omega) (by omega) hdiv.symm
        exact ⟨k + 1, by rw [Nat.pow_succ]; omega⟩
      · have hq : (n - 1) / 2 = n / 2 := by omega
        rw [hq, Nat.and_self] at hdiv
        omega

/-- The condition of the alignment is needed: for a page size of at least 128
that is no power of two, the start `pageSize` itself is rounded to a number
that is no multiple of `mask + 1`. -/
theorem aligned_start_not_dvd (pageSize : Int) (hp0 : 128 ≤ pageSize) (hp1 : pageSize < 65536)
    (hnp : ¬ ∃ k : Nat, pageSize = 2 ^ k) :
    ¬ (alignMask pageSize + 1) ∣ alignedStart pageSize pageSize := by
  have hmask : alignMask pageSize = pageSize - 1 := by rw [alignMask, if_neg (by omega)]
  have hw : ∀ c : Nat, c < 65536 → wrapInt32 (c : Int) = c :=
    fun c hc => wrapInt32_of_range (by omega) (by omega)
  have hN : pageSize.toNat < 65536 := by omega
  intro hd
  have hb := bitAnd_bitNot_int_bounds pageSize (pageSize - 1) (by omega) (by omega) (by omega)
    (by omega)
  rw [alignedStart, hmask, sub_add_cancel] at hd
  have heq : bitAnd pageSize (bitNot (pageSize - 1)) = pageSize := by
    generalize bitAnd pageSize (bitNot (pageSize - 1)) = r at hb hd
    exact le_antisymm hb.1 (Int.le_of_dvd (by omega) hd)
  have hsum := and_add_and_compl 32 pageSize.toNat (pageSize - 1).toNat (by omega) (by omega)
  have hxu : toU32 pageSize = pageSize.toNat := toU32_of_nonneg (by omega) (by omega)
  unfold bitAnd at heq
  rw [hxu, toU32_bitNot (pageSize - 1) (by omega) (by omega)] at heq
  have hpred : (pageSize - 1).toNat = pageSize.toNat - 1 := by omega
  rw [hpred] at hsum heq
  have hle : pageSize.toNat &&& (2 ^ 32 - 1 - (pageSize.toNat - 1)) ≤ pageSize.toNat :=
    Nat.and_le_left
  generalize pageSize.toNat &&& (2 ^ 32 - 1 - (pageSize.toNat - 1)) = c at hsum heq hle
  rw [hw c (lt_of_le_of_lt hle hN)] at heq
  have hzero : pageSize.toNat &&& (pageSize.toNat - 1) = 0 := by omega
  obtain ⟨k, hk⟩ := pow_of_and_pred pageSize.toNat (by omega) hzero
  apply hnp
  refine ⟨k, ?_⟩
  have hcast : ((pageSize.toNat : Nat) : Int) = pageSize := Int.toNat_of_nonneg (by omega)
  have hpow : ((pageSize.toNat : Nat) : Int) = ((2 ^ k : Nat) : Int) := congrArg Nat.cast hk
  rw [hcast] at hpow
  rw [hpow]
  push_cast
  rfl

/-- The condition on the low seven bits of the mask is needed: for a page size
of at least 128 that is no multiple of 128 there is a start address below 128,
not 0, that the rounding leaves as it is. -/
theorem aligned_start_not_dvd_128 (pageSize : Int) (hp0 : 128 ≤ pageSize)
    (hp1 : pageSize < 65536) (hlow : pageSize % 128 ≠ 0) :
    alignedStart pageSize (127 - (pageSize - 1) % 128) = 127 - (pageSize - 1) % 128 ∧
    ¬ (128 : Int) ∣ 127 - (pageSize - 1) % 128 := by
  have hmask : alignMask pageSize = pageSize - 1 := by rw [alignMask, if_neg (by omega)]
  refine ⟨?_, by omega⟩
  have hx0 : (0 : Int) ≤ 127 - (pageSize - 1) % 128 := by omega
  have hxu : toU32 (127 - (pageSize - 1) % 128) = 127 - (pageSize - 1).toNat % 128 := by
    rw [toU32_of_nonneg hx0 (by omega)]
    omega
  have ha : 127 - (pageSize - 1).toNat % 128 < 2 ^ 7 := by norm_num; omega
  have h7 := and_add_and_compl 7 (127 - (pageSize - 1).toNat % 128)
    ((pageSize - 1).toNat % 128) ha (by norm_num; omega)
  have hc : 2 ^ 7 - 1 - (pageSize - 1).toNat % 128 = 127 - (pageSize - 1).toNat % 128 := by
    norm_num
  rw [hc, Nat.and_self] at h7
  have hself : (127 - (pageSize - 1).toNat % 128) &&& (2 ^ 7 - 1) =
      127 - (pageSize - 1).toNat % 128 := by
    rw [Nat.and_pow_two_sub_one_eq_mod]
    exact Nat.mod_eq_of_lt ha
  have hand : (127 - (pageSize - 1).toNat % 128) &&& (pageSize - 1).toNat = 0 := by
    rw [← hself, Nat.and_assoc, Nat.and_comm (2 ^ 7 - 1), Nat.and_pow_two_sub_one_eq_mod]
    norm_num at h7 ⊢
    omega
  have hsum := and_add_and_compl 32 (127 - (pageSize - 1).toNat % 128) (pageSize - 1).toNat
    (by omega) (by omega)
  rw [hand, Nat.zero_add] at hsum
  rw [alignedStart, hmask]
  unfold bitAnd
  rw [hxu, toU32_bitNot (pageSize - 1) (by omega) (by omega), hsum]
  rw [wrapInt32_of_range (by omega) (by omega)]
  omega

/-! ## The claims about `uploadData` -/

/-- C3 fails as stated, whichever way the four flash-size bytes are read.  A
device that reports 0xFFFFFFFF makes `uploadData` reject a two-byte image with
error -1 although 2 is far below 0xFFFFFFFF - 2048; a device that reports
0x80000000, which the code reads as the `int` -2147483648, has the image
accepted and a data block sent although 2 exceeds -2147483648 - 2048. -/
theorem C3_capacity_counterexample :
    (Rejected (uploadData deviceAllOnes false (fun _ => 0) (fun _ => 255) 0 2 0 0) ∧
      reportFlashSize (infoBytes deviceAllOnes 0 0) = 4294967295 ∧
      ¬ ((2 : Int) > 4294967295 - 2048)) ∧
    (¬ Rejected (uploadData deviceTopBit false (fun _ => 0) (fun _ => 255) 0 2 0 0) ∧
      deviceSizeOf deviceTopBit (fun _ => 0) 0 0 = -2147483648 ∧
      (2 : Int) > -2147483648 - 2048) := by
  have h1 : uploadData deviceAllOnes false (fun _ => 0) (fun _ => 255) 0 2 0 0 =
      some (-1, infoTrace 0 0 ++ [Event.closeDevice]) := by decide
  have h2 : uploadData deviceTopBit false (fun _ => 0) (fun _ => 255) 0 2 0 0 =
      some (0, infoTrace 0 0 ++ [Event.printUploading 128 0, blockEvent (fun _ => 255) 0,
        Event.closeDevice]) := by decide
  refine ⟨⟨⟨-1, _, h1, by decide, ?_⟩, by decide, by decide⟩, ?_, by decide, by decide⟩
  · intro b _
    simp [infoTrace, openTrace]
  · rintro ⟨err, tr, h, herr, _⟩
    rw [h2] at h
    simp only [Option.some.injEq, Prod.mk.injEq] at h
    exact herr h.1.symm

/-- C3, amended: when the device opens, the range is non-empty, the geometry
is read in full and the reported flash size is below 2^31, `uploadData`
returns, and it ends in an error before any data block is sent exactly when
`rawEnd > flashSize - 2048`; it then returns -1 after the geometry read and the
close.  In particular `rawEnd = flashSize - 2047` is rejected and
`rawEnd = flashSize - 2048` is not. -/
theorem C3_capacity_check (dev : UsbDevice) (leave : Bool) (stack : Nat → Int)
    (dataBuffer : Int → Int) (rawStart rawEnd vid pid : Int)
    (hopen : openResult dev vid pid = 0) (hlt : rawStart < rawEnd)
    (hinfo : infoResult dev vid pid = 0)
    (hlen : sizeofInfo ≤ (infoBytes dev vid pid).length)
    (hflash : reportFlashSize (infoBytes dev vid pid) < 2147483648) :
    (∃ r, uploadData dev leave stack dataBuffer rawStart rawEnd vid pid = some r) ∧
    (Rejected (uploadData dev leave stack dataBuffer rawStart rawEnd vid pid) ↔
      rawEnd > reportFlashSize (infoBytes dev vid pid) - 2048) ∧
    (rawEnd > reportFlashSize (infoBytes dev vid pid) - 2048 →
      uploadData dev leave stack dataBuffer rawStart rawEnd vid pid =
        some (-1, infoTrace vid pid ++ [Event.closeDevice])) ∧
    (rawEnd = reportFlashSize (infoBytes dev vid pid) - 2047 →
      Rejected (uploadData dev leave stack dataBuffer rawStart rawEnd vid pid)) ∧
    (rawEnd = reportFlashSize (infoBytes dev vid pid) - 2048 →
      ¬ Rejected (uploadData dev leave stack dataBuffer rawStart rawEnd vid pid)) := by
  have hus := usableSize_of_lt _ hflash
  have hrej : rawEnd > reportFlashSize (infoBytes dev vid pid) - 2048 →
      uploadData dev leave stack dataBuffer rawStart rawEnd vid pid =
        some (-1, infoTrace vid pid ++ [Event.closeDevice]) := fun h =>
    uploadData_capacity dev leave stack dataBuffer _ _ _ _ hopen hlt hinfo hlen (by rw [hus]; exact h)
  have hiff : Rejected (uploadData dev leave stack dataBuffer rawStart rawEnd vid pid) ↔
      rawEnd > reportFlashSize (infoBytes dev vid pid) - 2048 := by
    constructor
    · intro hR
      by_contra hle
      obtain ⟨err, m, tail, hrun, _, _, _, hfail⟩ :=
        uploadData_upload_trace dev leave stack dataBuffer _ _ _ _ hopen hlt hinfo hlen
          (by rw [hus]; exact hle)
      obtain ⟨err2, tr, h, herr, hno⟩ := hR
      rw [hrun] at h
      simp only [Option.some.injEq, Prod.mk.injEq] at h
      obtain ⟨he, htr⟩ := h
      subst he
      obtain ⟨hm, _⟩ := hfail herr
      obtain ⟨m, rfl⟩ : ∃ j, m = j + 1 := ⟨m - 1, by omega⟩
      refine hno _ (reportBytes_length (dataBlock dataBuffer
        (alignedStart (reportPageSize (infoBytes dev vid pid)) rawStart)) sizeofBuffer) ?_
      rw [← htr, blockEvents_succ]
      simp [blockEvent]
    · intro h
      refine ⟨-1, _, hrej h, by decide, ?_⟩
      intro b _
      simp [infoTrace, openTrace]
  exact ⟨uploadData_returns dev leave stack dataBuffer _ _ _ _, hiff, hrej,
    fun h => hiff.mpr (by omega), fun h => fun hR => by have := hiff.mp hR; omega⟩

/-- Witness of C3: flash size 4096 and `rawEnd = 2049 = 4096 - 2047`. -/
theorem C3_capacity_check_witness :
    (openResult deviceFlash4096 0 0 = 0 ∧ (0 : Int) < 2049 ∧ infoResult deviceFlash4096 0 0 = 0 ∧
      sizeofInfo ≤ (infoBytes deviceFlash4096 0 0).length ∧
      reportFlashSize (infoBytes deviceFlash4096 0 0) < 2147483648) ∧
    (Rejected (uploadData deviceFlash4096 true (fun _ => 0) (fun _ => 255) 0 2049 0 0) ↔
      (2049 : Int) > reportFlashSize (infoBytes deviceFlash4096 0 0) - 2048) :=
  ⟨⟨by decide, by decide, by decide, by decide, by decide⟩,
    (C3_capacity_check deviceFlash4096 true (fun _ => 0) (fun _ => 255) 0 2049 0 0
      (by decide) (by decide) (by decide) (by decide) (by decide)).2.1⟩

/-- C4 fails as stated: with the reported page size 200 the mask is 199, the
raw range [8, 9) is transferred from start address 8, and 8 is not a multiple
of mask + 1 = 200. -/
theorem C4_alignment_counterexample :
    uploadData devicePage200 false (fun _ => 0) (fun _ => 255) 8 9 0 0 =
      some (0, infoTrace 0 0 ++ [Event.printUploading 8 8, blockEvent (fun _ => 255) 8,
        Event.closeDevice]) ∧
    reportPageSize (infoBytes devicePage200 0 0) = 200 ∧
    alignMask 200 + 1 = 200 ∧ alignedStart 200 8 = 8 ∧ ¬ ((200 : Int) ∣ 8) := by
  refine ⟨by decide, by decide, by decide, by decide, by decide⟩

/-- C4, amended: for every raw range that passes the capacity check and
every page size the device reports, the range `uploadData` prints and transfers
is `start = rawStart & ~mask`, `end = (rawEnd + mask) & ~mask` with
`mask = 127` when `pageSize < 128` and `mask = pageSize - 1` otherwise; when
the page size is below 128 or a power of two, both are multiples of
`mask + 1`. -/
theorem C4_aligned_range (dev : UsbDevice) (leave : Bool) (stack : Nat → Int)
    (dataBuffer : Int → Int) (rawStart rawEnd vid pid : Int)
    (hopen : openResult dev vid pid = 0) (hlt : rawStart < rawEnd)
    (hinfo : infoResult dev vid pid = 0)
    (hlen : sizeofInfo ≤ (infoBytes dev vid pid).length)
    (hcap : ¬ rawEnd > usableSize (infoBytes dev vid pid)) :
    (∃ err rest, uploadData dev leave stack dataBuffer rawStart rawEnd vid pid =
      some (err, infoTrace vid pid ++
        Event.printUploading
          (alignedEnd (reportPageSize (infoBytes dev vid pid)) rawEnd -
            alignedStart (reportPageSize (infoBytes dev vid pid)) rawStart)
          (alignedStart (reportPageSize (infoBytes dev vid pid)) rawStart) :: rest)) ∧
    alignMask (reportPageSize (infoBytes dev vid pid)) =
      (if reportPageSize (infoBytes dev vid pid) < 128 then 127
       else reportPageSize (infoBytes dev vid pid) - 1) ∧
    alignedStart (reportPageSize (infoBytes dev vid pid)) rawStart =
      bitAnd rawStart (bitNot (alignMask (reportPageSize (infoBytes dev vid pid)))) ∧
    alignedEnd (reportPageSize (infoBytes dev vid pid)) rawEnd =
      bitAnd (rawEnd + alignMask (reportPageSize (infoBytes dev vid pid)))
        (bitNot (alignMask (reportPageSize (infoBytes dev vid pid)))) ∧
    ((reportPageSize (infoBytes dev vid pid) < 128 ∨
        ∃ k : Nat, reportPageSize (infoBytes dev vid pid) = 2 ^ k) →
      (alignMask (reportPageSize (infoBytes dev vid pid)) + 1) ∣
        alignedStart (reportPageSize (infoBytes dev vid pid)) rawStart ∧
      (alignMask (reportPageSize (infoBytes dev vid pid)) + 1) ∣
        alignedEnd (reportPageSize (infoBytes dev vid pid)) rawEnd) := by
  have hr := reportPageSize_range (infoBytes dev vid pid)
  refine ⟨uploadData_prints dev leave stack dataBuffer _ _ _ _ hopen hlt hinfo hlen hcap,
    rfl, rfl, rfl, fun hpow => ?_⟩
  exact ⟨aligned_dvd_pow _ rawStart hr.1 hr.2 hpow, aligned_dvd_pow _ _ hr.1 hr.2 hpow⟩

/-- Witness of C4: page size 128, flash size 4096, raw range [-5, 300), which
is transferred as [-128, 384). -/
theorem C4_aligned_range_witness :
    (openResult deviceFlash4096 0 0 = 0 ∧ (-5 : Int) < 300 ∧
      infoResult deviceFlash4096 0 0 = 0 ∧
      sizeofInfo ≤ (infoBytes deviceFlash4096 0 0).length ∧
      ¬ (300 : Int) > usableSize (infoBytes deviceFlash4096 0 0) ∧
      (reportPageSize (infoBytes deviceFlash4096 0 0) < 128 ∨
        ∃ k : Nat, reportPageSize (infoBytes deviceFlash4096 0 0) = 2 ^ k)) ∧
    ((alignMask (reportPageSize (infoBytes deviceFlash4096 0 0)) + 1) ∣
        alignedStart (reportPageSize (infoBytes deviceFlash4096 0 0)) (-5) ∧
      (alignMask (reportPageSize (infoBytes deviceFlash4096 0 0)) + 1) ∣
        alignedEnd (reportPageSize (infoBytes deviceFlash4096 0 0)) 300) ∧
    alignedStart (reportPageSize (infoBytes deviceFlash4096 0 0)) (-5) = -128 ∧
    alignedEnd (reportPageSize (infoBytes deviceFlash4096 0 0)) 300 = 384 :=
  ⟨⟨by decide, by decide, by decide, by decide, by decide, Or.inr ⟨7, by decide⟩⟩,
    (C4_aligned_range deviceFlash4096 false (fun _ => 0) (fun _ => 255) (-5) 300 0 0
      (by decide) (by decide) (by decide) (by decide) (by decide)).2.2.2.2
      (Or.inr ⟨7, by decide⟩),
    by decide, by decide⟩

theorem reportBytes_dataBlock (dataBuffer : Int → Int) (a : Int) :
    reportBytes (dataBlock dataBuffer a) sizeofBuffer = blockReport dataBuffer a := by
  have h132 : sizeofBuffer = 4 + 128 := rfl
  have h4 : List.range 4 = [0, 1, 2, 3] := by decide
  have hdiv : a / 256 / 256 = a / 65536 := by omega
  rw [reportBytes, h132, List.range_add, List.map_append, h4, blockReport, List.map_map]
  congr 1
  simp [dataBlock, setUsbInt, hdiv]

theorem blockReport_length (dataBuffer : Int → Int) (a : Int) :
    (blockReport dataBuffer a).length = sizeofBuffer := by
  simp [blockReport, sizeofBuffer]

theorem blockEvents_eq (dataBuffer : Int → Int) (s : Int) (n : Nat) :
    blockEvents dataBuffer s n =
      (List.range n).map
        (fun k : Nat => Event.setReport (blockReport dataBuffer (s + 128 * (k : Int)))) := by
  simp only [blockEvents, blockEvent, reportBytes_dataBlock]

theorem block_count (s e : Int) (m : Nat) (h2 : ∀ k : Nat, k < m → s + 128 * (k : Int) < e)
    (h4 : e ≤ s + 128 * (m : Int)) : ((e - s + 127) / 128).toNat = m := by
  rcases Nat.eq_zero_or_pos m with h | h
  · subst h
    simp only [Nat.cast_zero, mul_zero, add_zero] at h4
    omega
  · have := h2 (m - 1) (by omega)
    have hc : ((m - 1 : Nat) : Int) = (m : Int) - 1 := by omega
    rw [hc] at this
    omega

/-- C5: when the device opens, the range is non-empty, the geometry is read
and the capacity check passes, and every write succeeds, `uploadData` returns
0 and the data-block reports it sends are, in order, exactly one per address
`a = start, start + 128, ...` below `end`, that is `ceil((end - start) / 128)`
reports; each is 132 bytes long: report id 2, `a` as three little-endian
bytes, then `buffer[a .. a+127]`.  What follows them holds no data block. -/
theorem C5_data_block_sequence (dev : UsbDevice) (leave : Bool) (stack : Nat → Int)
    (dataBuffer : Int → Int) (rawStart rawEnd vid pid : Int)
    (hopen : openResult dev vid pid = 0) (hlt : rawStart < rawEnd)
    (hinfo : infoResult dev vid pid = 0)
    (hlen : sizeofInfo ≤ (infoBytes dev vid pid).length)
    (hcap : ¬ rawEnd > usableSize (infoBytes dev vid pid))
    (hall : ∀ tr b, dev.setReport tr b = 0) :
    (∃ tail, uploadData dev leave stack dataBuffer rawStart rawEnd vid pid =
      some (0, planTrace (reportPageSize (infoBytes dev vid pid)) rawStart rawEnd vid pid ++
        (List.range ((alignedEnd (reportPageSize (infoBytes dev vid pid)) rawEnd -
            alignedStart (reportPageSize (infoBytes dev vid pid)) rawStart + 127) / 128).toNat).map
          (fun k : Nat => Event.setReport (blockReport dataBuffer
            (alignedStart (reportPageSize (infoBytes dev vid pid)) rawStart + 128 * (k : Int))))
        ++ tail) ∧
      ∀ b, Event.setReport b ∈ tail → b.length = sizeofInfo) ∧
    (∀ k : Nat, k < ((alignedEnd (reportPageSize (infoBytes dev vid pid)) rawEnd -
          alignedStart (reportPageSize (infoBytes dev vid pid)) rawStart + 127) / 128).toNat →
      alignedStart (reportPageSize (infoBytes dev vid pid)) rawStart + 128 * (k : Int) <
        alignedEnd (reportPageSize (infoBytes dev vid pid)) rawEnd) ∧
    (∀ a : Int, blockReport dataBuffer a =
        [2, a % 256, a / 256 % 256, a / 65536 % 256] ++
          (List.range 128).map (fun i : Nat => dataBuffer (a + (i : Int))) ∧
      (blockReport dataBuffer a).length = 132) ∧
    (∀ (s e : Int) (buffer : Nat → Int) (tr : List Event), ∃ buffer2,
      uploadLoop dev dataBuffer (e - s).toNat s e buffer tr =
        some (0, buffer2, tr ++ (List.range ((e - s + 127) / 128).toNat).map
          (fun k : Nat => Event.setReport (blockReport dataBuffer (s + 128 * (k : Int)))))) := by
  have hloop : ∀ (s e : Int) (buffer : Nat → Int) (tr : List Event), ∃ buffer2,
      uploadLoop dev dataBuffer (e - s).toNat s e buffer tr =
        some (0, buffer2, tr ++ (List.range ((e - s + 127) / 128).toNat).map
          (fun k : Nat => Event.setReport (blockReport dataBuffer (s + 128 * (k : Int))))) := by
    intro s e buffer tr
    obtain ⟨⟨err, buffer2, tr2⟩, hr⟩ :=
      uploadLoop_returns dev dataBuffer _ s e buffer tr (le_refl _)
    obtain ⟨m, h1, h2, h3, h4⟩ := uploadLoop_spec dev dataBuffer _ _ _ _ _ _ _ _ hr
      (fun pre b _ _ _ => hall pre b)
    have herr : err = 0 := by
      by_contra hne
      obtain ⟨tr1, _, _, hb⟩ := h4 hne
      exact hne (by rw [← hb]; exact hall _ _)
    subst herr
    rw [block_count _ _ m h2 (h3 rfl).1, ← blockEvents_eq, ← h1]
    exact ⟨buffer2, hr⟩
  obtain ⟨err, m, tail, hrun, h2, h3, h4, h5⟩ :=
    uploadData_upload_trace dev leave stack dataBuffer _ _ _ _ hopen hlt hinfo hlen hcap
  have herr : err = 0 := by
    by_contra hne
    obtain ⟨_, tr, b, hb⟩ := h5 hne
    exact hne (by rw [← hb]; exact hall tr b)
  subst herr
  have h4 := h4 rfl
  rw [block_count _ _ m h2 h4]
  refine ⟨⟨tail, ?_, h3⟩, h2, fun a => ⟨rfl, blockReport_length dataBuffer a⟩, hloop⟩
  rw [hrun, blockEvents_eq]

/-- Witness of C5: page size 128, flash size 4096, raw range [0, 2) and a
device whose writes all succeed. -/
theorem C5_data_block_sequence_witness :
    (openResult deviceFlash4096 0 0 = 0 ∧ (0 : Int) < 2 ∧ infoResult deviceFlash4096 0 0 = 0 ∧
      sizeofInfo ≤ (infoBytes deviceFlash4096 0 0).length ∧
      ¬ (2 : Int) > usableSize (infoBytes deviceFlash4096 0 0) ∧
      ∀ tr b, deviceFlash4096.setReport tr b = 0) ∧
    ∀ k : Nat, k < ((alignedEnd (reportPageSize (infoBytes deviceFlash4096 0 0)) 2 -
          alignedStart (reportPageSize (infoBytes deviceFlash4096 0 0)) 0 + 127) / 128).toNat →
      alignedStart (reportPageSize (infoBytes deviceFlash4096 0 0)) 0 + 128 * (k : Int) <
        alignedEnd (reportPageSize (infoBytes deviceFlash4096 0 0)) 2 :=
  ⟨⟨by decide, by decide, by decide, by decide, by decide, fun _ _ => rfl⟩,
    (C5_data_block_sequence deviceFlash4096 true (fun _ => 0) (fun _ => 255) 0 2 0 0
      (by decide) (by decide) (by decide) (by decide) (by decide) (fun _ _ => rfl)).2.1⟩

theorem leaveAndClose_writes (leave : Bool) (buffer : Nat → Int) (tr : List Event)
    (b : List Int) (hb : Event.setReport b ∈ leaveAndClose leave buffer tr)
    (hlen : b.length = sizeofBuffer) : Event.setReport b ∈ tr := by
  cases leave with
  | false =>
    simp only [leaveAndClose, Bool.false_eq_true, if_false, List.mem_append, List.mem_cons,
      reduceCtorEq, List.mem_nil_iff, or_false] at hb
    exact hb
  | true =>
    simp only [leaveAndClose, if_true, List.mem_append, List.mem_cons, Event.setReport.injEq,
      reduceCtorEq, List.mem_nil_iff, or_false] at hb
    rcases hb with h | h
    · exact h
    · rw [h, reportBytes_length] at hlen
      exact absurd hlen (by decide)

/-- The arithmetic behind the reserved margin: a block that starts below the
aligned end lies inside the usable part when that part is a whole number of
alignment units. -/
theorem block_below_usable (k : Nat) (h7 : 7 ≤ k) (h15 : k ≤ 15) (x y u a : Int) (j : Nat)
    (hx : 0 ≤ x) (hy : y ≤ u) (hdiv : ((2 : Int) ^ k - 1 + 1) ∣ u)
    (ha : a = x - x % 2 ^ k + 128 * (j : Int))
    (hlt : a < y + (2 ^ k - 1) - (y + (2 ^ k - 1)) % 2 ^ k) :
    0 ≤ a ∧ a + 128 ≤ u := by
  obtain ⟨q, hq⟩ := hdiv
  interval_cases k <;> norm_num at hq ha hlt ⊢ <;> omega

theorem upload_block_bound (pageSize flash rawStart rawEnd : Int) (j : Nat)
    (hp0 : 0 ≤ pageSize) (hp1 : pageSize < 65536)
    (hpow : pageSize < 128 ∨ ∃ k : Nat, pageSize = 2 ^ k)
    (h0 : 0 ≤ rawStart) (hlt : rawStart < rawEnd)
    (hov : rawEnd + alignMask pageSize < 2147483648)
    (hle : rawEnd ≤ flash - 2048) (hdiv : (alignMask pageSize + 1) ∣ (flash - 2048))
    (hj : alignedStart pageSize rawStart + 128 * (j : Int) < alignedEnd pageSize rawEnd) :
    0 ≤ alignedStart pageSize rawStart + 128 * (j : Int) ∧
    alignedStart pageSize rawStart + 128 * (j : Int) + 128 ≤ flash - 2048 := by
  obtain ⟨k, hk7, hk15, hmask⟩ := alignMask_pow _ hp0 hp1 hpow
  have hpos : (0 : Int) < 2 ^ k := by positivity
  obtain ⟨hs, he⟩ := aligned_pow _ k hk15 hmask rawStart rawEnd h0
    (by rw [hmask] at hov; omega) (by omega) hov
  rw [hs, he] at hj
  rw [hmask] at hdiv
  rw [hs]
  exact block_below_usable k hk7 hk15 rawStart rawEnd _ _ j h0 hle hdiv rfl hj

/-- C6 fails as stated: with page size 128 and flash size 2148 the raw range
[0, 100) passes the capacity check (100 <= 2148 - 2048) and one data block is
sent to address 0, whose end 128 lies above 2148 - 2048 = 100. -/
theorem C6_margin_counterexample :
    uploadData deviceFlash2148 false (fun _ => 0) (fun _ => 255) 0 100 0 0 =
      some (0, infoTrace 0 0 ++ [Event.printUploading 128 0,
        Event.setReport (blockReport (fun _ => 255) 0), Event.closeDevice]) ∧
    reportFlashSize (infoBytes deviceFlash2148 0 0) = 2148 ∧
    ¬ ((0 : Int) + 128 ≤ 2148 - 2048) := by
  refine ⟨by decide, by decide, by decide⟩

/-- C6, amended: in every run of `uploadData` with `0 <= rawStart`, a reported
page size that is below 128 or a power of two, no overflow in `rawEnd + mask`
and a usable size `flashSize - 2048` that is a multiple of `mask + 1`, every
data-block report sent is the report of an address `a` with `0 <= a` and
`a + 128 <= flashSize - 2048`. -/
theorem C6_reserved_margin (dev : UsbDevice) (leave : Bool) (stack : Nat → Int)
    (dataBuffer : Int → Int) (rawStart rawEnd vid pid : Int) (h0 : 0 ≤ rawStart)
    (hov : rawEnd + alignMask (reportPageSize (infoBytes dev vid pid)) < 2147483648)
    (hpow : reportPageSize (infoBytes dev vid pid) < 128 ∨
      ∃ k : Nat, reportPageSize (infoBytes dev vid pid) = 2 ^ k)
    (hdiv : (alignMask (reportPageSize (infoBytes dev vid pid)) + 1) ∣
      (reportFlashSize (infoBytes dev vid pid) - 2048))
    (err : Int) (tr : List Event)
    (hrun : uploadData dev leave stack dataBuffer rawStart rawEnd vid pid = some (err, tr))
    (b : List Int) (hb : Event.setReport b ∈ tr) (hlen : b.length = sizeofBuffer) :
    ∃ a : Int, b = blockReport dataBuffer a ∧ 0 ≤ a ∧
      a + 128 ≤ reportFlashSize (infoBytes dev vid pid) - 2048 := by
  have hno : ∀ tr2 : List Event, tr = tr2 → Event.setReport b ∉ tr2 → False :=
    fun tr2 h1 h2 => h2 (h1 ▸ hb)
  by_cases hopen : openResult dev vid pid = 0
  · by_cases hlt : rawStart < rawEnd
    · by_cases hinfo : infoResult dev vid pid = 0
      · by_cases hl : sizeofInfo ≤ (infoBytes dev vid pid).length
        · by_cases hcap : rawEnd > usableSize (infoBytes dev vid pid)
          · rw [uploadData_capacity dev leave stack dataBuffer _ _ _ _ hopen hlt hinfo hl hcap]
              at hrun
            simp only [Option.some.injEq, Prod.mk.injEq] at hrun
            exact (hno _ hrun.2.symm (by simp [infoTrace, openTrace])).elim
          · obtain ⟨err2, m, tail, hrun2, h2, h3, _, _⟩ :=
              uploadData_upload_trace dev leave stack dataBuffer _ _ _ _ hopen hlt hinfo hl hcap
            rw [hrun2] at hrun
            simp only [Option.some.injEq, Prod.mk.injEq] at hrun
            rw [← hrun.2] at hb
            rcases List.mem_append.mp hb with hb1 | hb1
            · rcases List.mem_append.mp hb1 with hb2 | hb2
              · exact absurd hb2 (planTrace_no_write _ _ _ _ _ _)
              · obtain ⟨j, hj, hev⟩ := blockEvent_mem hb2
                simp only [blockEvent, Event.setReport.injEq, reportBytes_dataBlock] at hev
                have hr := reportPageSize_range (infoBytes dev vid pid)
                have hle := le_of_not_gt_usableSize _ rawEnd (lt_of_le_of_lt h0 hlt) hcap
                obtain ⟨ha0, ha1⟩ := upload_block_bound _ _ rawStart rawEnd j hr.1 hr.2 hpow h0
                  hlt hov hle hdiv (h2 j hj)
                exact ⟨_, hev, ha0, ha1⟩
            · have := h3 b hb1
              rw [hlen] at this
              exact absurd this (by decide)
        · rw [uploadData_short dev leave stack dataBuffer _ _ _ _ hopen hlt hinfo
            (Nat.lt_of_not_le hl)] at hrun
          simp only [Option.some.injEq, Prod.mk.injEq] at hrun
          exact (hno _ hrun.2.symm (by simp [infoTrace, openTrace])).elim
      · rw [uploadData_info_fail dev leave stack dataBuffer _ _ _ _ hopen hlt hinfo] at hrun
        simp only [Option.some.injEq, Prod.mk.injEq] at hrun
        exact (hno _ hrun.2.symm (by simp [infoTrace, openTrace])).elim
    · rw [uploadData_empty dev leave stack dataBuffer _ _ _ _ hopen hlt] at hrun
      simp only [Option.some.injEq, Prod.mk.injEq] at hrun
      rw [← hrun.2] at hb
      have := leaveAndClose_writes leave stack _ b hb hlen
      simp [openTrace] at this
  · rw [uploadData_open_fail dev leave stack dataBuffer _ _ _ _ hopen] at hrun
    simp only [Option.some.injEq, Prod.mk.injEq] at hrun
    exact (hno _ hrun.2.symm (by simp [openTrace])).elim

/-- Witness of C6: page size 128, flash size 4096 and the raw range [0, 100);
the one block sent ends at 128, below 4096 - 2048. -/
theorem C6_reserved_margin_witness :
    ((0 : Int) ≤ 0 ∧
      100 + alignMask (reportPageSize (infoBytes deviceFlash4096 0 0)) < 2147483648 ∧
      (reportPageSize (infoBytes deviceFlash4096 0 0) < 128 ∨
        ∃ k : Nat, reportPageSize (infoBytes deviceFlash4096 0 0) = 2 ^ k) ∧
      (alignMask (reportPageSize (infoBytes deviceFlash4096 0 0)) + 1) ∣
        (reportFlashSize (infoBytes deviceFlash4096 0 0) - 2048) ∧
      uploadData deviceFlash4096 false (fun _ => 0) (fun _ => 255) 0 100 0 0 =
        some (0, infoTrace 0 0 ++ [Event.printUploading 128 0,
          Event.setReport (blockReport (fun _ => 255) 0), Event.closeDevice]) ∧
      Event.setReport (blockReport (fun _ => 255) 0) ∈
        infoTrace 0 0 ++ [Event.printUploading 128 0,
          Event.setReport (blockReport (fun _ => 255) 0), Event.closeDevice] ∧
      (blockReport (fun _ => 255) 0).length = sizeofBuffer) ∧
    ∃ a : Int, blockReport (fun _ => 255) 0 = blockReport (fun _ => 255) a ∧ 0 ≤ a ∧
      a + 128 ≤ reportFlashSize (infoBytes deviceFlash4096 0 0) - 2048 :=
  ⟨⟨by decide, by decide, Or.inr ⟨7, by decide⟩, by decide, by decide,
      List.mem_append_right _ (List.mem_cons_of_mem _ (List.mem_cons_self _ _)),
      blockReport_length _ _⟩,
    C6_reserved_margin deviceFlash4096 false (fun _ => 0) (fun _ => 255) 0 100 0 0
      (by decide) (by decide) (Or.inr ⟨7, by decide⟩) (by decide) 0
      (infoTrace 0 0 ++ [Event.printUploading 128 0,
        Event.setReport (blockReport (fun _ => 255) 0), Event.closeDevice])
      (by decide) (blockReport (fun _ => 255) 0)
      (List.mem_append_right _ (List.mem_cons_of_mem _ (List.mem_cons_self _ _)))
      (blockReport_length _ _)⟩

theorem dataWritesOk_infoTrace (dev : UsbDevice) (vid pid : Int) :
    DataWritesOk dev (infoTrace vid pid) := by
  have h0 : DataWritesOk dev (openTrace vid pid) := by
    have := dataWritesOk_snoc (e := Event.openDevice (usbIds vid pid).1 (usbIds vid pid).2)
      (dataWritesOk_nil dev) (by intro b hb; simp at hb)
    simpa [openTrace] using this
  exact dataWritesOk_snoc h0 (by intro b hb; simp at hb)

theorem dataWritesOk_close {dev : UsbDevice} {tr : List Event} (h : DataWritesOk dev tr) :
    DataWritesOk dev (tr ++ [Event.closeDevice]) :=
  dataWritesOk_snoc h (by intro b hb; simp at hb)

theorem dataWritesOk_leaveAndClose {dev : UsbDevice} {tr : List Event} (leave : Bool)
    (buffer : Nat → Int) (h : DataWritesOk dev tr) :
    DataWritesOk dev (leaveAndClose leave buffer tr) := by
  cases leave with
  | false =>
    simp only [leaveAndClose, Bool.false_eq_true, if_false]
    exact dataWritesOk_close h
  | true =>
    have h1 : DataWritesOk dev (tr ++
        [Event.setReport (reportBytes (fun i => if i = 0 then 1 else buffer i) sizeofInfo)]) := by
      apply dataWritesOk_snoc h
      intro b hb hlen
      simp only [Event.setReport.injEq] at hb
      rw [← hb, reportBytes_length] at hlen
      exact absurd hlen (by decide)
    have h2 := dataWritesOk_close h1
    simpa [leaveAndClose] using h2

/-- After a failed data-block write nothing but the close follows. -/
theorem failed_write_last {dev : UsbDevice} {tr1 pre post : List Event} {e : Event}
    {b : List Int} (hok : DataWritesOk dev tr1) (hlen : b.length = sizeofBuffer)
    (hfail : dev.setReport pre b ≠ 0)
    (hdec : tr1 ++ [e] ++ [Event.closeDevice] = pre ++ Event.setReport b :: post) :
    post = [Event.closeDevice] := by
  rcases snoc_eq_append_cons hdec with ⟨_, _, hx⟩ | ⟨post2, hpost, htr⟩
  · simp at hx
  · rcases snoc_eq_append_cons htr with ⟨hp2, _, _⟩ | ⟨post3, _, htr1⟩
    · rw [hpost, hp2]
      rfl
    · exact absurd (hok pre b post3 htr1 hlen) hfail

/-- C7: in every run of `uploadData` on a device that opens, each fatal
condition ends the run with a non-zero status and no feature-report write
after it.  A failed geometry read, a geometry response shorter than 7 bytes
and a failed capacity check each return non-zero with the trace open, read,
close: no data block and no mode-switch report, whatever `leaveBootLoader` is.
A data-block write that fails is the last write: the status is non-zero and
only the close follows it. -/
theorem C7_fatal_aborts (dev : UsbDevice) (leave : Bool) (stack : Nat → Int)
    (dataBuffer : Int → Int) (rawStart rawEnd vid pid : Int)
    (hopen : openResult dev vid pid = 0) :
    ∃ err tr, uploadData dev leave stack dataBuffer rawStart rawEnd vid pid = some (err, tr) ∧
      (rawStart < rawEnd → infoResult dev vid pid ≠ 0 →
        err ≠ 0 ∧ tr = infoTrace vid pid ++ [Event.closeDevice]) ∧
      (rawStart < rawEnd → infoResult dev vid pid = 0 →
        (infoBytes dev vid pid).length < sizeofInfo →
        err ≠ 0 ∧ tr = infoTrace vid pid ++ [Event.closeDevice]) ∧
      (rawStart < rawEnd → infoResult dev vid pid = 0 →
        sizeofInfo ≤ (infoBytes dev vid pid).length →
        rawEnd > usableSize (infoBytes dev vid pid) →
        err ≠ 0 ∧ tr = infoTrace vid pid ++ [Event.closeDevice]) ∧
      (∀ pre b post, tr = pre ++ Event.setReport b :: post → b.length = sizeofBuffer →
        dev.setReport pre b ≠ 0 → err ≠ 0 ∧ post = [Event.closeDevice]) := by
  have hclean : ∀ (err : Int) (tr : List Event), DataWritesOk dev tr →
      ∀ pre b post, tr = pre ++ Event.setReport b :: post → b.length = sizeofBuffer →
        dev.setReport pre b ≠ 0 → err ≠ 0 ∧ post = [Event.closeDevice] :=
    fun _ _ hok pre b post hdec hlen hfail => absurd (hok pre b post hdec hlen) hfail
  by_cases hlt : rawStart < rawEnd
  · by_cases hinfo : infoResult dev vid pid = 0
    · by_cases hl : sizeofInfo ≤ (infoBytes dev vid pid).length
      · by_cases hcap : rawEnd > usableSize (infoBytes dev vid pid)
        · refine ⟨-1, _, uploadData_capacity dev leave stack dataBuffer _ _ _ _ hopen hlt hinfo
            hl hcap, fun _ h => absurd hinfo h, fun _ _ h => absurd hl (Nat.not_le.mpr h),
            fun _ _ _ _ => ⟨by decide, rfl⟩,
            hclean _ _ (dataWritesOk_close (dataWritesOk_infoTrace dev vid pid))⟩
        · obtain ⟨⟨err, buffer, tr2⟩, hr⟩ := uploadLoop_returns dev dataBuffer _
            (alignedStart (reportPageSize (infoBytes dev vid pid)) rawStart)
            (alignedEnd (reportPageSize (infoBytes dev vid pid)) rawEnd)
            (infoBuffer dev stack vid pid)
            (planTrace (reportPageSize (infoBytes dev vid pid)) rawStart rawEnd vid pid)
            (le_refl _)
          obtain ⟨m, _, _, h3, h4⟩ := uploadLoop_spec dev dataBuffer _ _ _ _ _ _ _ _ hr
            (dataWritesOk_planTrace dev _ _ _ _ _)
          have hrun := uploadData_upload dev leave stack dataBuffer _ _ _ _ hopen hlt hinfo hl
            hcap
          rw [hr, finishUpload] at hrun
          by_cases herr : err = 0
          · rw [if_neg (not_not.mpr herr)] at hrun
            exact ⟨0, _, hrun, fun _ h => absurd hinfo h,
              fun _ _ h => absurd hl (Nat.not_le.mpr h), fun _ _ _ h => absurd h hcap,
              hclean _ _ (dataWritesOk_leaveAndClose leave buffer (h3 herr).2)⟩
          · rw [if_pos herr] at hrun
            obtain ⟨tr1, h5, h6, _⟩ := h4 herr
            refine ⟨err, _, hrun, fun _ h => absurd hinfo h,
              fun _ _ h => absurd hl (Nat.not_le.mpr h), fun _ _ _ h => absurd h hcap, ?_⟩
            intro pre b post hdec hlen hfail
            rw [h5] at hdec
            exact ⟨herr, failed_write_last h6 hlen hfail hdec⟩
      · refine ⟨-1, _, uploadData_short dev leave stack dataBuffer _ _ _ _ hopen hlt hinfo
          (Nat.lt_of_not_le hl), fun _ h => absurd hinfo h, fun _ _ _ => ⟨by decide, rfl⟩,
          fun _ _ h => absurd h hl,
          hclean _ _ (dataWritesOk_close (dataWritesOk_infoTrace dev vid pid))⟩
    · refine ⟨_, _, uploadData_info_fail dev leave stack dataBuffer _ _ _ _ hopen hlt hinfo,
        fun _ _ => ⟨hinfo, rfl⟩, fun _ h => absurd h hinfo, fun _ h => absurd h hinfo,
        hclean _ _ (dataWritesOk_close (dataWritesOk_infoTrace dev vid pid))⟩
  · have hopenok : DataWritesOk dev (openTrace vid pid) := by
      have := dataWritesOk_snoc (e := Event.openDevice (usbIds vid pid).1 (usbIds vid pid).2)
        (dataWritesOk_nil dev) (by intro b hb; simp at hb)
      simpa [openTrace] using this
    exact ⟨0, _, uploadData_empty dev leave stack dataBuffer _ _ _ _ hopen hlt,
      fun h => absurd h hlt, fun h => absurd h hlt, fun h => absurd h hlt,
      hclean _ _ (dataWritesOk_leaveAndClose leave stack hopenok)⟩

/-- Witness of C7: a device whose writes fail with 5, asked to leave the boot
loader after the upload of [0, 2): the run returns 5 and the trace ends with
the failed block and the close. -/
theorem C7_fatal_aborts_witness :
    openResult deviceWriteFails 0 0 = 0 ∧
    (∃ err tr, uploadData deviceWriteFails true (fun _ => 0) (fun _ => 255) 0 2 0 0 =
        some (err, tr) ∧
      ((0 : Int) < 2 → infoResult deviceWriteFails 0 0 ≠ 0 →
        err ≠ 0 ∧ tr = infoTrace 0 0 ++ [Event.closeDevice]) ∧
      ((0 : Int) < 2 → infoResult deviceWriteFails 0 0 = 0 →
        (infoBytes deviceWriteFails 0 0).length < sizeofInfo →
        err ≠ 0 ∧ tr = infoTrace 0 0 ++ [Event.closeDevice]) ∧
      ((0 : Int) < 2 → infoResult deviceWriteFails 0 0 = 0 →
        sizeofInfo ≤ (infoBytes deviceWriteFails 0 0).length →
        (2 : Int) > usableSize (infoBytes deviceWriteFails 0 0) →
        err ≠ 0 ∧ tr = infoTrace 0 0 ++ [Event.closeDevice]) ∧
      (∀ pre b post, tr = pre ++ Event.setReport b :: post → b.length = sizeofBuffer →
        deviceWriteFails.setReport pre b ≠ 0 → err ≠ 0 ∧ post = [Event.closeDevice])) ∧
    uploadData deviceWriteFails true (fun _ => 0) (fun _ => 255) 0 2 0 0 =
      some (5, infoTrace 0 0 ++ [Event.printUploading 128 0,
        Event.setReport (blockReport (fun _ => 255) 0), Event.closeDevice]) :=
  ⟨by decide,
    C7_fatal_aborts deviceWriteFails true (fun _ => 0) (fun _ => 255) 0 2 0 0 (by decide),
    by decide⟩

/-! ## `getUsbInt` after `setUsbInt` -/

theorem getUsbInt_one (buffer : Nat → Int) : getUsbInt buffer 1 = buffer 0 % 256 := by
  have h0 := Int.emod_nonneg (buffer 0) (show (256 : Int) ≠ 0 by decide)
  have h0lt := Int.emod_lt_of_pos (buffer 0) (show (0 : Int) < 256 by decide)
  have hdef : getUsbInt buffer 1 = bitOr 0 (shiftLeft (bitAnd (buffer 0) 0xff) 0) := rfl
  rw [hdef, bitAnd_byte]
  rw [bitOr_shiftLeft 0 _ 0 (by simp) (by omega) (by norm_num) h0 h0lt,
    wrapInt32_of_range (by omega) (by omega)]
  norm_num

theorem getUsbInt_three (buffer : Nat → Int) :
    getUsbInt buffer 3 =
      buffer 0 % 256 + 256 * (buffer 1 % 256) + 65536 * (buffer 2 % 256) := by
  have h0 := Int.emod_nonneg (buffer 0) (show (256 : Int) ≠ 0 by decide)
  have h0lt := Int.emod_lt_of_pos (buffer 0) (show (0 : Int) < 256 by decide)
  have h1 := Int.emod_nonneg (buffer 1) (show (256 : Int) ≠ 0 by decide)
  have h1lt := Int.emod_lt_of_pos (buffer 1) (show (0 : Int) < 256 by decide)
  have h2 := Int.emod_nonneg (buffer 2) (show (256 : Int) ≠ 0 by decide)
  have h2lt := Int.emod_lt_of_pos (buffer 2) (show (0 : Int) < 256 by decide)
  have hdef : getUsbInt buffer 3 =
      bitOr (bitOr (bitOr 0 (shiftLeft (bitAnd (buffer 0) 0xff) 0))
        (shiftLeft (bitAnd (buffer 1) 0xff) 8)) (shiftLeft (bitAnd (buffer 2) 0xff) 16) := rfl
  rw [hdef, bitAnd_byte, bitAnd_byte, bitAnd_byte]
  rw [bitOr_shiftLeft 0 _ 0 (by simp) (by omega) (by norm_num) h0 h0lt,
    wrapInt32_of_range (by omega) (by omega)]
  rw [bitOr_shiftLeft _ _ 8 (by simp) (by omega) (by norm_num; omega) h1 h1lt,
    wrapInt32_of_range (by omega) (by omega)]
  rw [bitOr_shiftLeft _ _ 16 (by simp) (by omega) (by norm_num; omega) h2 h2lt,
    wrapInt32_of_range (by omega) (by omega)]
  norm_num
  ring

theorem signedChar_emod (b : Int) : signedChar b % 256 = b % 256 := by
  unfold signedChar
  split <;> omega

theorem storedBytes_values (v : Int) :
    storedBytes v 3 0 = v % 256 ∧ storedBytes v 3 1 = v / 256 % 256 ∧
    storedBytes v 3 2 = v / 256 / 256 % 256 ∧
    storedBytes v 2 0 = v % 256 ∧ storedBytes v 2 1 = v / 256 % 256 ∧
    storedBytes v 1 0 = v % 256 := by
  simp [storedBytes, setUsbInt]

theorem getUsbInt_storedBytes (v : Int) :
    getUsbInt (storedBytes v 1) 1 = v % 256 ∧
    getUsbInt (storedBytes v 2) 2 = v % 65536 ∧
    getUsbInt (storedBytes v 3) 3 = v % 16777216 := by
  obtain ⟨h30, h31, h32, h20, h21, h10⟩ := storedBytes_values v
  refine ⟨?_, ?_, ?_⟩
  · rw [getUsbInt_one, h10]; omega
  · rw [getUsbInt_two, h20, h21]; omega
  · rw [getUsbInt_three, h30, h31, h32]; omega

theorem getUsbInt_signed_storedBytes (v : Int) :
    getUsbInt (fun i => signedChar (storedBytes v 1 i)) 1 = v % 256 ∧
    getUsbInt (fun i => signedChar (storedBytes v 2 i)) 2 = v % 65536 ∧
    getUsbInt (fun i => signedChar (storedBytes v 3 i)) 3 = v % 16777216 := by
  obtain ⟨h30, h31, h32, h20, h21, h10⟩ := storedBytes_values v
  refine ⟨?_, ?_, ?_⟩
  · rw [getUsbInt_one, signedChar_emod, h10]; omega
  · rw [getUsbInt_two, signedChar_emod, signedChar_emod, h20, h21]; omega
  · rw [getUsbInt_three, signedChar_emod, signedChar_emod, signedChar_emod, h30, h31, h32]
    omega

/-- C20: for `n` in 1, 2, 3 and every integer `v`, `getUsbInt` applied to the
`n` bytes written by `setUsbInt(v, n)` returns `v mod 2^(8n)`, whether the
bytes are held as unsigned or as signed chars; so every block address
`0 <= a < 2^24` survives the 3-byte encoding; and `getUsbInt` of any bytes
`b0 .. b(n-1)` is the sum of `(bi mod 256) * 256^i`, whatever their sign. -/
theorem C20_usb_int_roundtrip (v : Int) (buffer : Nat → Int) :
    (getUsbInt (storedBytes v 1) 1 = v % 2 ^ 8 ∧
      getUsbInt (storedBytes v 2) 2 = v % 2 ^ 16 ∧
      getUsbInt (storedBytes v 3) 3 = v % 2 ^ 24) ∧
    (getUsbInt (fun i => signedChar (storedBytes v 1 i)) 1 = v % 2 ^ 8 ∧
      getUsbInt (fun i => signedChar (storedBytes v 2 i)) 2 = v % 2 ^ 16 ∧
      getUsbInt (fun i => signedChar (storedBytes v 3 i)) 3 = v % 2 ^ 24) ∧
    (0 ≤ v → v < 2 ^ 24 → getUsbInt (storedBytes v 3) 3 = v) ∧
    (getUsbInt buffer 1 = buffer 0 % 256 ∧
      getUsbInt buffer 2 = buffer 0 % 256 + buffer 1 % 256 * 256 ∧
      getUsbInt buffer 3 = buffer 0 % 256 + buffer 1 % 256 * 256 + buffer 2 % 256 * 256 ^ 2) := by
  obtain ⟨e1, e2, e3⟩ := getUsbInt_storedBytes v
  obtain ⟨s1, s2, s3⟩ := getUsbInt_signed_storedBytes v
  have p8 : (2 : Int) ^ 8 = 256 := by norm_num
  have p16 : (2 : Int) ^ 16 = 65536 := by norm_num
  have p24 : (2 : Int) ^ 24 = 16777216 := by norm_num
  rw [p8, p16, p24]
  refine ⟨⟨e1, e2, e3⟩, ⟨s1, s2, s3⟩, ?_, getUsbInt_one buffer, ?_, ?_⟩
  · intro h0 h1
    rw [e3]
    exact Int.emod_eq_of_lt h0 h1
  · rw [getUsbInt_two]; ring
  · rw [getUsbInt_three]; ring

/-- Witness of C20: the block address 0x123456 survives the three-byte
encoding, and -1 is read back as `2 ^ 24 - 1`. -/
theorem C20_usb_int_roundtrip_witness :
    ((0 : Int) ≤ 0x123456 ∧ (0x123456 : Int) < 2 ^ 24) ∧
    getUsbInt (storedBytes 0x123456 3) 3 = 0x123456 ∧
    getUsbInt (storedBytes (-1) 3) 3 = -1 % 2 ^ 24 :=
  ⟨⟨by decide, by decide⟩,
    (C20_usb_int_roundtrip 0x123456 (fun _ => 0)).2.2.1 (by decide) (by decide),
    (C20_usb_int_roundtrip (-1) (fun _ => 0)).1.2.2⟩

/-! ## Alignment with an arbitrary mask -/

/-- Clearing the bits of a non-negative mask lowers a non-negative `int` by at
most the mask. -/
theorem bitAnd_bitNot_bounds (x m : Int) (hx0 : 0 ≤ x) (hx1 : x < 2147483648)
    (hm0 : 0 ≤ m) (hm1 : m < 2147483648) :
    bitAnd x (bitNot m) ≤ x ∧ x - m ≤ bitAnd x (bitNot m) := by
  have hsum := and_add_and_compl 32 x.toNat m.toNat (by omega) (by omega)
  have hle : x.toNat &&& m.toNat ≤ m.toNat := Nat.and_le_right
  have hxu : toU32 x = x.toNat := toU32_of_nonneg hx0 (by omega)
  have hnot : toU32 (bitNot m) = 2 ^ 32 - 1 - m.toNat := by
    unfold bitNot
    rw [toU32_wrapInt32]
    unfold toU32
    omega
  unfold bitAnd
  rw [hxu, hnot]
  generalize x.toNat &&& (2 ^ 32 - 1 - m.toNat) = c at hsum ⊢
  generalize x.toNat &&& m.toNat = a at hsum hle
  rw [wrapInt32_of_range (by omega) (by omega)]
  omega

theorem alignMask_ge (pageSize : Int) : 127 ≤ alignMask pageSize := by
  unfold alignMask
  split <;> omega

/-- The aligned range covers the raw range, whatever the page size, and its end
is at most `mask` above the raw end. -/
theorem aligned_cover (pageSize x y : Int) (hx : 0 ≤ x) (hxy : x ≤ y)
    (hov : y + alignMask pageSize < 2147483648) :
    alignedStart pageSize x ≤ x ∧ y ≤ alignedEnd pageSize y ∧
    alignedEnd pageSize y ≤ y + alignMask pageSize := by
  have hm := alignMask_ge pageSize
  have h1 := bitAnd_bitNot_bounds x (alignMask pageSize) hx (by omega) (by omega) (by omega)
  have h2 := bitAnd_bitNot_bounds (y + alignMask pageSize) (alignMask pageSize) (by omega) hov
    (by omega) (by omega)
  unfold alignedStart alignedEnd
  exact ⟨h1.1, by omega, h2.1⟩

/-- Rounding down with `& ~mask`, `mask + 1 = 2 ^ k`, for any 32-bit `int`. -/
theorem bitAnd_bitNot_pow_int (x : Int) (k : Nat) (hk : k ≤ 16) (h0 : -2147483648 ≤ x)
    (h1 : x < 2147483648) : bitAnd x (bitNot (2 ^ k - 1)) = x - x % 2 ^ k := by
  have hn : toU32 x < 2 ^ 32 := by unfold toU32; omega
  have hand := and_high_mask (toU32 x) k (by omega) hn
  have hnot : toU32 (bitNot (2 ^ k - 1)) = 2 ^ 32 - 2 ^ k := by
    unfold bitNot
    rw [toU32_wrapInt32]
    unfold toU32
    interval_cases k <;> norm_num <;> rfl
  unfold bitAnd
  rw [hnot, hand]
  unfold wrapInt32 toU32
  interval_cases k <;> norm_num <;> split <;> omega

/-! ## The claims about the aligned range -/

theorem usableSize_le (resp : List Int) :
    usableSize resp ≤ reportFlashSize resp - 2048 ∧ usableSize resp < 2147483648 := by
  have hr := reportFlashSize_range resp
  unfold usableSize wrapInt32
  split <;> split <;> omega

theorem alignMask_range (pageSize : Int) (hp1 : pageSize < 65536) :
    127 ≤ alignMask pageSize ∧ alignMask pageSize < 65535 := by
  unfold alignMask
  split <;> omega

/-- Rounding up to a multiple of `2 ^ k` stays at or below `flash` for every
end at or below `flash - 2048` when it does so for `flash - 2048` itself. -/
theorem roundup_le (k : Nat) (h7 : 7 ≤ k) (h15 : k ≤ 15) (y flash : Int)
    (hy : y ≤ flash - 2048) (hF : (2048 - flash) % 2 ^ k ≤ 2048) :
    y + (2 ^ k - 1) - (y + (2 ^ k - 1)) % 2 ^ k ≤ flash := by
  interval_cases k <;> norm_num at hF ⊢ <;> omega

/-- The rounded end is at most the flash size when the rounding adds no more
than the 2048 bytes the capacity check leaves. -/
theorem aligned_end_le_flash (pageSize flash y : Int) (hp0 : 0 ≤ pageSize)
    (hp1 : pageSize < 65536) (hy0 : -2147483648 ≤ y) (hy1 : y < 2147483648)
    (hF0 : 0 ≤ flash) (hle : y ≤ flash - 2048)
    (hgeo : alignMask pageSize ≤ 2048 ∨ y + alignMask pageSize ≤ flash ∨
      ((∃ k : Nat, pageSize = 2 ^ k) ∧ (2048 - flash) % pageSize ≤ 2048)) :
    alignedEnd pageSize y ≤ flash := by
  have hm := alignMask_range pageSize hp1
  by_cases hov : y + alignMask pageSize < 2147483648
  · have hb := (bitAnd_bitNot_int_bounds (y + alignMask pageSize) (alignMask pageSize)
      (by omega) hov (by omega) (by omega)).1
    rcases hgeo with h | h | ⟨hk, hF⟩
    · unfold alignedEnd
      omega
    · unfold alignedEnd
      omega
    · by_cases hs : pageSize < 128
      · have h127 : alignMask pageSize = 127 := by rw [alignMask, if_pos hs]
        unfold alignedEnd
        omega
      · obtain ⟨k, h7, h15, hmask⟩ := alignMask_pow pageSize hp0 hp1 (Or.inr hk)
        have hP : pageSize = 2 ^ k := by
          rw [alignMask, if_neg hs] at hmask
          omega
        rw [hP] at hF
        unfold alignedEnd
        rw [hmask] at hov ⊢
        rw [bitAnd_bitNot_pow_int _ k (by omega) (by
          have : (0 : Int) < 2 ^ k := by positivity
          omega) hov]
        exact roundup_le k h7 h15 y flash hle hF
  · have hneg := bitAnd_bitNot_neg (y + alignMask pageSize) (alignMask pageSize)
      (by omega) (by omega) (by omega) (by omega)
    unfold alignedEnd
    omega

/-- For a power-of-two page size above 2049 the condition on the flash size
is needed: without it the end for the largest raw end that passes the capacity
check lies above the flash size. -/
theorem aligned_end_gt_flash (k : Nat) (h12 : 12 ≤ k) (h15 : k ≤ 15) (flash : Int)
    (hF0 : 2048 ≤ flash) (hF1 : flash - 2048 + (2 ^ k - 1) < 2147483648)
    (hF : ¬ (2048 - flash) % 2 ^ k ≤ 2048) :
    flash < alignedEnd (2 ^ k) (flash - 2048) := by
  have hmask : alignMask (2 ^ k) = 2 ^ k - 1 := by
    have : (128 : Int) ≤ 2 ^ k := by
      have : (2 : Int) ^ 7 ≤ 2 ^ k := pow_le_pow_right₀ (by norm_num) (by omega)
      norm_num at this
      exact this
    rw [alignMask, if_neg (by omega)]
  have hpos : (0 : Int) < 2 ^ k := by positivity
  unfold alignedEnd
  rw [hmask, bitAnd_bitNot_pow_int _ k (by omega) (by omega) hF1]
  revert hF hF1
  interval_cases k <;> norm_num <;> omega

/-- C11 fails as stated: with the reported page size 4096 and flash size 2049
the raw range [0, 1) passes the capacity check (1 <= 2049 - 2048) and the
range `uploadData` prints and transfers is [0, 4096), whose end lies above the
flash size. -/
theorem C11_end_above_flash_counterexample :
    (∃ err rest, uploadData devicePage4096 false (fun _ => 0) (fun _ => 255) 0 1 0 0 =
      some (err, infoTrace 0 0 ++ Event.printUploading (4096 - 0) 0 :: rest)) ∧
    reportPageSize (infoBytes devicePage4096 0 0) = 4096 ∧
    reportFlashSize (infoBytes devicePage4096 0 0) = 2049 ∧
    ¬ ((1 : Int) > usableSize (infoBytes devicePage4096 0 0)) ∧
    alignedStart 4096 0 = 0 ∧ alignedEnd 4096 1 = 4096 ∧ ¬ ((4096 : Int) ≤ 2049) := by
  have h := uploadData_prints devicePage4096 false (fun _ => 0) (fun _ => 255) 0 1 0 0
    (by decide) (by decide) (by decide) (by decide) (by decide)
  have hp : reportPageSize (infoBytes devicePage4096 0 0) = 4096 := by decide
  have hs : alignedStart 4096 0 = 0 := by decide
  have he : alignedEnd 4096 1 = 4096 := by decide
  rw [hp, hs, he] at h
  exact ⟨h, hp, by decide, by decide, hs, he, by decide⟩

/-- C11, amended: for every raw range (`rawEnd` being an `int`) that passes
the capacity check and every reported geometry, the aligned end is at most the
reported flash size when the mask is at most 2048 (page size at most 2049), or
`rawEnd + mask <= flashSize`, or the page size is a power of two and the
distance from `flashSize - 2048` up to the next multiple of the page size is
at most 2048, as for every power of two that divides the flash size; for
`rawStart < rawEnd` this is the end of the range `uploadData` prints and
transfers. -/
theorem C11_aligned_end_le_flash (dev : UsbDevice) (leave : Bool) (stack : Nat → Int)
    (dataBuffer : Int → Int) (rawStart rawEnd vid pid : Int)
    (hint : -2147483648 ≤ rawEnd)
    (hcap : ¬ rawEnd > usableSize (infoBytes dev vid pid))
    (hgeo : alignMask (reportPageSize (infoBytes dev vid pid)) ≤ 2048 ∨
      rawEnd + alignMask (reportPageSize (infoBytes dev vid pid)) ≤
        reportFlashSize (infoBytes dev vid pid) ∨
      ((∃ k : Nat, reportPageSize (infoBytes dev vid pid) = 2 ^ k) ∧
        (2048 - reportFlashSize (infoBytes dev vid pid)) %
          reportPageSize (infoBytes dev vid pid) ≤ 2048)) :
    alignedEnd (reportPageSize (infoBytes dev vid pid)) rawEnd ≤
      reportFlashSize (infoBytes dev vid pid) ∧
    (openResult dev vid pid = 0 → rawStart < rawEnd → infoResult dev vid pid = 0 →
      sizeofInfo ≤ (infoBytes dev vid pid).length →
      ∃ err rest, uploadData dev leave stack dataBuffer rawStart rawEnd vid pid =
        some (err, infoTrace vid pid ++
          Event.printUploading
            (alignedEnd (reportPageSize (infoBytes dev vid pid)) rawEnd -
              alignedStart (reportPageSize (infoBytes dev vid pid)) rawStart)
            (alignedStart (reportPageSize (infoBytes dev vid pid)) rawStart) :: rest)) := by
  have hp := reportPageSize_range (infoBytes dev vid pid)
  have hf := reportFlashSize_range (infoBytes dev vid pid)
  have hu := usableSize_le (infoBytes dev vid pid)
  have hle : rawEnd ≤ usableSize (infoBytes dev vid pid) := not_lt.mp hcap
  exact ⟨aligned_end_le_flash _ _ rawEnd hp.1 hp.2 hint (lt_of_le_of_lt hle hu.2) hf.1
      (le_trans hle hu.1) hgeo,
    fun hopen hlt hinfo hlen =>
      uploadData_prints dev leave stack dataBuffer _ _ _ _ hopen hlt hinfo hlen hcap⟩

/-- Witness of C11: page size 4096 and flash size 32768, a power of two that
divides the flash size, with the raw range [-5, 30720), the largest raw end
that passes the capacity check; the aligned end is 32768. -/
theorem C11_aligned_end_le_flash_witness :
    ((-2147483648 : Int) ≤ 30720 ∧
      ¬ (30720 : Int) > usableSize (infoBytes devicePage4096Flash32768 0 0) ∧
      (∃ k : Nat, reportPageSize (infoBytes devicePage4096Flash32768 0 0) = 2 ^ k) ∧
      (2048 - reportFlashSize (infoBytes devicePage4096Flash32768 0 0)) %
        reportPageSize (infoBytes devicePage4096Flash32768 0 0) ≤ 2048) ∧
    alignedEnd (reportPageSize (infoBytes devicePage4096Flash32768 0 0)) 30720 ≤
      reportFlashSize (infoBytes devicePage4096Flash32768 0 0) ∧
    alignedEnd (reportPageSize (infoBytes devicePage4096Flash32768 0 0)) 30720 = 32768 ∧
    reportFlashSize (infoBytes devicePage4096Flash32768 0 0) = 32768 :=
  ⟨⟨by decide, by decide, ⟨12, by decide⟩, by decide⟩,
    (C11_aligned_end_le_flash devicePage4096Flash32768 false (fun _ => 0) (fun _ => 255) (-5)
      30720 0 0 (by decide) (by decide) (Or.inr (Or.inr ⟨⟨12, by decide⟩, by decide⟩))).1,
    by decide, by decide⟩

/-- C12 fails as stated: with the reported page size 4096 and flash size
0x7FFFFFFF the raw range [0, 2147481599) passes the capacity check, the sum
`endAddr + mask` = 2147481599 + 4095 does not fit a 32-bit `int`, and the
range `uploadData` prints has the end -2147483648, below the raw end; the run
returns 0 without sending a data block. -/
theorem C12_end_wraps_counterexample :
    uploadData deviceFlashMax false (fun _ => 0) (fun _ => 255) 0 2147481599 0 0 =
      some (0, infoTrace 0 0 ++ [Event.printUploading (-2147483648 - 0) 0,
        Event.closeDevice]) ∧
    reportPageSize (infoBytes deviceFlashMax 0 0) = 4096 ∧
    reportFlashSize (infoBytes deviceFlashMax 0 0) = 2147483647 ∧
    ¬ ((2147481599 : Int) > usableSize (infoBytes deviceFlashMax 0 0)) ∧
    alignedStart 4096 0 = 0 ∧ alignedEnd 4096 2147481599 = -2147483648 ∧
    ¬ ((2147481599 : Int) ≤ alignedEnd 4096 2147481599) := by
  refine ⟨by decide, by decide, by decide, by decide, by decide, by decide, by decide⟩

/-- C12, amended: for every raw range with `0 <= rawStart <= rawEnd` and
every page size such that `rawEnd + mask` fits a 32-bit `int`, the aligned
range covers the raw range: `start <= rawStart` and `end >= rawEnd`; for a
non-empty range that passes the checks this is the range `uploadData` prints
and transfers. -/
theorem C12_aligned_range_covers (dev : UsbDevice) (leave : Bool) (stack : Nat → Int)
    (dataBuffer : Int → Int) (pageSize rawStart rawEnd vid pid : Int)
    (h0 : 0 ≤ rawStart) (hle : rawStart ≤ rawEnd)
    (hov : rawEnd + alignMask pageSize < 2147483648) :
    alignedStart pageSize rawStart ≤ rawStart ∧ rawEnd ≤ alignedEnd pageSize rawEnd ∧
    (openResult dev vid pid = 0 → rawStart < rawEnd → infoResult dev vid pid = 0 →
      sizeofInfo ≤ (infoBytes dev vid pid).length →
      ¬ rawEnd > usableSize (infoBytes dev vid pid) →
      pageSize = reportPageSize (infoBytes dev vid pid) →
      ∃ err rest, uploadData dev leave stack dataBuffer rawStart rawEnd vid pid =
        some (err, infoTrace vid pid ++
          Event.printUploading (alignedEnd pageSize rawEnd - alignedStart pageSize rawStart)
            (alignedStart pageSize rawStart) :: rest)) := by
  obtain ⟨h1, h2, _⟩ := aligned_cover pageSize rawStart rawEnd h0 hle hov
  refine ⟨h1, h2, ?_⟩
  intro hopen hlt hinfo hlen hcap hp
  rw [hp]
  exact uploadData_prints dev leave stack dataBuffer _ _ _ _ hopen hlt hinfo hlen hcap

/-- Witness of C12: page size 200, which is no power of two, and the raw range
[8, 9), aligned to [8, 16). -/
theorem C12_aligned_range_covers_witness :
    ((0 : Int) ≤ 8 ∧ (8 : Int) ≤ 9 ∧ 9 + alignMask 200 < 2147483648) ∧
    alignedStart 200 8 ≤ 8 ∧ (9 : Int) ≤ alignedEnd 200 9 ∧ alignedEnd 200 9 = 16 :=
  ⟨⟨by decide, by decide, by decide⟩,
    (C12_aligned_range_covers devicePage200 false (fun _ => 0) (fun _ => 255) 200 8 9 0 0
      (by decide) (by decide) (by decide)).1,
    (C12_aligned_range_covers devicePage200 false (fun _ => 0) (fun _ => 255) 200 8 9 0 0
      (by decide) (by decide) (by decide)).2.1, by decide⟩

/-! ## The addresses of the data blocks -/

/-- Every 132-byte report of a run is the data block for an address
`start + 128 * j` below the aligned end, and the run passed the checks. -/
theorem uploadData_block_mem (dev : UsbDevice) (leave : Bool) (stack : Nat → Int)
    (dataBuffer : Int → Int) (rawStart rawEnd vid pid : Int) (err : Int) (tr : List Event)
    (hrun : uploadData dev leave stack dataBuffer rawStart rawEnd vid pid = some (err, tr))
    (b : List Int) (hb : Event.setReport b ∈ tr) (hlen : b.length = sizeofBuffer) :
    rawStart < rawEnd ∧ ¬ rawEnd > usableSize (infoBytes dev vid pid) ∧
    ∃ j : Nat,
      b = blockReport dataBuffer
        (alignedStart (reportPageSize (infoBytes dev vid pid)) rawStart + 128 * (j : Int)) ∧
      alignedStart (reportPageSize (infoBytes dev vid pid)) rawStart + 128 * (j : Int) <
        alignedEnd (reportPageSize (infoBytes dev vid pid)) rawEnd := by
  have hno : ∀ tr2 : List Event, tr = tr2 → Event.setReport b ∉ tr2 → False :=
    fun tr2 h1 h2 => h2 (h1 ▸ hb)
  by_cases hopen : openResult dev vid pid = 0
  · by_cases hlt : rawStart < rawEnd
    · by_cases hinfo : infoResult dev vid pid = 0
      · by_cases hl : sizeofInfo ≤ (infoBytes dev vid pid).length
        · by_cases hcap : rawEnd > usableSize (infoBytes dev vid pid)
          · rw [uploadData_capacity dev leave stack dataBuffer _ _ _ _ hopen hlt hinfo hl hcap]
              at hrun
            simp only [Option.some.injEq, Prod.mk.injEq] at hrun
            exact (hno _ hrun.2.symm (by simp [infoTrace, openTrace])).elim
          · obtain ⟨err2, m, tail, hrun2, h2, h3, _, _⟩ :=
              uploadData_upload_trace dev leave stack dataBuffer _ _ _ _ hopen hlt hinfo hl hcap
            rw [hrun2] at hrun
            simp only [Option.some.injEq, Prod.mk.injEq] at hrun
            rw [← hrun.2] at hb
            rcases List.mem_append.mp hb with hb1 | hb1
            · rcases List.mem_append.mp hb1 with hb2 | hb2
              · exact absurd hb2 (planTrace_no_write _ _ _ _ _ _)
              · obtain ⟨j, hj, hev⟩ := blockEvent_mem hb2
                simp only [blockEvent, Event.setReport.injEq, reportBytes_dataBlock] at hev
                exact ⟨hlt, hcap, j, hev, h2 j hj⟩
            · have := h3 b hb1
              rw [hlen] at this
              exact absurd this (by decide)
        · rw [uploadData_short dev leave stack dataBuffer _ _ _ _ hopen hlt hinfo
            (Nat.lt_of_not_le hl)] at hrun
          simp only [Option.some.injEq, Prod.mk.injEq] at hrun
          exact (hno _ hrun.2.symm (by simp [infoTrace, openTrace])).elim
      · rw [uploadData_info_fail dev leave stack dataBuffer _ _ _ _ hopen hlt hinfo] at hrun
        simp only [Option.some.injEq, Prod.mk.injEq] at hrun
        exact (hno _ hrun.2.symm (by simp [infoTrace, openTrace])).elim
    · rw [uploadData_empty dev leave stack dataBuffer _ _ _ _ hopen hlt] at hrun
      simp only [Option.some.injEq, Prod.mk.injEq] at hrun
      rw [← hrun.2] at hb
      have := leaveAndClose_writes leave stack _ b hb hlen
      simp [openTrace] at this
  · rw [uploadData_open_fail dev leave stack dataBuffer _ _ _ _ hopen] at hrun
    simp only [Option.some.injEq, Prod.mk.injEq] at hrun
    exact (hno _ hrun.2.symm (by simp [openTrace])).elim

/-- With a page size below 128 or a multiple of 128 the low seven bits of the
mask are set, and the aligned start and every address 128 bytes further on are
multiples of 128. -/
theorem block_address_dvd (pageSize rawStart : Int) (j : Nat)
    (hp0 : 0 ≤ pageSize) (hp1 : pageSize < 65536)
    (hlow : pageSize < 128 ∨ pageSize % 128 = 0) :
    alignMask pageSize % 128 = 127 ∧
    (128 : Int) ∣ alignedStart pageSize rawStart + 128 * (j : Int) := by
  have hm : alignMask pageSize % 128 = 127 := by
    unfold alignMask
    split <;> omega
  have hm0 : 0 ≤ alignMask pageSize ∧ alignMask pageSize < 2147483648 := by
    unfold alignMask
    split <;> omega
  have hd := bitAnd_bitNot_dvd rawStart (alignMask pageSize) 7 (by omega) hm0.1 hm0.2
    (by norm_num; exact hm)
  have h128 : ((2 : Int) ^ 7) = 128 := by norm_num
  rw [h128] at hd
  exact ⟨hm, dvd_add hd (dvd_mul_right _ _)⟩

theorem blockReport_low_byte (dataBuffer : Int → Int) (a : Int) (h : (128 : Int) ∣ a) :
    (blockReport dataBuffer a).getD 1 0 % 128 = 0 := by
  have : (blockReport dataBuffer a).getD 1 0 = a % 256 := rfl
  rw [this]
  omega

/-- C13 fails as stated: with the reported page size 200 the mask is 199, the
raw range [8, 9) is sent as one data block whose target address is 8 (address
bytes 8, 0, 0), and 8 is not a multiple of 128. -/
theorem C13_block_address_counterexample :
    uploadData devicePage200 true (fun _ => 0) (fun _ => 0) 8 9 0 0 =
      some (0, infoTrace 0 0 ++ [Event.printUploading 8 8,
        Event.setReport (blockReport (fun _ => 0) 8),
        Event.setReport [1, 8, 0, 0, 0, 0, 0], Event.closeDevice]) ∧
    (blockReport (fun _ => 0) 8).take 4 = [2, 8, 0, 0] ∧
    reportPageSize (infoBytes devicePage200 0 0) = 200 ∧ ¬ ((128 : Int) ∣ 8) := by
  refine ⟨by decide, by decide, by decide, by decide⟩

/-- C13, amended: for every run of `uploadData` on a device whose reported
page size is below 128 or a multiple of 128, so that the low seven bits of the
mask are set, every 132-byte report sent is the data block for an address that
is a multiple of 128, and so is the low address byte it carries. -/
theorem C13_block_address_multiple (dev : UsbDevice) (leave : Bool) (stack : Nat → Int)
    (dataBuffer : Int → Int) (rawStart rawEnd vid pid : Int)
    (hlow : reportPageSize (infoBytes dev vid pid) < 128 ∨
      reportPageSize (infoBytes dev vid pid) % 128 = 0)
    (err : Int) (tr : List Event)
    (hrun : uploadData dev leave stack dataBuffer rawStart rawEnd vid pid = some (err, tr))
    (b : List Int) (hb : Event.setReport b ∈ tr) (hlen : b.length = sizeofBuffer) :
    alignMask (reportPageSize (infoBytes dev vid pid)) % 128 = 127 ∧
    ∃ a : Int, b = blockReport dataBuffer a ∧ (128 : Int) ∣ a ∧ b.getD 1 0 % 128 = 0 := by
  obtain ⟨_, _, j, hj, _⟩ :=
    uploadData_block_mem dev leave stack dataBuffer _ _ _ _ err tr hrun b hb hlen
  have hr := reportPageSize_range (infoBytes dev vid pid)
  obtain ⟨hm, hd⟩ := block_address_dvd _ rawStart j hr.1 hr.2 hlow
  exact ⟨hm, _, hj, hd, hj ▸ blockReport_low_byte dataBuffer _ hd⟩

/-- Witness of C13: page size 384, which is no power of two, flash size 4096
and the raw range [200, 201), sent as the blocks at 128, 256 and 384. -/
theorem C13_block_address_multiple_witness :
    ((reportPageSize (infoBytes devicePage384 0 0) < 128 ∨
        reportPageSize (infoBytes devicePage384 0 0) % 128 = 0) ∧
      reportPageSize (infoBytes devicePage384 0 0) = 384 ∧
      uploadData devicePage384 false (fun _ => 0) (fun _ => 255) 200 201 0 0 =
        some (0, infoTrace 0 0 ++ [Event.printUploading 384 128,
          Event.setReport (blockReport (fun _ => 255) 128),
          Event.setReport (blockReport (fun _ => 255) 256),
          Event.setReport (blockReport (fun _ => 255) 384), Event.closeDevice]) ∧
      Event.setReport (blockReport (fun _ => 255) 384) ∈
        infoTrace 0 0 ++ [Event.printUploading 384 128,
          Event.setReport (blockReport (fun _ => 255) 128),
          Event.setReport (blockReport (fun _ => 255) 256),
          Event.setReport (blockReport (fun _ => 255) 384), Event.closeDevice] ∧
      (blockReport (fun _ => 255) 384).length = sizeofBuffer) ∧
    alignMask (reportPageSize (infoBytes devicePage384 0 0)) % 128 = 127 ∧
    ∃ a : Int, blockReport (fun _ => 255) 384 = blockReport (fun _ => 255) a ∧ (128 : Int) ∣ a ∧
      (blockReport (fun _ => 255) 384).getD 1 0 % 128 = 0 :=
  ⟨⟨Or.inr (by decide), by decide, by decide,
      List.mem_append_right _ (List.mem_cons_of_mem _ (List.mem_cons_of_mem _
        (List.mem_cons_of_mem _ (List.mem_cons_self _ _)))),
      blockReport_length _ _⟩,
    C13_block_address_multiple devicePage384 false (fun _ => 0) (fun _ => 255) 200 201 0 0
      (Or.inr (by decide)) 0
      (infoTrace 0 0 ++ [Event.printUploading 384 128,
        Event.setReport (blockReport (fun _ => 255) 128),
        Event.setReport (blockReport (fun _ => 255) 256),
        Event.setReport (blockReport (fun _ => 255) 384), Event.closeDevice])
      (by decide) (blockReport (fun _ => 255) 384)
      (List.mem_append_right _ (List.mem_cons_of_mem _ (List.mem_cons_of_mem _
        (List.mem_cons_of_mem _ (List.mem_cons_self _ _)))))
      (blockReport_length _ _)⟩

/-! ## The end of a run -/

theorem leaveReport_head (buffer : Nat → Int) :
    (reportBytes (fun i => if i = 0 then 1 else buffer i) sizeofInfo).head? = some 1 := rfl

theorem closeDevice_not_mem_blockEvents (dataBuffer : Int → Int) (s : Int) (m : Nat) :
    Event.closeDevice ∉ blockEvents dataBuffer s m := by
  intro h
  obtain ⟨k, _, hk⟩ := blockEvent_mem h
  simp [blockEvent] at hk

theorem closeDevice_not_mem_planTrace (pageSize startAddr endAddr vid pid : Int) :
    Event.closeDevice ∉ planTrace pageSize startAddr endAddr vid pid := by
  simp [planTrace, infoTrace, openTrace]

/-- The trace `leaveAndClose` returns is the trace so far, the mode-switch
report when it is requested, and the close. -/
theorem leaveAndClose_eq (leave : Bool) (buffer : Nat → Int) (tr : List Event) :
    leaveAndClose leave buffer tr =
      (tr ++ if leave then
          [Event.setReport (reportBytes (fun i => if i = 0 then 1 else buffer i) sizeofInfo)]
        else []) ++ [Event.closeDevice] := by
  cases leave <;> simp [leaveAndClose]

/-- A run that opened the device ends with the one `usbCloseDevice` call. -/
theorem uploadData_close_last (dev : UsbDevice) (leave : Bool) (stack : Nat → Int)
    (dataBuffer : Int → Int) (startAddr endAddr vid pid : Int)
    (hopen : openResult dev vid pid = 0) :
    ∃ err pre, uploadData dev leave stack dataBuffer startAddr endAddr vid pid =
        some (err, pre ++ [Event.closeDevice]) ∧
      Event.closeDevice ∉ pre := by
  have hleave : ∀ (buffer : Nat → Int) (tr : List Event), Event.closeDevice ∉ tr →
      ∃ pre, leaveAndClose leave buffer tr = pre ++ [Event.closeDevice] ∧
        Event.closeDevice ∉ pre := by
    intro buffer tr htr
    refine ⟨_, leaveAndClose_eq leave buffer tr, ?_⟩
    cases leave <;> simp [htr]
  by_cases hlt : startAddr < endAddr
  · by_cases hinfo : infoResult dev vid pid = 0
    · by_cases hl : sizeofInfo ≤ (infoBytes dev vid pid).length
      · by_cases hcap : endAddr > usableSize (infoBytes dev vid pid)
        · exact ⟨_, _, uploadData_capacity dev leave stack dataBuffer _ _ _ _ hopen hlt hinfo
            hl hcap, by simp [infoTrace, openTrace]⟩
        · rw [uploadData_upload dev leave stack dataBuffer _ _ _ _ hopen hlt hinfo hl hcap]
          obtain ⟨⟨err, buffer, tr⟩, hr⟩ := uploadLoop_returns dev dataBuffer _
            (alignedStart (reportPageSize (infoBytes dev vid pid)) startAddr)
            (alignedEnd (reportPageSize (infoBytes dev vid pid)) endAddr)
            (infoBuffer dev stack vid pid)
            (planTrace (reportPageSize (infoBytes dev vid pid)) startAddr endAddr vid pid)
            (le_refl _)
          obtain ⟨m, h1, _⟩ := uploadLoop_spec dev dataBuffer _ _ _ _ _ _ _ _ hr
            (dataWritesOk_planTrace dev _ _ _ _ _)
          have htr : Event.closeDevice ∉ tr := by
            rw [h1]
            intro h
            rcases List.mem_append.mp h with h | h
            · exact closeDevice_not_mem_planTrace _ _ _ _ _ h
            · exact closeDevice_not_mem_blockEvents _ _ _ h
          rw [hr, finishUpload]
          by_cases herr : err = 0
          · rw [if_neg (not_not.mpr herr)]
            obtain ⟨pre, hpre, hclose⟩ := hleave buffer tr htr
            exact ⟨0, pre, by rw [hpre], hclose⟩
          · rw [if_pos herr]
            exact ⟨err, tr, rfl, htr⟩
      · exact ⟨_, _, uploadData_short dev leave stack dataBuffer _ _ _ _ hopen hlt hinfo
          (Nat.lt_of_not_le hl), by simp [infoTrace, openTrace]⟩
    · exact ⟨_, _, uploadData_info_fail dev leave stack dataBuffer _ _ _ _ hopen hlt hinfo,
        by simp [infoTrace, openTrace]⟩
  · rw [uploadData_empty dev leave stack dataBuffer _ _ _ _ hopen hlt]
    obtain ⟨pre, hpre, hclose⟩ := hleave stack (openTrace vid pid) (by simp [openTrace])
    exact ⟨0, pre, by rw [hpre], hclose⟩

/-- A run whose data-block writes all succeed returns 0 after the mode-switch
report and the close. -/
theorem uploadData_writes_ok (dev : UsbDevice) (leave : Bool) (stack : Nat → Int)
    (dataBuffer : Int → Int) (startAddr endAddr vid pid : Int)
    (hopen : openResult dev vid pid = 0) (hlt : startAddr < endAddr)
    (hinfo : infoResult dev vid pid = 0)
    (hlen : sizeofInfo ≤ (infoBytes dev vid pid).length)
    (hcap : ¬ endAddr > usableSize (infoBytes dev vid pid))
    (hwrites : ∀ tr b, b.length = sizeofBuffer → dev.setReport tr b = 0) :
    ∃ (buffer : Nat → Int) (tr : List Event),
      uploadData dev leave stack dataBuffer startAddr endAddr vid pid =
        some (0, leaveAndClose leave buffer tr) := by
  rw [uploadData_upload dev leave stack dataBuffer _ _ _ _ hopen hlt hinfo hlen hcap]
  obtain ⟨⟨err, buffer, tr⟩, hr⟩ := uploadLoop_returns dev dataBuffer _
    (alignedStart (reportPageSize (infoBytes dev vid pid)) startAddr)
    (alignedEnd (reportPageSize (infoBytes dev vid pid)) endAddr)
    (infoBuffer dev stack vid pid)
    (planTrace (reportPageSize (infoBytes dev vid pid)) startAddr endAddr vid pid) (le_refl _)
  obtain ⟨m, _, _, _, h4⟩ := uploadLoop_spec dev dataBuffer _ _ _ _ _ _ _ _ hr
    (dataWritesOk_planTrace dev _ _ _ _ _)
  have herr : err = 0 := by
    by_contra hne
    obtain ⟨tr1, _, _, hw⟩ := h4 hne
    rw [hwrites _ _ (reportBytes_length _ _)] at hw
    exact hne hw.symm
  rw [hr, finishUpload, if_neg (not_not.mpr herr)]
  exact ⟨buffer, tr, rfl⟩

/-- The transfer loop asks the device for the result of 132-byte reports only. -/
theorem uploadLoop_congr (dev : UsbDevice) (w : List Event → List Int → Int)
    (hw : ∀ tr b, b.length = sizeofBuffer → w tr b = dev.setReport tr b)
    (dataBuffer : Int → Int) :
    ∀ (fuel : Nat) (s e : Int) (buffer : Nat → Int) (tr : List Event),
      uploadLoop ⟨dev.openDevice, dev.getReport, w⟩ dataBuffer fuel s e buffer tr =
        uploadLoop dev dataBuffer fuel s e buffer tr := by
  intro fuel
  induction fuel with
  | zero =>
    intro s e buffer tr
    rw [uploadLoop, uploadLoop]
  | succ f ih =>
    intro s e buffer tr
    rw [uploadLoop, uploadLoop]
    dsimp only
    rw [hw _ _ (reportBytes_length _ _), ih]

/-- The result of a run does not depend on what the device answers to a
report that is not a 132-byte data block. -/
theorem uploadData_congr (dev : UsbDevice) (w : List Event → List Int → Int)
    (hw : ∀ tr b, b.length = sizeofBuffer → w tr b = dev.setReport tr b)
    (leave : Bool) (stack : Nat → Int) (dataBuffer : Int → Int)
    (startAddr endAddr vid pid : Int) :
    uploadData ⟨dev.openDevice, dev.getReport, w⟩ leave stack dataBuffer startAddr endAddr
        vid pid =
      uploadData dev leave stack dataBuffer startAddr endAddr vid pid := by
  by_cases hopen : openResult dev vid pid = 0
  · by_cases hlt : startAddr < endAddr
    · by_cases hinfo : infoResult dev vid pid = 0
      · by_cases hl : sizeofInfo ≤ (infoBytes dev vid pid).length
        · by_cases hcap : endAddr > usableSize (infoBytes dev vid pid)
          · rw [uploadData_capacity dev leave stack dataBuffer _ _ _ _ hopen hlt hinfo hl hcap]
            exact uploadData_capacity ⟨dev.openDevice, dev.getReport, w⟩ leave stack dataBuffer
              _ _ _ _ hopen hlt hinfo hl hcap
          · rw [uploadData_upload dev leave stack dataBuffer _ _ _ _ hopen hlt hinfo hl hcap,
              ← uploadLoop_congr dev w hw]
            exact uploadData_upload ⟨dev.openDevice, dev.getReport, w⟩ leave stack dataBuffer
              _ _ _ _ hopen hlt hinfo hl hcap
        · rw [uploadData_short dev leave stack dataBuffer _ _ _ _ hopen hlt hinfo
            (Nat.lt_of_not_le hl)]
          exact uploadData_short ⟨dev.openDevice, dev.getReport, w⟩ leave stack dataBuffer
            _ _ _ _ hopen hlt hinfo (Nat.lt_of_not_le hl)
      · rw [uploadData_info_fail dev leave stack dataBuffer _ _ _ _ hopen hlt hinfo]
        exact uploadData_info_fail ⟨dev.openDevice, dev.getReport, w⟩ leave stack dataBuffer
          _ _ _ _ hopen hlt hinfo
    · rw [uploadData_empty dev leave stack dataBuffer _ _ _ _ hopen hlt]
      exact uploadData_empty ⟨dev.openDevice, dev.getReport, w⟩ leave stack dataBuffer
        _ _ _ _ hopen hlt
  · rw [uploadData_open_fail dev leave stack dataBuffer _ _ _ _ hopen]
    exact uploadData_open_fail ⟨dev.openDevice, dev.getReport, w⟩ leave stack dataBuffer
      _ _ _ _ hopen

/-! ## The claims about the end of a run -/

/-- C14: a call of `uploadData` with an empty range (`endAddr <= startAddr`)
on a device that opens returns 0; its trace is the open and the close, with
between them, when leaving the boot loader is requested, one report of 7 bytes
(the size of the device-info record) whose first byte is 1; so it holds no
`usbGetReport` call and no 132-byte report. -/
theorem C14_empty_range (dev : UsbDevice) (leave : Bool) (stack : Nat → Int)
    (dataBuffer : Int → Int) (startAddr endAddr vid pid : Int)
    (hopen : openResult dev vid pid = 0) (hle : endAddr ≤ startAddr) :
    ∃ tr, uploadData dev leave stack dataBuffer startAddr endAddr vid pid = some (0, tr) ∧
      (∀ reportId len, Event.getReport reportId len ∉ tr) ∧
      (∀ b, Event.setReport b ∈ tr → b.length ≠ sizeofBuffer) ∧
      (leave = true → ∃ m, m.length = sizeofInfo ∧ m.head? = some 1 ∧
        tr = [Event.openDevice (usbIds vid pid).1 (usbIds vid pid).2, Event.setReport m,
          Event.closeDevice]) ∧
      (leave = false →
        tr = [Event.openDevice (usbIds vid pid).1 (usbIds vid pid).2, Event.closeDevice]) := by
  refine ⟨_, uploadData_empty dev leave stack dataBuffer _ _ _ _ hopen (not_lt.mpr hle),
    ?_, ?_, ?_, ?_⟩
  · intro reportId len
    cases leave <;> simp [leaveAndClose, openTrace]
  · intro b hb hlen
    have := leaveAndClose_writes leave stack _ b hb hlen
    simp [openTrace] at this
  · intro hl
    subst hl
    exact ⟨_, reportBytes_length _ _, leaveReport_head stack, by simp [leaveAndClose, openTrace]⟩
  · intro hl
    subst hl
    simp [leaveAndClose, openTrace]

/-- Witness of C14: the bounds `main` passes when no file is given, start
65792 and end 0, with the request to leave the boot loader. -/
theorem C14_empty_range_witness :
    (openResult deviceFlash4096 0 0 = 0 ∧ (0 : Int) ≤ 65792) ∧
    ∃ tr, uploadData deviceFlash4096 true (fun _ => 0) (fun _ => 255) 65792 0 0 0 =
        some (0, tr) ∧
      (∀ reportId len, Event.getReport reportId len ∉ tr) ∧
      (∀ b, Event.setReport b ∈ tr → b.length ≠ sizeofBuffer) ∧
      (true = true → ∃ m, m.length = sizeofInfo ∧ m.head? = some 1 ∧
        tr = [Event.openDevice (usbIds 0 0).1 (usbIds 0 0).2, Event.setReport m,
          Event.closeDevice]) ∧
      (true = false →
        tr = [Event.openDevice (usbIds 0 0).1 (usbIds 0 0).2, Event.closeDevice]) :=
  ⟨⟨by decide, by decide⟩,
    C14_empty_range deviceFlash4096 true (fun _ => 0) (fun _ => 255) 65792 0 0 0 (by decide)
      (by decide)⟩

/-- C15: when the open, the geometry read, the capacity check and every
132-byte data-block write succeed and leaving the boot loader is requested,
`uploadData` returns 0 and its trace ends with the 7-byte mode-switch report,
first byte 1, and the close, whatever the device answers to that report:
replacing the results of all writes other than data blocks by any others
gives the same status and the same trace. -/
theorem C15_mode_switch_result_ignored (dev : UsbDevice) (stack : Nat → Int)
    (dataBuffer : Int → Int) (rawStart rawEnd vid pid : Int)
    (hopen : openResult dev vid pid = 0)
    (hgeo : rawStart < rawEnd → infoResult dev vid pid = 0 ∧
      sizeofInfo ≤ (infoBytes dev vid pid).length ∧
      ¬ rawEnd > usableSize (infoBytes dev vid pid))
    (hwrites : ∀ tr b, b.length = sizeofBuffer → dev.setReport tr b = 0) :
    (∃ pre m, uploadData dev true stack dataBuffer rawStart rawEnd vid pid =
        some (0, pre ++ [Event.setReport m, Event.closeDevice]) ∧
      m.length = sizeofInfo ∧ m.head? = some 1) ∧
    ∀ w : List Event → List Int → Int,
      (∀ tr b, b.length = sizeofBuffer → w tr b = dev.setReport tr b) →
      uploadData ⟨dev.openDevice, dev.getReport, w⟩ true stack dataBuffer rawStart rawEnd
          vid pid =
        uploadData dev true stack dataBuffer rawStart rawEnd vid pid := by
  refine ⟨?_, fun w hw => uploadData_congr dev w hw true stack dataBuffer _ _ _ _⟩
  by_cases hlt : rawStart < rawEnd
  · obtain ⟨hinfo, hlen, hcap⟩ := hgeo hlt
    obtain ⟨buffer, tr, hrun⟩ := uploadData_writes_ok dev true stack dataBuffer _ _ _ _ hopen hlt
      hinfo hlen hcap hwrites
    exact ⟨tr, _, by rw [hrun]; simp [leaveAndClose], reportBytes_length _ _,
      leaveReport_head buffer⟩
  · exact ⟨openTrace vid pid, _, by
      rw [uploadData_empty dev true stack dataBuffer _ _ _ _ hopen hlt]
      simp [leaveAndClose], reportBytes_length _ _, leaveReport_head stack⟩

/-- Witness of C15: a device that accepts the data blocks and answers 7 to the
mode-switch report; the upload of [0, 2) returns 0. -/
theorem C15_mode_switch_result_ignored_witness :
    (openResult deviceLeaveFails 0 0 = 0 ∧
      ((0 : Int) < 2 → infoResult deviceLeaveFails 0 0 = 0 ∧
        sizeofInfo ≤ (infoBytes deviceLeaveFails 0 0).length ∧
        ¬ (2 : Int) > usableSize (infoBytes deviceLeaveFails 0 0)) ∧
      (∀ tr b, b.length = sizeofBuffer → deviceLeaveFails.setReport tr b = 0) ∧
      ∀ tr m, m.length = sizeofInfo → deviceLeaveFails.setReport tr m = 7) ∧
    ∃ pre m, uploadData deviceLeaveFails true (fun _ => 0) (fun _ => 255) 0 2 0 0 =
        some (0, pre ++ [Event.setReport m, Event.closeDevice]) ∧
      m.length = sizeofInfo ∧ m.head? = some 1 :=
  ⟨⟨by decide, fun _ => by decide, fun _ _ h => if_pos h,
      fun _ m h => if_neg (by rw [h]; decide)⟩,
    (C15_mode_switch_result_ignored deviceLeaveFails (fun _ => 0) (fun _ => 255) 0 2 0 0
      (by decide) (fun _ => by decide) (fun _ _ h => if_pos h)).1⟩

/-- C16: in every run of `uploadData` in which `usbOpenDevice` succeeds, the
trace ends with `usbCloseDevice` and holds no other `usbCloseDevice` call,
whichever way the run ends. -/
theorem C16_close_once_last (dev : UsbDevice) (leave : Bool) (stack : Nat → Int)
    (dataBuffer : Int → Int) (startAddr endAddr vid pid : Int)
    (hopen : openResult dev vid pid = 0) :
    ∃ err pre, uploadData dev leave stack dataBuffer startAddr endAddr vid pid =
        some (err, pre ++ [Event.closeDevice]) ∧
      Event.closeDevice ∉ pre ∧ (pre ++ [Event.closeDevice]).count Event.closeDevice = 1 := by
  obtain ⟨err, pre, hrun, hpre⟩ :=
    uploadData_close_last dev leave stack dataBuffer startAddr endAddr vid pid hopen
  refine ⟨err, pre, hrun, hpre, ?_⟩
  rw [List.count_append, List.count_eq_zero_of_not_mem hpre]
  rfl

/-- Witness of C16: a run that ends with a failed data-block write. -/
theorem C16_close_once_last_witness :
    openResult deviceWriteFails 0 0 = 0 ∧
    (∃ err pre, uploadData deviceWriteFails true (fun _ => 0) (fun _ => 255) 0 2 0 0 =
        some (err, pre ++ [Event.closeDevice]) ∧
      Event.closeDevice ∉ pre ∧ (pre ++ [Event.closeDevice]).count Event.closeDevice = 1) ∧
    uploadData deviceWriteFails true (fun _ => 0) (fun _ => 255) 0 2 0 0 =
      some (5, infoTrace 0 0 ++ [Event.printUploading 128 0,
        Event.setReport (blockReport (fun _ => 255) 0)] ++ [Event.closeDevice]) :=
  ⟨by decide,
    C16_close_once_last deviceWriteFails true (fun _ => 0) (fun _ => 255) 0 2 0 0 (by decide),
    by decide⟩

/-! ## Text between records and the bounds of the stores -/

theorem applyRecord_outside (r : RecordText) (hr : r.wellFormed = true) (img : Image)
    (j : Int) (hj : j < 0 ∨ 65789 < j) : (applyRecord r img).buffer j = img.buffer j := by
  obtain ⟨hc, ha, _, _, _, _, _⟩ := (wellFormed_iff r).mp hr
  have h1 : r.address < 16 ^ 4 := hexValue_lt ha
  have h2 : r.byteCount < 16 ^ 2 := hexValue_lt hc
  have h3 := bytes_length r hr
  unfold applyRecord
  split
  · rfl
  · exact writeBytes_outside _ _ _ _ (by omega)

theorem applyRecords_outside (recs : List RecordText) (h : ∀ r ∈ recs, r.wellFormed = true)
    (j : Int) (hj : j < 0 ∨ 65789 < j) :
    ∀ img : Image, (applyRecords recs img).buffer j = img.buffer j := by
  induction recs with
  | nil => intro img; rfl
  | cons r recs ih =>
    intro img
    have h1 : applyRecords (r :: recs) img = applyRecords recs (applyRecord r img) := rfl
    rw [h1, ih (fun x hx => h x (List.mem_cons_of_mem _ hx)),
      applyRecord_outside r (h r (List.mem_cons_self _ _)) img j hj]

theorem record_index_bounds (r : RecordText) (hr : r.wellFormed = true) (i : Nat)
    (hi : i < r.bytes.length) :
    (0 : Int) ≤ (r.address : Int) + i ∧ (r.address : Int) + i ≤ 65789 ∧
      (r.address : Int) + i < bufferSize := by
  obtain ⟨hc, ha, _, _, _, _, _⟩ := (wellFormed_iff r).mp hr
  have h1 : r.address < 16 ^ 4 := hexValue_lt ha
  have h2 : r.byteCount < 16 ^ 2 := hexValue_lt hc
  have h3 := bytes_length r hr
  simp only [bufferSize]
  omega

/-- C18: for a file of well-formed records, text `s` without `':'` put
before the first record (`pre = []`) or between two records leaves the
result of `parseIntelHex` (status, buffer, both bounds, warnings) as it is
without `s`; and an input without any `':'` gives status 0 and leaves the
buffer and both bounds unchanged. -/
theorem C18_colon_free_text_skipped (s : List Nat) (pre post : List RecordText) (img : Image)
    (hs : ∀ c ∈ s, c ≠ colon) (hpre : ∀ r ∈ pre, r.wellFormed = true)
    (hpost : ∀ r ∈ post, r.wellFormed = true) :
    parseIntelHex (some (fileText pre ++ (s ++ fileText post))) img =
      parseIntelHex (some (fileText pre ++ fileText post)) img ∧
    parseIntelHex (some (fileText pre ++ fileText post)) img =
      .ok (0, applyRecords (pre ++ post) img, fileWarnings (pre ++ post)) ∧
    parseIntelHex (some s) img = .ok (0, img, []) := by
  have h1 := parseIntelHex_records [] pre (s ++ fileText post) img (by simp) hpre
  have h2 := parseIntelHex_file s post (applyRecords pre img) hs hpost
  have h3 := parseIntelHex_file [] (pre ++ post) img (by simp) (by
    intro r hr
    rcases List.mem_append.mp hr with h | h
    · exact hpre r h
    · exact hpost r h)
  rw [List.nil_append] at h1 h3
  rw [fileText_append] at h3
  refine ⟨?_, h3, parseIntelHex_noColon s img hs⟩
  rw [h1, h2, h3, applyRecords_append, fileWarnings_append]
  rfl

/-- Witness of C18: the line `junk` between the record `:02000000FEFF01` and
the end-of-file record. -/
theorem C18_colon_free_text_skipped_witness :
    ((∀ c ∈ [106, 117, 110, 107, 10], c ≠ colon) ∧
      (∀ r ∈ [sampleRecord], r.wellFormed = true) ∧
      (∀ r ∈ [sampleEofRecord], r.wellFormed = true)) ∧
    parseIntelHex (some (fileText [sampleRecord] ++
        ([106, 117, 110, 107, 10] ++ fileText [sampleEofRecord]))) freshImage =
      parseIntelHex (some (fileText [sampleRecord] ++ fileText [sampleEofRecord])) freshImage :=
  ⟨⟨by decide, by decide, by decide⟩,
    (C18_colon_free_text_skipped [106, 117, 110, 107, 10] [sampleRecord] [sampleEofRecord]
      freshImage (by decide) (by decide) (by decide)).1⟩

/-- C19: for an input made of records whose fixed-width fields are
hexadecimal digits, `parseIntelHex` ends with status 0 and not in the
out-of-bounds fault; every index `address + i` a data record stores to is at
least 0, at most `0xFFFF + 0xFF - 1 = 65789` and inside the 65792-byte buffer,
and the buffer is unchanged at every index outside `[0, 65789]`. -/
theorem C19_stores_in_bounds (lead : List Nat) (recs : List RecordText) (img : Image)
    (hlead : ∀ c ∈ lead, c ≠ colon) (h : ∀ r ∈ recs, r.wellFormed = true) :
    (∃ img2 ws, parseIntelHex (some (lead ++ fileText recs)) img = .ok (0, img2, ws) ∧
      img2 = applyRecords recs img ∧
      ∀ j : Int, j < 0 ∨ 0xFFFF + 0xFF - 1 < j → img2.buffer j = img.buffer j) ∧
    parseIntelHex (some (lead ++ fileText recs)) img ≠ .error .outOfBounds ∧
    (∀ r ∈ recs, ∀ i : Nat, i < r.bytes.length →
      (0 : Int) ≤ (r.address : Int) + i ∧ (r.address : Int) + i ≤ 65789 ∧
        (r.address : Int) + i < bufferSize) ∧
    (0xFFFF + 0xFF - 1 : Int) = 65789 := by
  have hrun := parseIntelHex_file lead recs img hlead h
  refine ⟨⟨_, _, hrun, rfl, fun j hj => applyRecords_outside recs h j ?_ img⟩, ?_,
    fun r hr i hi => record_index_bounds r (h r hr) i hi, by norm_num⟩
  · omega
  · rw [hrun]
    simp

/-- Witness of C19: a record that stores at 65535 and 65536. -/
theorem C19_stores_in_bounds_witness :
    ((∀ c ∈ ([] : List Nat), c ≠ colon) ∧ (∀ r ∈ [sampleHighRecord], r.wellFormed = true)) ∧
    parseIntelHex (some ([] ++ fileText [sampleHighRecord])) freshImage ≠
      .error .outOfBounds ∧
    sampleHighRecord.address = 65535 ∧ sampleHighRecord.bytes = [170, 187] :=
  ⟨⟨by simp, by decide⟩,
    (C19_stores_in_bounds [] [sampleHighRecord] freshImage (by simp) (by decide)).2.1,
    by decide, by decide⟩

/-! ## The two-record scenario -/

/-- A run on a device all of whose writes succeed returns 0 after one data
block per address `start, start + 128, ...` below `end`. -/
theorem uploadData_blocks_ok (dev : UsbDevice) (leave : Bool) (stack : Nat → Int)
    (dataBuffer : Int → Int) (startAddr endAddr vid pid : Int)
    (hopen : openResult dev vid pid = 0) (hlt : startAddr < endAddr)
    (hinfo : infoResult dev vid pid = 0)
    (hlen : sizeofInfo ≤ (infoBytes dev vid pid).length)
    (hcap : ¬ endAddr > usableSize (infoBytes dev vid pid))
    (hall : ∀ tr b, dev.setReport tr b = 0) :
    ∃ tail, uploadData dev leave stack dataBuffer startAddr endAddr vid pid =
        some (0, planTrace (reportPageSize (infoBytes dev vid pid)) startAddr endAddr vid pid ++
          blockEvents dataBuffer (alignedStart (reportPageSize (infoBytes dev vid pid)) startAddr)
            ((alignedEnd (reportPageSize (infoBytes dev vid pid)) endAddr -
              alignedStart (reportPageSize (infoBytes dev vid pid)) startAddr + 127) / 128).toNat
          ++ tail) ∧
      ∀ b, Event.setReport b ∈ tail → b.length = sizeofInfo := by
  obtain ⟨err, m, tail, hrun, h2, h3, h4, h5⟩ :=
    uploadData_upload_trace dev leave stack dataBuffer _ _ _ _ hopen hlt hinfo hlen hcap
  have herr : err = 0 := by
    by_contra hne
    obtain ⟨_, tr, b, hb⟩ := h5 hne
    exact hne (by rw [← hb]; exact hall _ _)
  subst herr
  rw [block_count _ _ m h2 (h4 rfl)]
  exact ⟨tail, hrun, h3⟩

theorem scenario_block :
    blockReport (applyRecords [sampleRecord, sampleEofRecord] freshImage).buffer 0 =
      [2, 0, 0, 0, 254, 255] ++ List.replicate 126 255 := by
  decide

theorem scenario_image :
    applyRecords [sampleRecord, sampleEofRecord] freshImage =
      ⟨writeBytes (fun _ => 255) 0 [254, 255], 0, 2⟩ := rfl

/-- C17: decoding `:02000000FEFF01`, `:00000001FF` (each line ended by a line
feed) into the buffer `main` prepares, all bytes 0xFF with start 65792 and end
0, returns 0 without a warning and leaves 0xFE, 0xFF at addresses 0 and 1, 0xFF
elsewhere, `startAddress = 0` and `endAddress = 2`; with a device that reports
page size 128 and flash size 4096 the aligned range is [0, 128) and
`uploadData` returns 0 after exactly one data block: report id 2, address 0,
payload 0xFE, 0xFF and 126 bytes 0xFF. -/
theorem C17_two_record_scenario :
    scenarioText = sampleRecord.text ++ sampleEofRecord.text ∧
    freshImage.startAddr = 65792 ∧ freshImage.endAddr = 0 ∧
    reportPageSize (infoBytes deviceFlash4096 0 0) = 128 ∧
    reportFlashSize (infoBytes deviceFlash4096 0 0) = 4096 ∧
    alignedStart 128 0 = 0 ∧ alignedEnd 128 2 = 128 ∧
    ∃ img : Image, parseIntelHex (some scenarioText) freshImage = .ok (0, img, []) ∧
      img.buffer 0 = 0xFE ∧ img.buffer 1 = 0xFF ∧
      (∀ j : Int, j ≠ 0 → img.buffer j = 0xFF) ∧
      img.startAddr = 0 ∧ img.endAddr = 2 ∧
      ∀ (leave : Bool) (stack : Nat → Int), ∃ tail,
        uploadData deviceFlash4096 leave stack img.buffer img.startAddr img.endAddr 0 0 =
          some (0, infoTrace 0 0 ++ [Event.printUploading 128 0,
            Event.setReport ([2, 0, 0, 0, 0xFE, 0xFF] ++ List.replicate 126 0xFF)] ++ tail) ∧
        ∀ b, Event.setReport b ∈ tail → b.length = sizeofInfo := by
  have htext : scenarioText = [] ++ fileText [sampleRecord, sampleEofRecord] := by decide
  refine ⟨by decide, rfl, rfl, by decide, by decide, by decide, by decide,
    applyRecords [sampleRecord, sampleEofRecord] freshImage, ?_, by decide, by decide, ?_,
    rfl, rfl, ?_⟩
  · rw [htext, parseIntelHex_file [] _ freshImage (by simp) (by decide)]
    rfl
  · intro j hj
    rw [scenario_image]
    by_cases h1 : j = 1
    · subst h1
      decide
    · show writeBytes (fun _ => 255) 0 [254, 255] j = 255
      rw [writeBytes_outside _ _ _ _ (by
        simp only [List.length_cons, List.length_nil]
        omega)]
  · intro leave stack
    obtain ⟨tail, hrun, htail⟩ := uploadData_blocks_ok deviceFlash4096 leave stack
      (applyRecords [sampleRecord, sampleEofRecord] freshImage).buffer 0 2 0 0
      (by decide) (by decide) (by decide) (by decide) (by decide) (fun _ _ => rfl)
    have hp : planTrace (reportPageSize (infoBytes deviceFlash4096 0 0)) 0 2 0 0 =
        infoTrace 0 0 ++ [Event.printUploading 128 0] := by decide
    have hm : ((alignedEnd (reportPageSize (infoBytes deviceFlash4096 0 0)) 2 -
        alignedStart (reportPageSize (infoBytes deviceFlash4096 0 0)) 0 + 127) / 128).toNat =
          1 := by decide
    have hs : alignedStart (reportPageSize (infoBytes deviceFlash4096 0 0)) 0 = 0 := by decide
    have hb : ∀ db : Int → Int, blockEvents db 0 1 = [Event.setReport (blockReport db 0)] := by
      intro db
      rw [blockEvents_eq]
      rfl
    rw [hp, hm, hs, hb] at hrun
    refine ⟨tail, ?_, htail⟩
    have hstart : (applyRecords [sampleRecord, sampleEofRecord] freshImage).startAddr = 0 := rfl
    have hend : (applyRecords [sampleRecord, sampleEofRecord] freshImage).endAddr = 2 := rfl
    rw [hstart, hend, hrun, ← scenario_block]
    simp

end BootloadJOY
